import Mathlib

/-! # svm-pay C++ SDK: payment-URL codec and reference identifiers

A shallow embedding of `cpp-sdk/src/core/types.cpp`, `cpp-sdk/src/core/url_scheme.cpp`
and `cpp-sdk/src/core/reference.cpp`, followed by theorems about it.

Conventions of the embedding:

* a `std::string` is the list of its `char`s (`Str`); a `char` is a `Char` whose code is the
  byte value, so inputs of the program are lists of characters with code below 256;
* an `unsigned char` buffer is a list of naturals below 256;
* a function that throws returns `Except`, the error constructor recording which `throw`
  statement fired (the message of the exception);
* the character classification functions are those of the "C" locale.
-/

namespace SvmPay

/-- The type `std::string`. -/
abbrev Str := List Char

deriving instance DecidableEq for Except

/-! ## types.hpp / types.cpp -/

/-- The enum class `SVMNetwork`. -/
inductive SVMNetwork where
  | SOLANA
  | SONIC
  | ECLIPSE
  | SOON
  deriving DecidableEq, Repr

/-- The enum class `RequestType`. -/
inductive RequestType where
  | TRANSFER
  | TRANSACTION
  | CROSS_CHAIN_TRANSFER
  deriving DecidableEq, Repr

/-- The exceptions of types.cpp (all are `std::invalid_argument`). -/
inductive TypesError where
  /-- The message "Unknown network: " followed by the string. -/
  | unknownNetwork (network : Str)
  /-- The message "Unknown request type: " followed by the string. -/
  | unknownRequestType (type : Str)
  /-- The message "Unknown payment status: " followed by the string. -/
  | unknownPaymentStatus (status : Str)
  deriving DecidableEq, Repr

/-- The function `network_to_string`; the `default:` branch cannot be reached from the four
enumerators. -/
def network_to_string : SVMNetwork → Str
  | .SOLANA => "solana".toList
  | .SONIC => "sonic".toList
  | .ECLIPSE => "eclipse".toList
  | .SOON => "soon".toList

/-- The function `string_to_network`. -/
def string_to_network (network : Str) : Except TypesError SVMNetwork :=
  if network = "solana".toList then .ok .SOLANA
  else if network = "sonic".toList then .ok .SONIC
  else if network = "eclipse".toList then .ok .ECLIPSE
  else if network = "soon".toList then .ok .SOON
  else .error (.unknownNetwork network)

/-- The struct `PaymentRequest` (base of the three request shapes). -/
structure PaymentRequest where
  type : RequestType
  network : SVMNetwork
  recipient : Str
  label : Option Str
  message : Option Str
  memo : Option Str
  references : List Str
  deriving DecidableEq, Repr

/-- The struct `TransferRequest`. -/
structure TransferRequest extends PaymentRequest where
  amount : Str
  spl_token : Option Str
  deriving DecidableEq, Repr

/-- The struct `TransactionRequest`. -/
structure TransactionRequest extends PaymentRequest where
  link : Str
  deriving DecidableEq, Repr

/-- The struct `CrossChainTransferRequest`; `bridge_params` is a map, kept as its entries. -/
structure CrossChainTransferRequest extends PaymentRequest where
  source_network : Str
  destination_network : Str
  amount : Str
  token : Str
  bridge : Option Str
  bridge_params : List (Str × Str)
  deriving DecidableEq, Repr

/-- The constructor `PaymentRequest(type, network, recipient)`: the optionals and the
reference vector are default-initialised. -/
def PaymentRequest.new (type : RequestType) (network : SVMNetwork) (recipient : Str) :
    PaymentRequest :=
  ⟨type, network, recipient, none, none, none, []⟩

/-- The constructor `TransferRequest(network, recipient, amount)`. -/
def TransferRequest.new (network : SVMNetwork) (recipient amount : Str) : TransferRequest :=
  ⟨PaymentRequest.new .TRANSFER network recipient, amount, none⟩

/-- The constructor `TransactionRequest(network, recipient, link)`. -/
def TransactionRequest.new (network : SVMNetwork) (recipient link : Str) :
    TransactionRequest :=
  ⟨PaymentRequest.new .TRANSACTION network recipient, link⟩

/-- The constructor `CrossChainTransferRequest(source_network, destination_network, recipient,
amount, token)`: the SVM destination goes to the base field `network`; the string member
`destination_network` and the map are default-initialised. -/
def CrossChainTransferRequest.new (source_network : Str) (destination_network : SVMNetwork)
    (recipient amount token : Str) : CrossChainTransferRequest :=
  ⟨PaymentRequest.new .CROSS_CHAIN_TRANSFER destination_network recipient,
    source_network, [], amount, token, none, []⟩

/-- What a `std::unique_ptr<PaymentRequest>` points to: an object of one of the three
derived structs. -/
inductive Request where
  | transfer (r : TransferRequest)
  | transaction (r : TransactionRequest)
  | crossChain (r : CrossChainTransferRequest)
  deriving DecidableEq, Repr

/-- The base sub-object of a request. -/
def Request.base : Request → PaymentRequest
  | .transfer r => r.toPaymentRequest
  | .transaction r => r.toPaymentRequest
  | .crossChain r => r.toPaymentRequest

/-! ## url_scheme.cpp: character level -/

/-- The function `std::isalnum` in the "C" locale. -/
def isalnum (c : Char) : Bool :=
  ('0' ≤ c && c ≤ '9') || ('A' ≤ c && c ≤ 'Z') || ('a' ≤ c && c ≤ 'z')

/-- The function `isspace` in the "C" locale: space, and the controls 9 to 13. -/
def isspace (c : Char) : Bool :=
  c = ' ' || (9 ≤ c.toNat && c.toNat ≤ 13)

/-- The value of a base-16 digit, as `strtol` reads it. -/
def hexDigitValue (c : Char) : Option Nat :=
  if '0' ≤ c && c ≤ '9' then some (c.toNat - 48)
  else if 'a' ≤ c && c ≤ 'f' then some (c.toNat - 87)
  else if 'A' ≤ c && c ≤ 'F' then some (c.toNat - 55)
  else none

/-- Whether `strtol` in base 16 accepts the character as a digit. -/
def isHexDigit (c : Char) : Bool := (hexDigitValue c).isSome

/-- The number written by a run of base-16 digits, most significant first. -/
def hexValue (ds : Str) : Nat :=
  ds.foldl (fun acc d => 16 * acc + (hexDigitValue d).getD 0) 0

/-- The call `std::strtol(buf, &end, 16)` on a NUL-terminated buffer: leading white space, an
optional sign, an optional `0x` (only when a digit follows), then the longest run of digits.
Returns the value and `end - buf`; without any digit the value is 0 and `end = buf`. -/
def strtol16 (buf : Str) : Int × Nat :=
  let s := buf.takeWhile (fun c => c ≠ Char.ofNat 0)
  let ws := (s.takeWhile isspace).length
  let s1 := s.drop ws
  let sg := match s1 with
    | c :: _ => if c = '-' || c = '+' then 1 else 0
    | [] => 0
  let neg := match s1 with
    | c :: _ => decide (c = '-')
    | [] => false
  let s2 := s1.drop sg
  let px := match s2 with
    | z :: x :: d :: _ => if z = '0' && (x = 'x' || x = 'X') && isHexDigit d then 2 else 0
    | _ => 0
  let ds := (s2.drop px).takeWhile isHexDigit
  if ds = [] then (0, 0)
  else ((if neg then -(hexValue ds : Int) else (hexValue ds : Int)), ws + sg + px + ds.length)

/-- The conversion `static_cast<char>(value)` of a `long`: the value modulo 256. -/
def longToChar (value : Int) : Char := Char.ofNat (value % 256).toNat

/-- The function `url_decode`. The loop index `i` is the position of the head of the list; an
escape is tried only when `i + 2 < encoded.size()`, that is when two more characters exist. -/
def url_decode : Str → Str
  | [] => []
  | c :: c1 :: c2 :: rest =>
    if c = '%' then
      if (strtol16 [c1, c2, Char.ofNat 0]).2 = 2 then
        longToChar (strtol16 [c1, c2, Char.ofNat 0]).1 :: url_decode rest
      else c :: url_decode (c1 :: c2 :: rest)
    else if c = '+' then ' ' :: url_decode (c1 :: c2 :: rest)
    else c :: url_decode (c1 :: c2 :: rest)
  | c :: tail =>
    if c = '+' then ' ' :: url_decode tail
    else c :: url_decode tail

/-- Insertion of one `unsigned char` into a `std::ostream` with the given field width and fill
character (adjustment is the default, right): `width - 1` fill characters, then the character
itself. An `unsigned char` is inserted as a character, whatever the base flags are. -/
def ostream_put_uchar (width : Nat) (fill : Char) (c : Char) : Str :=
  List.replicate (width - 1) fill ++ [c]

/-- One iteration of the loop of `url_encode`: the stream has fill `'0'`; the escape branch
writes `'%'` and then the character `c` under `std::setw(2)`. -/
def url_encode_char (c : Char) : Str :=
  if isalnum c || c = '-' || c = '_' || c = '.' || c = '~' then [c]
  else '%' :: ostream_put_uchar 2 '0' c

/-- The function `url_encode`. -/
def url_encode : Str → Str
  | [] => []
  | c :: rest => url_encode_char c ++ url_encode rest

/-! ## url_scheme.cpp: query parameters -/

/-- The strings read by the loop `while (std::getline(iss, pair, '&'))`: the pieces of the
query between the `'&'` characters; nothing is read after the last `'&'` when no character
follows it, and an empty query gives no piece. -/
def getline_all : Str → List Str
  | [] => []
  | c :: rest =>
    if c = '&' then [] :: getline_all rest
    else
      match getline_all rest with
      | [] => [[c]]
      | x :: xs => (c :: x) :: xs

/-- The call `s.find(ch)`: the position of the first occurrence, `none` for `npos`. -/
def str_find (s : Str) (ch : Char) : Option Nat :=
  match s with
  | [] => none
  | c :: rest => if c = ch then some 0 else (str_find rest ch).map (fun n => n + 1)

/-- The type `std::unordered_map<std::string, std::vector<std::string>>`, as its entries (one
per key); only lookups are made, so the iteration order plays no part. -/
abbrev Params := List (Str × List Str)

/-- The statement `params[key].push_back(value)`. -/
def Params.push_back : Params → Str → Str → Params
  | [], key, value => [(key, [value])]
  | (k, vs) :: rest, key, value =>
    if k = key then (k, vs ++ [value]) :: rest
    else (k, vs) :: Params.push_back rest key value

/-- The call `params.find(key)`: the mapped vector, `none` for `params.end()`. -/
def Params.find : Params → Str → Option (List Str)
  | [], _ => none
  | (k, vs) :: rest, key => if k = key then some vs else Params.find rest key

/-- The call `params.count(key)`. -/
def Params.count (params : Params) (key : Str) : Nat :=
  if (params.find key).isSome then 1 else 0

/-- The body of the loop of `parse_query_params` for one piece. -/
def parse_query_pair (params : Params) (pair : Str) : Params :=
  match str_find pair '=' with
  | some pos => params.push_back (url_decode (pair.take pos)) (url_decode (pair.drop (pos + 1)))
  | none => params

/-- The function `parse_query_params`. -/
def parse_query_params (query : Str) : Params :=
  if query = [] then []
  else (getline_all query).foldl parse_query_pair []

/-- The function `get_param`. -/
def get_param (params : Params) (key : Str) : Str :=
  match params.find key with
  | some (v :: _) => v
  | _ => []

/-- The function `get_all_params`. -/
def get_all_params (params : Params) (key : Str) : List Str :=
  match params.find key with
  | some vs => vs
  | none => []

/-! ## url_scheme.cpp: the regular expression -/

/-- The class `[a-zA-Z]`. -/
def schemeFirst (c : Char) : Bool :=
  ('a' ≤ c && c ≤ 'z') || ('A' ≤ c && c ≤ 'Z')

/-- The class `[a-zA-Z0-9+.-]`. -/
def schemeRest (c : Char) : Bool :=
  schemeFirst c || ('0' ≤ c && c ≤ '9') || c = '+' || c = '.' || c = '-'

/-- The atom `.` of an ECMAScript regular expression over `char`: any character but a line
feed or a carriage return. -/
def regexDot (c : Char) : Bool :=
  c ≠ Char.ofNat 10 && c ≠ Char.ofNat 13

/-- The group `([a-zA-Z][a-zA-Z0-9+.-]*)` matched against a whole string. -/
def schemeMatches : Str → Bool
  | [] => false
  | c :: rest => schemeFirst c && rest.all schemeRest

/-- The text before the first colon of a string. -/
def url_protocol (url : Str) : Str := url.takeWhile (fun c => c ≠ ':')

/-- The text after the first colon of a string. -/
def url_after_colon (url : Str) : Str := (url.dropWhile (fun c => c ≠ ':')).drop 1

/-- The text between the first colon and the first question mark that follows it. -/
def url_path (url : Str) : Str := (url_after_colon url).takeWhile (fun c => c ≠ '?')

/-- The text after the first question mark that follows the first colon. -/
def url_query (url : Str) : Str := ((url_after_colon url).dropWhile (fun c => c ≠ '?')).drop 1

/-- The call `std::regex_match(url, match, url_regex)` for
`^([a-zA-Z][a-zA-Z0-9+.-]*):([^?]+)(?:\?(.*))?$`, returning the three groups. The whole string
has to match, and it can in one way only: no character of group 1 is a colon, so group 1 ends
at the first colon; group 2 is not empty, has no question mark and is followed by one or by
the end, so it runs to the first question mark; group 3 is all the rest and has no line break.
An unmatched group 3 reads as the empty string. -/
def regex_match_url (url : Str) : Option (Str × Str × Str) :=
  if decide (':' ∈ url) && schemeMatches (url_protocol url) && !(url_path url).isEmpty
      && (url_query url).all regexDot then
    some (url_protocol url, url_path url, url_query url)
  else none

/-! ## url_scheme.cpp: parse_url -/

/-- The `throw` statements of url_scheme.cpp (all are `std::invalid_argument`), by message. -/
inductive UrlError where
  /-- The message "URL must be a non-empty string". -/
  | emptyUrl
  /-- The message "Invalid URL format". -/
  | invalidFormat
  /-- The message "Unsupported protocol: " followed by the protocol. -/
  | unsupportedProtocol (protocol : Str)
  /-- The message "Missing recipient address". -/
  | missingRecipient
  /-- The message "Empty recipient address". -/
  | emptyRecipient
  /-- The message "Cross-chain transfer request requires an amount parameter". -/
  | crossChainRequiresAmount
  /-- The message "Cross-chain transfer request requires a token parameter". -/
  | crossChainRequiresToken
  /-- The message "Cross-chain transfer request requires a source-network parameter". -/
  | crossChainRequiresSourceNetwork
  /-- The message "Transfer request requires an amount parameter". -/
  | transferRequiresAmount
  /-- The message "Unsupported request type". -/
  | unsupportedRequestType
  deriving DecidableEq, Repr

/-- The chain `if (protocol == "solana") ... else throw` of `parse_url`. -/
def protocol_network (protocol : Str) : Except UrlError SVMNetwork :=
  if protocol = "solana".toList then .ok .SOLANA
  else if protocol = "sonic".toList then .ok .SONIC
  else if protocol = "eclipse".toList then .ok .ECLIPSE
  else if protocol = "soon".toList then .ok .SOON
  else .error (.unsupportedProtocol protocol)

/-- The pattern `std::string v = get_param(params, key); if (!v.empty()) field = v;` applied
to a field that is still `std::nullopt`. -/
def optional_param (params : Params) (key : Str) : Option Str :=
  if get_param params key = [] then none else some (get_param params key)

/-- The common tail of the three branches: label, message, memo and the references are
written into the base sub-object. -/
def set_common (base : PaymentRequest) (params : Params) : PaymentRequest :=
  ⟨base.type, base.network, base.recipient,
    optional_param params "label".toList,
    optional_param params "message".toList,
    optional_param params "memo".toList,
    get_all_params params "reference".toList⟩

/-- The cross-chain branch of `parse_url`. -/
def parse_cross_chain (network : SVMNetwork) (recipient : Str) (params : Params) :
    Except UrlError Request :=
  let amount := get_param params "amount".toList
  let token := get_param params "token".toList
  let source_network := get_param params "source-network".toList
  if amount = [] then .error .crossChainRequiresAmount
  else if token = [] then .error .crossChainRequiresToken
  else if source_network = [] then .error .crossChainRequiresSourceNetwork
  else
    let request := CrossChainTransferRequest.new source_network network recipient amount token
    .ok (.crossChain
      ⟨set_common request.toPaymentRequest params, request.source_network,
        request.destination_network, request.amount, request.token,
        optional_param params "bridge".toList, request.bridge_params⟩)

/-- The transaction branch of `parse_url`. -/
def parse_transaction (network : SVMNetwork) (recipient : Str) (params : Params) :
    Except UrlError Request :=
  let link := get_param params "link".toList
  let request := TransactionRequest.new network recipient link
  .ok (.transaction ⟨set_common request.toPaymentRequest params, request.link⟩)

/-- The transfer branch of `parse_url`. -/
def parse_transfer (network : SVMNetwork) (recipient : Str) (params : Params) :
    Except UrlError Request :=
  let amount := get_param params "amount".toList
  if amount = [] then .error .transferRequiresAmount
  else
    let request := TransferRequest.new network recipient amount
    .ok (.transfer
      ⟨set_common request.toPaymentRequest params, request.amount,
        optional_param params "spl-token".toList⟩)

/-- The recipient computed from the path: one leading slash is removed. -/
def strip_slash (path : Str) : Str :=
  match path with
  | c :: rest => if c = '/' then rest else path
  | [] => path

/-- The part of `parse_url` after the network is known. -/
def parse_request (network : SVMNetwork) (path query : Str) : Except UrlError Request :=
  if path = [] then .error .missingRecipient
  else
    let recipient := strip_slash path
    if recipient = [] then .error .emptyRecipient
    else
      let params := parse_query_params query
      if params.count "source-network".toList > 0 || params.count "bridge".toList > 0 then
        parse_cross_chain network recipient params
      else if params.count "link".toList > 0 then
        parse_transaction network recipient params
      else
        parse_transfer network recipient params

/-- The function `parse_url`. -/
def parse_url (url : Str) : Except UrlError Request :=
  if url = [] then .error .emptyUrl
  else
    match regex_match_url url with
    | none => .error .invalidFormat
    | some (protocol, path, query) =>
      match protocol_network protocol with
      | .error e => .error e
      | .ok network => parse_request network path query

/-! ## url_scheme.cpp: the serializers -/

/-- The statement `if (field.has_value()) url << key << url_encode(field.value())`. -/
def emit_optional (key : Str) (field : Option Str) : Str :=
  match field with
  | some v => key ++ url_encode v
  | none => []

/-- The loop `for (reference : request.references) url << "&reference=" << url_encode(reference)`. -/
def emit_references : List Str → Str
  | [] => []
  | reference :: rest => "&reference=".toList ++ url_encode reference ++ emit_references rest

/-- The function `create_transfer_url`. -/
def create_transfer_url (request : TransferRequest) : Str :=
  network_to_string request.network ++ ":".toList ++ request.recipient
    ++ "?amount=".toList ++ url_encode request.amount
    ++ emit_optional "&spl-token=".toList request.spl_token
    ++ emit_optional "&label=".toList request.label
    ++ emit_optional "&message=".toList request.message
    ++ emit_optional "&memo=".toList request.memo
    ++ emit_references request.references

/-- The function `create_transaction_url`. -/
def create_transaction_url (request : TransactionRequest) : Str :=
  network_to_string request.network ++ ":".toList ++ request.recipient
    ++ "?link=".toList ++ url_encode request.link
    ++ emit_optional "&label=".toList request.label
    ++ emit_optional "&message=".toList request.message
    ++ emit_optional "&memo=".toList request.memo
    ++ emit_references request.references

/-- The function `create_cross_chain_url`. -/
def create_cross_chain_url (request : CrossChainTransferRequest) : Str :=
  network_to_string request.network ++ ":".toList ++ request.recipient
    ++ "?amount=".toList ++ url_encode request.amount
    ++ "&token=".toList ++ url_encode request.token
    ++ "&source-network=".toList ++ url_encode request.source_network
    ++ emit_optional "&bridge=".toList request.bridge
    ++ emit_optional "&label=".toList request.label
    ++ emit_optional "&message=".toList request.message
    ++ emit_optional "&memo=".toList request.memo
    ++ emit_references request.references

/-- The function `create_url`: the switch on `request.type` followed by a `static_cast` to the
struct of that type. The cast is defined only when the object has that type, which holds for
every object built by the constructors; the other combinations have no result. -/
def create_url (request : Request) : Option Str :=
  match request.base.type, request with
  | .TRANSFER, .transfer r => some (create_transfer_url r)
  | .TRANSACTION, .transaction r => some (create_transaction_url r)
  | .CROSS_CHAIN_TRANSFER, .crossChain r => some (create_cross_chain_url r)
  | _, _ => none

/-! ## reference.cpp: base58 -/

/-- The constant `BASE58_ALPHABET`. -/
def BASE58_ALPHABET : Str :=
  "123456789ABCDEFGHJKLMNPQRSTUVWXYZabcdefghijkmnopqrstuvwxyz".toList

/-- The exceptions of the base58 decoder. -/
inductive ReferenceError where
  /-- The `ReferenceException` with message "Invalid base58 character: " and the character. -/
  | invalidBase58Character (c : Char)
  deriving DecidableEq, Repr

/-- The count of leading zero bytes (first loop of `encode_base58`). -/
def leading_zeros : List Nat → Nat
  | [] => 0
  | b :: rest => if b = 0 then leading_zeros rest + 1 else 0

/-- The inner loop of `encode_base58` over `j`: `carry += 256 * digits[j]`,
`digits[j] = carry % 58`, `carry /= 58`; the carry left after the last digit is dropped. -/
def encode_inner (carry : Nat) : List Nat → List Nat
  | [] => []
  | d :: digits => ((carry + 256 * d) % 58) :: encode_inner ((carry + 256 * d) / 58) digits

/-- The outer loop of `encode_base58` over the bytes that follow the leading zeros. -/
def encode_outer : List Nat → List Nat → List Nat
  | [], digits => digits
  | b :: rest, digits => encode_outer rest (encode_inner b digits)

/-- The character `BASE58_ALPHABET[d]`. -/
def alphabet_char (d : Nat) : Char := BASE58_ALPHABET.getD d (Char.ofNat 0)

/-- The last loop of `encode_base58`, from the highest digit down: a digit is written when it
is non-zero or when the result is no longer empty. -/
def encode_emit (result : Str) : List Nat → Str
  | [] => result
  | d :: digits =>
    if decide (d > 0) || !result.isEmpty then encode_emit (result ++ [alphabet_char d]) digits
    else encode_emit result digits

/-- The function `encode_base58(data, size)` with `data` the list of the `size` bytes. -/
def encode_base58 (data : List Nat) : Str :=
  let digits := encode_outer (data.drop (leading_zeros data)) (List.replicate (data.length * 2) 0)
  encode_emit (List.replicate (leading_zeros data) '1') digits.reverse

/-- The count of leading `'1'` characters (first loop of `decode_base58`). -/
def leading_ones : Str → Nat
  | [] => 0
  | c :: rest => if c = '1' then leading_ones rest + 1 else 0

/-- The search of a character in the alphabet: the first `j < 58` with
`BASE58_ALPHABET[j] == c`, `none` when `carry` stays `-1`. -/
def alphabet_index (c : Char) : Option Nat :=
  if c ∈ BASE58_ALPHABET then some (BASE58_ALPHABET.indexOf c) else none

/-- The inner loop of `decode_base58` over `j`: `carry += 58 * result[j]`,
`result[j] = carry % 256`, `carry /= 256`. -/
def decode_inner (carry : Nat) : List Nat → List Nat
  | [] => []
  | r :: result => ((carry + 58 * r) % 256) :: decode_inner ((carry + 58 * r) / 256) result

/-- The outer loop of `decode_base58` over the characters that follow the leading ones. -/
def decode_outer : Str → List Nat → Except ReferenceError (List Nat)
  | [], result => .ok result
  | c :: rest, result =>
    match alphabet_index c with
    | none => .error (.invalidBase58Character c)
    | some carry => decode_outer rest (decode_inner carry result)

/-- The loop `while (result.size() > 1 && result.back() == 0) result.pop_back()`, on the
vector read from its back. -/
def pop_back_zeros : List Nat → List Nat
  | b :: c :: rest => if b = 0 then pop_back_zeros (c :: rest) else b :: c :: rest
  | l => l

/-- The function `decode_base58`. The zero bytes for the leading ones are inserted at
`result.begin()`; the vector is then trimmed from its back and reversed, and
`pop_back_zeros` applied to the reversed vector gives just that. -/
def decode_base58 (encoded : Str) : Except ReferenceError (List Nat) :=
  match decode_outer (encoded.drop (leading_ones encoded))
      (List.replicate (encoded.length * 733 / 1000 + 1) 0) with
  | .error e => .error e
  | .ok result =>
    .ok (pop_back_zeros (List.replicate (leading_ones encoded) 0 ++ result).reverse)

/-- The value of `carry` when the inner loop of `encode_base58` ends, which the function then
drops. -/
def encode_carry (carry : Nat) : List Nat → Nat
  | [] => carry
  | d :: digits => encode_carry ((carry + 256 * d) / 58) digits

/-- The value of `carry` when the inner loop of `decode_base58` ends, which the function then
drops. -/
def decode_carry (carry : Nat) : List Nat → Nat
  | [] => carry
  | r :: result => decode_carry ((carry + 58 * r) / 256) result

/-! ## types.cpp: request types and payment statuses -/

/-- The enum class `PaymentStatus`. -/
inductive PaymentStatus where
  | CREATED
  | PENDING
  | CONFIRMED
  | FAILED
  | EXPIRED
  | BRIDGING
  | BRIDGE_CONFIRMED
  | BRIDGE_FAILED
  deriving DecidableEq, Repr

/-- The function `request_type_to_string`; the `default:` branch cannot be reached from the
three enumerators. -/
def request_type_to_string : RequestType → Str
  | .TRANSFER => "transfer".toList
  | .TRANSACTION => "transaction".toList
  | .CROSS_CHAIN_TRANSFER => "cross-chain-transfer".toList

/-- The function `string_to_request_type`. -/
def string_to_request_type (type : Str) : Except TypesError RequestType :=
  if type = "transfer".toList then .ok .TRANSFER
  else if type = "transaction".toList then .ok .TRANSACTION
  else if type = "cross-chain-transfer".toList then .ok .CROSS_CHAIN_TRANSFER
  else .error (.unknownRequestType type)

/-- The function `payment_status_to_string`; the `default:` branch cannot be reached from the
eight enumerators. -/
def payment_status_to_string : PaymentStatus → Str
  | .CREATED => "created".toList
  | .PENDING => "pending".toList
  | .CONFIRMED => "confirmed".toList
  | .FAILED => "failed".toList
  | .EXPIRED => "expired".toList
  | .BRIDGING => "bridging".toList
  | .BRIDGE_CONFIRMED => "bridge-confirmed".toList
  | .BRIDGE_FAILED => "bridge-failed".toList

/-- The function `string_to_payment_status`. -/
def string_to_payment_status (status : Str) : Except TypesError PaymentStatus :=
  if status = "created".toList then .ok .CREATED
  else if status = "pending".toList then .ok .PENDING
  else if status = "confirmed".toList then .ok .CONFIRMED
  else if status = "failed".toList then .ok .FAILED
  else if status = "expired".toList then .ok .EXPIRED
  else if status = "bridging".toList then .ok .BRIDGING
  else if status = "bridge-confirmed".toList then .ok .BRIDGE_CONFIRMED
  else if status = "bridge-failed".toList then .ok .BRIDGE_FAILED
  else .error (.unknownPaymentStatus status)

/-! ## reference.cpp: references -/

/-- The exceptions of the reference generators, by message. -/
inductive GenerateError where
  /-- The `std::invalid_argument` "Reference length must be greater than 0". -/
  | lengthZero
  /-- The `std::invalid_argument` "Reference length must be less than 1024 bytes". -/
  | lengthOver1024
  /-- The `std::invalid_argument` "Reference length must be at least 4 bytes for
  timestamp". -/
  | lengthUnder4
  /-- The `std::invalid_argument` "Reference length must be less than 1020 bytes for
  timestamped reference". -/
  | lengthOver1020
  /-- The `CryptographicException` "Failed to generate secure random bytes". -/
  | randomBytesFailed
  deriving DecidableEq, Repr

/-- Whether the exception is a `std::invalid_argument`. -/
def GenerateError.isInvalidArgument : GenerateError → Bool
  | .randomBytesFailed => false
  | _ => true

/-- Whether the exception is a `CryptographicException`. -/
def GenerateError.isCryptographicFailure : GenerateError → Bool
  | .randomBytesFailed => true
  | _ => false

/-- The entropy source, an input of the model: what a call `RAND_bytes(buf, num)` does as a
function of `num`, either a failure (a return value other than 1) or the bytes written. -/
abbrev EntropySource := Nat → Option (List Nat)

/-- The buffer after `RAND_bytes` has written bytes at its start. -/
def write_bytes (buf bytes : List Nat) : List Nat :=
  bytes.take buf.length ++ buf.drop bytes.length

/-- The outcome of a generator, with the calls it made to the entropy source: the numbers of
bytes asked for, in order. -/
structure Generated where
  requests : List Nat
  result : Except GenerateError Str
  deriving DecidableEq, Repr

/-- The function `generate_reference`. -/
def generate_reference (rand : EntropySource) (length : Nat) : Generated :=
  if length = 0 then ⟨[], .error .lengthZero⟩
  else if length > 1024 then ⟨[], .error .lengthOver1024⟩
  else
    match rand length with
    | none => ⟨[length], .error .randomBytesFailed⟩
    | some bytes => ⟨[length], .ok (encode_base58 (write_bytes (List.replicate length 0) bytes))⟩

/-- The function `validate_reference`; the `catch` turns the exception of the decoder into
`false`. -/
def validate_reference (reference : Str) : Bool :=
  if reference.isEmpty then false
  else if reference.length > 1500 then false
  else
    match decode_base58 reference with
    | .ok decoded => decide (decoded.length ≥ 8) && decide (decoded.length ≤ 1024)
    | .error _ => false

/-- The conversion `static_cast<uint32_t>(now.count())` of the seconds since the epoch. -/
def to_uint32 (seconds : Int) : Nat := (seconds % 4294967296).toNat

/-- The four assignments `random_bytes[0] = (timestamp >> 24) & 0xFF` to
`random_bytes[3] = timestamp & 0xFF`; a shift by `k` bits is the quotient by `2^k` and the
mask `0xFF` the remainder modulo 256. -/
def write_timestamp (timestamp : Nat) (random_bytes : List Nat) : List Nat :=
  (((random_bytes.set 0 (timestamp / 16777216 % 256)).set 1 (timestamp / 65536 % 256)).set 2
    (timestamp / 256 % 256)).set 3 (timestamp % 256)

/-- The function `generate_timestamped_reference`, with the clock reading `now` (seconds since
the epoch) and the entropy source as inputs. -/
def generate_timestamped_reference (now : Int) (rand : EntropySource) (length : Nat) :
    Generated :=
  if length < 4 then ⟨[], .error .lengthUnder4⟩
  else if length > 1020 then ⟨[], .error .lengthOver1020⟩
  else
    match rand length with
    | none => ⟨[length], .error .randomBytesFailed⟩
    | some bytes =>
      ⟨[length], .ok (encode_base58
        (write_timestamp (to_uint32 now) (write_bytes (List.replicate length 0) bytes)))⟩

/-! ## client.cpp -/

/-- The type `std::unordered_map<std::string, std::string>` of the options, as its entries. -/
abbrev Options := List (Str × Str)

/-- The call `options.find(key)`: the mapped value, `none` for `options.end()`. -/
def Options.find : Options → Str → Option Str
  | [], _ => none
  | (k, v) :: rest, key => if k = key then some v else Options.find rest key

/-- The data members of the class `Client`. -/
structure Client where
  default_network_ : SVMNetwork
  debug_enabled_ : Bool
  deriving DecidableEq, Repr

/-- The method `Client::parse_network_from_options`. -/
def Client.parse_network_from_options (client : Client) (options : Options) :
    Except TypesError SVMNetwork :=
  match options.find "network".toList with
  | some network => string_to_network network
  | none => .ok client.default_network_

/-- The decimal digits of a number, with a bound on their count. -/
def to_string_digits : Nat → Nat → Str
  | 0, _ => []
  | fuel + 1, i =>
    if i < 10 then [Char.ofNat (48 + i)]
    else to_string_digits fuel (i / 10) ++ [Char.ofNat (48 + i % 10)]

/-- The function `std::to_string` on a non-negative `int`. -/
def to_string (i : Nat) : Str := to_string_digits (i + 1) i

/-- The body of the loop of `parse_references_from_options` for one `i`. -/
def push_numbered_reference (options : Options) (references : List Str) (i : Nat) : List Str :=
  match options.find ("reference".toList ++ to_string i) with
  | some v => references ++ [v]
  | none => references

/-- The method `Client::parse_references_from_options`: the key `reference`, then the loop
`for (int i = 1; i <= 10; ++i)`. -/
def Client.parse_references_from_options (options : Options) : List Str :=
  (List.range' 1 10).foldl (push_numbered_reference options)
    (match options.find "reference".toList with
      | some v => [v]
      | none => [])

/-- The method `Client::create_transfer_url`. -/
def Client.create_transfer_url (client : Client) (recipient amount : Str) (options : Options) :
    Except TypesError Str :=
  match client.parse_network_from_options options with
  | .error e => .error e
  | .ok network =>
    let request := TransferRequest.new network recipient amount
    .ok (SvmPay.create_transfer_url
      ⟨⟨request.type, request.network, request.recipient,
        options.find "label".toList, options.find "message".toList, options.find "memo".toList,
        Client.parse_references_from_options options⟩,
        request.amount, options.find "spl-token".toList⟩)

/-- The method `Client::create_transaction_url`. -/
def Client.create_transaction_url (client : Client) (recipient link : Str) (options : Options) :
    Except TypesError Str :=
  match client.parse_network_from_options options with
  | .error e => .error e
  | .ok network =>
    let request := TransactionRequest.new network recipient link
    .ok (SvmPay.create_transaction_url
      ⟨⟨request.type, request.network, request.recipient,
        options.find "label".toList, options.find "message".toList, options.find "memo".toList,
        Client.parse_references_from_options options⟩, request.link⟩)

/-! ## Vocabulary of the statements -/

/-- The percent-decoded key and value of one piece of a query: the text before and after its
first `=`; a piece without `=` is no pair. -/
def pair_of (pair : Str) : Option (Str × Str) :=
  (str_find pair '=').map (fun pos => (url_decode (pair.take pos), url_decode (pair.drop (pos + 1))))

/-- The key and value pairs of a query, percent-decoded, in their order of appearance. -/
def query_pairs (query : Str) : List (Str × Str) :=
  (getline_all query).filterMap pair_of

/-- The values of all the pairs with a given key, in order of appearance. -/
def values_of (pairs : List (Str × Str)) (key : Str) : List Str :=
  pairs.filterMap (fun kv => if kv.1 = key then some kv.2 else none)

/-- Whether some pair has the given key. -/
def has_key (pairs : List (Str × Str)) (key : Str) : Bool :=
  pairs.any (fun kv => decide (kv.1 = key))

/-- The value of the first pair with a given key. -/
def first_value (pairs : List (Str × Str)) (key : Str) : Option Str :=
  (values_of pairs key).head?

/-- The value of the first pair with a given key when it is a non-empty string. -/
def first_nonempty_value (pairs : List (Str × Str)) (key : Str) : Option Str :=
  match first_value pairs key with
  | some v => if v = [] then none else some v
  | none => none

/-- The error classes of the specification. -/
inductive ErrorKind where
  | MalformedUrl
  | UnsupportedNetwork
  | MissingRecipient
  | MissingRequiredParameter (field : Str)
  | UnsupportedRequestType
  deriving DecidableEq, Repr

/-- The class of each exception of url_scheme.cpp, read from its message. -/
def UrlError.kind : UrlError → ErrorKind
  | .emptyUrl => .MalformedUrl
  | .invalidFormat => .MalformedUrl
  | .unsupportedProtocol _ => .UnsupportedNetwork
  | .missingRecipient => .MissingRecipient
  | .emptyRecipient => .MissingRecipient
  | .crossChainRequiresAmount => .MissingRequiredParameter "amount".toList
  | .crossChainRequiresToken => .MissingRequiredParameter "token".toList
  | .crossChainRequiresSourceNetwork => .MissingRequiredParameter "source-network".toList
  | .transferRequiresAmount => .MissingRequiredParameter "amount".toList
  | .unsupportedRequestType => .UnsupportedRequestType

/-- The class of the error of a result, `none` for a returned request. -/
def error_kind (result : Except UrlError Request) : Option ErrorKind :=
  match result with
  | .ok _ => none
  | .error e => some e.kind

/-- The branch of `parse_url` a result comes from: the struct of a returned request, or the
branch whose `throw` statement produced the error; `none` for the errors raised before the
branches. -/
def handled_as (result : Except UrlError Request) : Option RequestType :=
  match result with
  | .ok (.transfer _) => some .TRANSFER
  | .ok (.transaction _) => some .TRANSACTION
  | .ok (.crossChain _) => some .CROSS_CHAIN_TRANSFER
  | .error .transferRequiresAmount => some .TRANSFER
  | .error .crossChainRequiresAmount => some .CROSS_CHAIN_TRANSFER
  | .error .crossChainRequiresToken => some .CROSS_CHAIN_TRANSFER
  | .error .crossChainRequiresSourceNetwork => some .CROSS_CHAIN_TRANSFER
  | .error _ => none

/-- The grammar `scheme ":" path [ "?" query ]` with `scheme` matching
`[a-zA-Z][a-zA-Z0-9+.-]*`. -/
def MatchesGrammar (url : Str) : Prop :=
  ∃ (scheme path : Str) (query : Option Str),
    schemeMatches scheme = true ∧
    url = scheme ++ ':' :: path ++ (match query with
      | none => []
      | some q => '?' :: q)

/-- The path with one leading slash, if any, removed. -/
def without_leading_slash (path : Str) : Str :=
  if path.head? = some '/' then path.tail else path

/-- Step 1 of `parse_url`, the grammar: the URL is empty or the regular expression does not
match it. -/
def grammar_check_fails (url : Str) : Bool :=
  url.isEmpty || (regex_match_url url).isNone

/-- Step 2, the network: the text before the first colon is not in the table
`string_to_network`. -/
def network_check_fails (url : Str) : Bool :=
  match string_to_network (url_protocol url) with
  | .ok _ => false
  | .error _ => true

/-- Step 3, the recipient: the path without its leading slash is empty. -/
def recipient_check_fails (url : Str) : Bool :=
  (without_leading_slash (url_path url)).isEmpty

/-- Whether the first value of a key is missing or empty. -/
def lacks_value (pairs : List (Str × Str)) (key : Str) : Bool :=
  match first_value pairs key with
  | some v => v.isEmpty
  | none => true

/-- Step 4, the required parameters: the first required parameter of the variant that is
missing or empty, the variant being chosen by the keys of the query. -/
def missing_parameter (url : Str) : Option Str :=
  let pairs := query_pairs (url_query url)
  if has_key pairs "source-network".toList || has_key pairs "bridge".toList then
    if lacks_value pairs "amount".toList then some "amount".toList
    else if lacks_value pairs "token".toList then some "token".toList
    else if lacks_value pairs "source-network".toList then some "source-network".toList
    else none
  else if has_key pairs "link".toList then none
  else if lacks_value pairs "amount".toList then some "amount".toList
  else none

/-- The characters that `url_encode` copies unchanged: letters, digits and `- _ . ~`. -/
def unreserved (c : Char) : Bool :=
  isalnum c || c = '-' || c = '_' || c = '.' || c = '~'

/-- A string made of unreserved characters only. -/
def plain (s : Str) : Bool := s.all unreserved

/-- An optional field that is unset, or set to a non-empty string of unreserved characters. -/
def plain_optional : Option Str → Bool
  | none => true
  | some v => !v.isEmpty && plain v

/-- A recipient that the URL carries as it is: not empty, without question mark, and not
starting with a slash. -/
def recipient_carried (recipient : Str) : Bool :=
  !recipient.isEmpty && !recipient.contains '?' && recipient.head? != some '/'

/-- The conditions on the fields of the base sub-object under which the URL carries them. -/
def base_carried (b : PaymentRequest) : Bool :=
  recipient_carried b.recipient && plain_optional b.label && plain_optional b.message
    && plain_optional b.memo && b.references.all plain

/-- A request as the constructors and the builder phase make it (the discriminant agrees with
the struct), whose recipient is carried by the URL as it is and whose other text fields are
made of unreserved characters, the required `amount`, `token`, `source_network` being
non-empty and the optional fields non-empty when set. -/
def url_carried : Request → Bool
  | .transfer r =>
    r.type == .TRANSFER && base_carried r.toPaymentRequest
      && !r.amount.isEmpty && plain r.amount && plain_optional r.spl_token
  | .transaction r =>
    r.type == .TRANSACTION && base_carried r.toPaymentRequest && plain r.link
  | .crossChain r =>
    r.type == .CROSS_CHAIN_TRANSFER && base_carried r.toPaymentRequest
      && !r.amount.isEmpty && plain r.amount && !r.token.isEmpty && plain r.token
      && !r.source_network.isEmpty && plain r.source_network && plain_optional r.bridge

/-- The fields of a request that the URL has a parameter for: all of them, except the string
`destination_network` and the map `bridge_params` of a cross-chain request, which
`parse_url` leaves empty. -/
def url_fields : Request → Request
  | .crossChain r =>
    .crossChain ⟨r.toPaymentRequest, r.source_network, [], r.amount, r.token, r.bridge, []⟩
  | r => r

/-- The uppercase hexadecimal digit of a value below 16. -/
def hex_upper (d : Nat) : Char := "0123456789ABCDEF".toList.getD d '0'

/-- Percent-encoding of one byte in the words of the specification: the byte itself when it is
unreserved, otherwise `%` and the two uppercase hexadecimal digits of its value. -/
def percent_encode_char (c : Char) : Str :=
  if unreserved c then [c] else ['%', hex_upper (c.toNat / 16 % 16), hex_upper (c.toNat % 16)]

/-- Percent-encoding of a string in the words of the specification. -/
def percent_encode : Str → Str
  | [] => []
  | c :: rest => percent_encode_char c ++ percent_encode rest

/-- The text `&key=value` for each pair of a list. -/
def tail_pairs : List (Str × Str) → Str
  | [] => []
  | kv :: rest => '&' :: (kv.1 ++ '=' :: kv.2) ++ tail_pairs rest

/-- The query `key=value&key=value...` of a list of pairs. -/
def join_query : List (Str × Str) → Str
  | [] => []
  | kv :: rest => (kv.1 ++ '=' :: kv.2) ++ tail_pairs rest

/-- The pair of an optional field, when it is set. -/
def optional_pair (key : Str) : Option Str → List (Str × Str)
  | none => []
  | some v => [(key, v)]

/-- The pairs of the references. -/
def reference_pairs (references : List Str) : List (Str × Str) :=
  references.map (fun v => ("reference".toList, v))

/-- The parameters that `create_transfer_url` writes, in order, before encoding. -/
def transfer_pairs (r : TransferRequest) : List (Str × Str) :=
  ("amount".toList, r.amount) :: (optional_pair "spl-token".toList r.spl_token
    ++ optional_pair "label".toList r.label ++ optional_pair "message".toList r.message
    ++ optional_pair "memo".toList r.memo ++ reference_pairs r.references)

/-- The parameters that `create_transaction_url` writes, in order, before encoding. -/
def transaction_pairs (r : TransactionRequest) : List (Str × Str) :=
  ("link".toList, r.link) :: (optional_pair "label".toList r.label
    ++ optional_pair "message".toList r.message
    ++ optional_pair "memo".toList r.memo ++ reference_pairs r.references)

/-- The parameters that `create_cross_chain_url` writes, in order, before encoding. -/
def cross_chain_pairs (r : CrossChainTransferRequest) : List (Str × Str) :=
  ("amount".toList, r.amount) :: ("token".toList, r.token)
    :: ("source-network".toList, r.source_network) :: (optional_pair "bridge".toList r.bridge
    ++ optional_pair "label".toList r.label ++ optional_pair "message".toList r.message
    ++ optional_pair "memo".toList r.memo ++ reference_pairs r.references)

/-- A list of pairs whose keys and values are made of unreserved characters. -/
def plain_pairs (pairs : List (Str × Str)) : Bool :=
  pairs.all (fun kv => plain kv.1 && plain kv.2)

/-- The pairs with their values percent-encoded by `url_encode`. -/
def encode_values (pairs : List (Str × Str)) : List (Str × Str) :=
  pairs.map (fun kv => (kv.1, url_encode kv.2))

/-- An optional field that is unset, or set to a string of unreserved characters. -/
def optional_unreserved : Option Str → Bool
  | none => true
  | some v => plain v

/-- A request all of whose parameter values (every text field but the recipient) are made of
unreserved characters. -/
def values_unreserved : Request → Bool
  | .transfer r =>
    plain r.amount && optional_unreserved r.spl_token && optional_unreserved r.label
      && optional_unreserved r.message && optional_unreserved r.memo && r.references.all plain
  | .transaction r =>
    plain r.link && optional_unreserved r.label
      && optional_unreserved r.message && optional_unreserved r.memo && r.references.all plain
  | .crossChain r =>
    plain r.amount && plain r.token && plain r.source_network && optional_unreserved r.bridge
      && optional_unreserved r.label
      && optional_unreserved r.message && optional_unreserved r.memo && r.references.all plain

/-- Percent-decoding in the words of the specification: a `%` followed by two hexadecimal
digits becomes the byte with that value, a `+` becomes a space, and every other character is
copied. -/
def percent_decode : Str → Str
  | [] => []
  | c :: c1 :: c2 :: rest =>
    if c = '%' && isHexDigit c1 && isHexDigit c2 then
      Char.ofNat (16 * (hexDigitValue c1).getD 0 + (hexDigitValue c2).getD 0)
        :: percent_decode rest
    else (if c = '+' then ' ' else c) :: percent_decode (c1 :: c2 :: rest)
  | c :: tail => (if c = '+' then ' ' else c) :: percent_decode tail

/-- The option keys that `parse_references_from_options` looks up, in order. -/
def reference_option_keys : List Str :=
  ["reference".toList, "reference1".toList, "reference2".toList, "reference3".toList,
    "reference4".toList, "reference5".toList, "reference6".toList, "reference7".toList,
    "reference8".toList, "reference9".toList, "reference10".toList]

/-- The number that a byte sequence denotes, most significant byte first. -/
def bytes_value (bytes : List Nat) : Nat :=
  bytes.foldl (fun acc b => acc * 256 + b) 0

/-- The number that a list of base-58 digits denotes, least significant digit first (the
order of the buffer `digits` of `encode_base58`). -/
def digits_value : List Nat → Nat
  | [] => 0
  | d :: ds => d + 58 * digits_value ds

/-- The number that a base58 text writes, most significant character first, the character
`BASE58_ALPHABET[d]` being the digit `d`. -/
def base58_value (text : Str) : Nat :=
  text.foldl (fun acc c => acc * 58 + (alphabet_index c).getD 0) 0

/-- The canonical base-58 numeral of a number, in the words of the specification: its digits in
base 58, most significant first, without a leading zero digit (so without any digit for the
number zero), each digit `d` written as the character `BASE58_ALPHABET[d]`. -/
def base58_numeral (n : Nat) : Str :=
  (Nat.digits 58 n).reverse.map alphabet_char

/-- The conditions of the round trip on unreserved text for the base sub-object, in the words
of the specification: the recipient is non-empty, the recipient, the label, the message, the
memo and each reference are made of unreserved characters, and an optional field that is set is
non-empty. -/
def unreserved_base (b : PaymentRequest) : Bool :=
  !b.recipient.isEmpty && plain b.recipient && plain_optional b.label
    && plain_optional b.message && plain_optional b.memo && b.references.all plain

/-- The requests of the round trip on unreserved text, in the words of the specification: a
Transfer, Transaction or CrossChainTransfer request whose recipient and string fields are made
of unreserved characters, with non-empty recipient, non-empty amount, token and
source_network, optional fields non-empty when set, and empty `bridge_params`. -/
def unreserved_request : Request → Bool
  | .transfer r =>
    r.type == .TRANSFER && unreserved_base r.toPaymentRequest
      && !r.amount.isEmpty && plain r.amount && plain_optional r.spl_token
  | .transaction r =>
    r.type == .TRANSACTION && unreserved_base r.toPaymentRequest && plain r.link
  | .crossChain r =>
    r.type == .CROSS_CHAIN_TRANSFER && unreserved_base r.toPaymentRequest
      && !r.amount.isEmpty && plain r.amount && !r.token.isEmpty && plain r.token
      && !r.source_network.isEmpty && plain r.source_network && plain_optional r.bridge
      && r.bridge_params.isEmpty

/-- The keys of which `parse_url` reads one value: the required and optional parameters other
than `reference`. -/
def single_valued_keys : List Str :=
  ["amount".toList, "token".toList, "source-network".toList, "link".toList, "bridge".toList,
    "spl-token".toList, "label".toList, "message".toList, "memo".toList]

/-- The key and value of one piece of a query in the words of the specification: the text
before and after its first `=`, each percent-decoded; a piece without `=` is no pair. -/
def percent_pair_of (pair : Str) : Option (Str × Str) :=
  (str_find pair '=').map
    (fun pos => (percent_decode (pair.take pos), percent_decode (pair.drop (pos + 1))))

/-- The key and value pairs of a query in the words of the specification: the pieces between
the `&`, percent-decoded, in their order of appearance. -/
def percent_query_pairs (query : Str) : List (Str × Str) :=
  (getline_all query).filterMap percent_pair_of

/-! ## Lemmas on the parameter map -/

theorem find_push_back (params : Params) (key value k : Str) :
    (params.push_back key value).find k =
      if key = k then some (((params.find k).getD []) ++ [value]) else params.find k := by
  induction params with
  | nil =>
    by_cases h : key = k <;> simp [Params.push_back, Params.find, h]
  | cons kv rest ih =>
    obtain ⟨k0, vs⟩ := kv
    by_cases h0 : k0 = key
    · subst h0
      by_cases h : k0 = k
      · subst h; simp [Params.push_back, Params.find]
      · simp [Params.push_back, Params.find, h]
    · by_cases h1 : k0 = k
      · subst h1
        have h : ¬ key = k0 := fun e => h0 e.symm
        simp [Params.push_back, Params.find, h0, h]
      · simp [Params.push_back, Params.find, h0, h1, ih]

theorem values_of_nil (k : Str) : values_of [] k = [] := rfl

theorem values_of_cons (kv : Str × Str) (pairs : List (Str × Str)) (k : Str) :
    values_of (kv :: pairs) k = if kv.1 = k then kv.2 :: values_of pairs k else values_of pairs k := by
  unfold values_of
  by_cases h : kv.1 = k <;> simp [List.filterMap_cons, h]

theorem values_of_append (p q : List (Str × Str)) (k : Str) :
    values_of (p ++ q) k = values_of p k ++ values_of q k := by
  unfold values_of
  exact List.filterMap_append _ _ _

theorem find_foldl_pairs (pieces : List Str) (params : Params) (k : Str) :
    (pieces.foldl parse_query_pair params).find k =
      if values_of (pieces.filterMap pair_of) k = [] then params.find k
      else some (((params.find k).getD []) ++ values_of (pieces.filterMap pair_of) k) := by
  induction pieces generalizing params with
  | nil => simp [values_of]
  | cons piece rest ih =>
    rw [List.foldl_cons, ih]
    cases hp : str_find piece '=' with
    | none =>
      have h1 : pair_of piece = none := by simp [pair_of, hp]
      have h2 : parse_query_pair params piece = params := by simp [parse_query_pair, hp]
      simp [List.filterMap_cons, h1, h2]
    | some pos =>
      have h1 : pair_of piece =
          some (url_decode (piece.take pos), url_decode (piece.drop (pos + 1))) := by
        simp [pair_of, hp]
      have h2 : parse_query_pair params piece =
          params.push_back (url_decode (piece.take pos)) (url_decode (piece.drop (pos + 1))) := by
        simp [parse_query_pair, hp]
      rw [h2, find_push_back, List.filterMap_cons, h1, values_of_cons]
      generalize values_of (List.filterMap pair_of rest) k = vs
      by_cases hk : url_decode (piece.take pos) = k
      · cases vs <;> simp [hk]
      · simp [hk]

theorem find_parse_query_params (query k : Str) :
    (parse_query_params query).find k =
      if values_of (query_pairs query) k = [] then none
      else some (values_of (query_pairs query) k) := by
  unfold parse_query_params
  split
  · rename_i h; subst h; simp [query_pairs, getline_all, values_of, Params.find]
  · rw [find_foldl_pairs]; simp [query_pairs, Params.find]

theorem has_key_iff (pairs : List (Str × Str)) (k : Str) :
    has_key pairs k = true ↔ values_of pairs k ≠ [] := by
  induction pairs with
  | nil => simp [has_key, values_of]
  | cons kv rest ih =>
    by_cases h : kv.1 = k
    · simp [has_key, values_of, List.filterMap_cons, h]
    · simp only [has_key, values_of, List.filterMap_cons, h, List.any_cons] at ih ⊢
      simp [ih]

theorem count_parse_query_params (query k : Str) :
    (decide ((parse_query_params query).count k > 0)) = has_key (query_pairs query) k := by
  have h := has_key_iff (query_pairs query) k
  unfold Params.count
  rw [find_parse_query_params]
  by_cases hv : values_of (query_pairs query) k = []
  · have : has_key (query_pairs query) k = false := by
      cases hh : has_key (query_pairs query) k
      · rfl
      · exact absurd hv (h.mp hh)
    simp [hv, this]
  · have : has_key (query_pairs query) k = true := h.mpr hv
    simp [hv, this]

theorem get_param_parse_query_params (query k : Str) :
    get_param (parse_query_params query) k = (first_value (query_pairs query) k).getD [] := by
  unfold get_param first_value
  rw [find_parse_query_params]
  cases hv : values_of (query_pairs query) k with
  | nil => simp
  | cons v vs => simp

theorem get_all_params_parse_query_params (query k : Str) :
    get_all_params (parse_query_params query) k = values_of (query_pairs query) k := by
  unfold get_all_params
  rw [find_parse_query_params]
  cases hv : values_of (query_pairs query) k with
  | nil => simp
  | cons v vs => simp

theorem optional_param_parse_query_params (query k : Str) :
    optional_param (parse_query_params query) k = first_nonempty_value (query_pairs query) k := by
  unfold optional_param first_nonempty_value
  rw [get_param_parse_query_params]
  cases hv : first_value (query_pairs query) k with
  | none => simp
  | some v => simp

/-! ## The branches of parse_url read from the pairs of the query -/

theorem strip_slash_eq (path : Str) : strip_slash path = without_leading_slash path := by
  unfold strip_slash without_leading_slash
  cases path with
  | nil => simp
  | cons c rest =>
    by_cases h : c = '/' <;> simp [h]

theorem parse_transfer_pairs (n : SVMNetwork) (recipient query : Str) :
    parse_transfer n recipient (parse_query_params query) =
      if (first_value (query_pairs query) "amount".toList).getD [] = [] then
        .error .transferRequiresAmount
      else .ok (.transfer
        ⟨⟨.TRANSFER, n, recipient,
          first_nonempty_value (query_pairs query) "label".toList,
          first_nonempty_value (query_pairs query) "message".toList,
          first_nonempty_value (query_pairs query) "memo".toList,
          values_of (query_pairs query) "reference".toList⟩,
          (first_value (query_pairs query) "amount".toList).getD [],
          first_nonempty_value (query_pairs query) "spl-token".toList⟩) := by
  simp only [parse_transfer, set_common, TransferRequest.new, PaymentRequest.new,
    get_param_parse_query_params, optional_param_parse_query_params,
    get_all_params_parse_query_params]

theorem parse_transaction_pairs (n : SVMNetwork) (recipient query : Str) :
    parse_transaction n recipient (parse_query_params query) =
      .ok (.transaction
        ⟨⟨.TRANSACTION, n, recipient,
          first_nonempty_value (query_pairs query) "label".toList,
          first_nonempty_value (query_pairs query) "message".toList,
          first_nonempty_value (query_pairs query) "memo".toList,
          values_of (query_pairs query) "reference".toList⟩,
          (first_value (query_pairs query) "link".toList).getD []⟩) := by
  simp only [parse_transaction, set_common, TransactionRequest.new, PaymentRequest.new,
    get_param_parse_query_params, optional_param_parse_query_params,
    get_all_params_parse_query_params]

theorem parse_cross_chain_pairs (n : SVMNetwork) (recipient query : Str) :
    parse_cross_chain n recipient (parse_query_params query) =
      if (first_value (query_pairs query) "amount".toList).getD [] = [] then
        .error .crossChainRequiresAmount
      else if (first_value (query_pairs query) "token".toList).getD [] = [] then
        .error .crossChainRequiresToken
      else if (first_value (query_pairs query) "source-network".toList).getD [] = [] then
        .error .crossChainRequiresSourceNetwork
      else .ok (.crossChain
        ⟨⟨.CROSS_CHAIN_TRANSFER, n, recipient,
          first_nonempty_value (query_pairs query) "label".toList,
          first_nonempty_value (query_pairs query) "message".toList,
          first_nonempty_value (query_pairs query) "memo".toList,
          values_of (query_pairs query) "reference".toList⟩,
          (first_value (query_pairs query) "source-network".toList).getD [], [],
          (first_value (query_pairs query) "amount".toList).getD [],
          (first_value (query_pairs query) "token".toList).getD [],
          first_nonempty_value (query_pairs query) "bridge".toList, []⟩) := by
  simp only [parse_cross_chain, set_common, CrossChainTransferRequest.new, PaymentRequest.new,
    get_param_parse_query_params, optional_param_parse_query_params,
    get_all_params_parse_query_params]

theorem parse_request_pairs (n : SVMNetwork) (path query : Str) :
    parse_request n path query =
      if path = [] then .error .missingRecipient
      else if strip_slash path = [] then .error .emptyRecipient
      else if has_key (query_pairs query) "source-network".toList
          || has_key (query_pairs query) "bridge".toList then
        parse_cross_chain n (strip_slash path) (parse_query_params query)
      else if has_key (query_pairs query) "link".toList then
        parse_transaction n (strip_slash path) (parse_query_params query)
      else parse_transfer n (strip_slash path) (parse_query_params query) := by
  unfold parse_request
  simp only [← count_parse_query_params]
  simp

theorem protocol_network_eq (protocol : Str) :
    protocol_network protocol =
      match string_to_network protocol with
      | .ok n => .ok n
      | .error _ => .error (.unsupportedProtocol protocol) := by
  unfold protocol_network string_to_network
  split_ifs <;> rfl

theorem regex_match_url_some (url : Str) (h : (regex_match_url url).isSome = true) :
    regex_match_url url = some (url_protocol url, url_path url, url_query url) ∧ url ≠ [] ∧
      ':' ∈ url ∧ schemeMatches (url_protocol url) = true ∧ url_path url ≠ [] ∧
      (url_query url).all regexDot = true := by
  unfold regex_match_url at h ⊢
  split at h
  · rename_i hc
    rw [if_pos hc]
    simp only [Bool.and_eq_true, decide_eq_true_eq] at hc
    obtain ⟨⟨⟨h1, h2⟩, h3⟩, h4⟩ := hc
    refine ⟨rfl, ?_, h1, h2, ?_, h4⟩
    · intro he; rw [he] at h1; simp at h1
    · intro he; rw [he] at h3; simp at h3
  · simp at h

theorem regex_match_url_none (url : Str) (h : (regex_match_url url).isSome = false) :
    regex_match_url url = none := by
  cases hr : regex_match_url url with
  | none => rfl
  | some x => rw [hr] at h; simp at h

theorem parse_url_of_match (url : Str) (h : (regex_match_url url).isSome = true) :
    parse_url url =
      match string_to_network (url_protocol url) with
      | .ok n => parse_request n (url_path url) (url_query url)
      | .error _ => .error (.unsupportedProtocol (url_protocol url)) := by
  obtain ⟨h1, h2, -⟩ := regex_match_url_some url h
  unfold parse_url
  rw [if_neg h2, h1]
  simp only [protocol_network_eq]
  cases string_to_network (url_protocol url) <;> rfl

theorem parse_url_empty : parse_url [] = .error .emptyUrl := rfl

theorem parse_url_no_match (url : Str) (h0 : url ≠ []) (h : (regex_match_url url).isSome = false) :
    parse_url url = .error .invalidFormat := by
  unfold parse_url
  rw [if_neg h0, regex_match_url_none url h]

theorem parse_url_known (url : Str) (n : SVMNetwork) (hg : (regex_match_url url).isSome = true)
    (hn : string_to_network (url_protocol url) = .ok n) :
    parse_url url = parse_request n (url_path url) (url_query url) := by
  rw [parse_url_of_match url hg, hn]

theorem parse_url_unknown (url : Str) (e : TypesError)
    (hg : (regex_match_url url).isSome = true)
    (hn : string_to_network (url_protocol url) = .error e) :
    parse_url url = .error (.unsupportedProtocol (url_protocol url)) := by
  rw [parse_url_of_match url hg, hn]

/-- The request that the three branches build from the pairs of the query, as a function of
the branch. -/
theorem parse_request_cases (n : SVMNetwork) (path query : Str)
    (hr : strip_slash path ≠ []) :
    parse_request n path query =
      if has_key (query_pairs query) "source-network".toList
          || has_key (query_pairs query) "bridge".toList then
        parse_cross_chain n (strip_slash path) (parse_query_params query)
      else if has_key (query_pairs query) "link".toList then
        parse_transaction n (strip_slash path) (parse_query_params query)
      else parse_transfer n (strip_slash path) (parse_query_params query) := by
  have hp : path ≠ [] := by
    intro h; rw [h] at hr; exact hr rfl
  rw [parse_request_pairs, if_neg hp, if_neg hr]

theorem handled_as_cross_chain (n : SVMNetwork) (recipient : Str) (params : Params) :
    handled_as (parse_cross_chain n recipient params) = some .CROSS_CHAIN_TRANSFER := by
  unfold parse_cross_chain
  simp only []
  split_ifs <;> rfl

theorem handled_as_transaction (n : SVMNetwork) (recipient : Str) (params : Params) :
    handled_as (parse_transaction n recipient params) = some .TRANSACTION := rfl

theorem handled_as_transfer (n : SVMNetwork) (recipient : Str) (params : Params) :
    handled_as (parse_transfer n recipient params) = some .TRANSFER := by
  unfold parse_transfer
  simp only []
  split_ifs <;> rfl

theorem cross_chain_base (n : SVMNetwork) (recipient : Str) (params : Params) (r : Request)
    (h : parse_cross_chain n recipient params = .ok r) :
    r.base = ⟨.CROSS_CHAIN_TRANSFER, n, recipient, optional_param params "label".toList,
      optional_param params "message".toList, optional_param params "memo".toList,
      get_all_params params "reference".toList⟩ := by
  unfold parse_cross_chain at h
  simp only [] at h
  split_ifs at h
  cases h
  rfl

theorem transaction_base (n : SVMNetwork) (recipient : Str) (params : Params) (r : Request)
    (h : parse_transaction n recipient params = .ok r) :
    r.base = ⟨.TRANSACTION, n, recipient, optional_param params "label".toList,
      optional_param params "message".toList, optional_param params "memo".toList,
      get_all_params params "reference".toList⟩ := by
  unfold parse_transaction at h
  cases h
  rfl

theorem transfer_base (n : SVMNetwork) (recipient : Str) (params : Params) (r : Request)
    (h : parse_transfer n recipient params = .ok r) :
    r.base = ⟨.TRANSFER, n, recipient, optional_param params "label".toList,
      optional_param params "message".toList, optional_param params "memo".toList,
      get_all_params params "reference".toList⟩ := by
  unfold parse_transfer at h
  simp only [] at h
  split_ifs at h
  cases h
  rfl

/-- Whatever the branch, a returned request has the network and the stripped path it was given,
and its common fields come from the query. -/
theorem parse_request_ok_base (n : SVMNetwork) (path query : Str) (r : Request)
    (h : parse_request n path query = .ok r) :
    strip_slash path ≠ [] ∧ handled_as (.ok r) = some r.base.type ∧
      r.base.network = n ∧ r.base.recipient = strip_slash path ∧
      r.base.label = first_nonempty_value (query_pairs query) "label".toList ∧
      r.base.message = first_nonempty_value (query_pairs query) "message".toList ∧
      r.base.memo = first_nonempty_value (query_pairs query) "memo".toList ∧
      r.base.references = values_of (query_pairs query) "reference".toList := by
  rw [parse_request_pairs] at h
  split_ifs at h with h1 h2 h3 h4
  · have hb := cross_chain_base _ _ _ _ h
    have ha := handled_as_cross_chain n (strip_slash path) (parse_query_params query)
    rw [h] at ha
    simp [hb, ha, optional_param_parse_query_params, get_all_params_parse_query_params, h2]
  · have hb := transaction_base _ _ _ _ h
    have ha := handled_as_transaction n (strip_slash path) (parse_query_params query)
    rw [h] at ha
    simp [hb, ha, optional_param_parse_query_params, get_all_params_parse_query_params, h2]
  · have hb := transfer_base _ _ _ _ h
    have ha := handled_as_transfer n (strip_slash path) (parse_query_params query)
    rw [h] at ha
    simp [hb, ha, optional_param_parse_query_params, get_all_params_parse_query_params, h2]

theorem parse_url_ok_inv (url : Str) (r : Request) (h : parse_url url = .ok r) :
    (regex_match_url url).isSome = true ∧
      ∃ n, string_to_network (url_protocol url) = .ok n ∧
        parse_request n (url_path url) (url_query url) = .ok r := by
  by_cases h0 : url = []
  · rw [h0, parse_url_empty] at h; cases h
  · cases hg : (regex_match_url url).isSome with
    | false => rw [parse_url_no_match url h0 hg] at h; cases h
    | true =>
      refine ⟨rfl, ?_⟩
      cases hn : string_to_network (url_protocol url) with
      | error e => rw [parse_url_unknown url e hg hn] at h; cases h
      | ok n => exact ⟨n, rfl, by rw [← parse_url_known url n hg hn]; exact h⟩

/-! ## Variant inference, references, network table and grammar -/

theorem split_at_char (ch : Char) (l : Str) (h : ch ∈ l) :
    l = l.takeWhile (fun c => c ≠ ch) ++ ch :: (l.dropWhile (fun c => c ≠ ch)).drop 1 := by
  induction l with
  | nil => simp at h
  | cons c rest ih =>
    by_cases hc : c = ch
    · subst hc; simp [List.takeWhile, List.dropWhile]
    · have hm : ch ∈ rest := by
        rcases List.mem_cons.mp h with h1 | h1
        · exact absurd h1.symm hc
        · exact h1
      have := ih hm
      simp only [List.takeWhile, List.dropWhile, hc, ne_eq, not_false_eq_true, decide_True,
        List.cons_append]
      rw [← this]

theorem lacks_value_iff (pairs : List (Str × Str)) (k : Str) :
    lacks_value pairs k = true ↔ (first_value pairs k).getD [] = [] := by
  unfold lacks_value
  cases first_value pairs k with
  | none => simp
  | some v => simp

theorem matches_grammar_of_regex (url : Str) (h : (regex_match_url url).isSome = true) :
    MatchesGrammar url := by
  obtain ⟨-, -, hc, hs, -, -⟩ := regex_match_url_some url h
  refine ⟨url_protocol url, url_after_colon url, none, hs, ?_⟩
  simpa [url_protocol, url_after_colon] using split_at_char ':' url hc

/-- C4. Variant inference follows a fixed priority. For every URL that passes the grammar
check, has a scheme of the network table and a non-empty recipient, `parse_url` takes the
cross-chain branch exactly when the (percent-decoded) keys of the query include
`source-network` or `bridge`, otherwise the transaction branch exactly when they include `link`,
otherwise the transfer branch; a returned request carries the type of that branch. -/
theorem parse_url_variant_priority (url : Str) (n : SVMNetwork)
    (hg : (regex_match_url url).isSome = true)
    (hn : string_to_network (url_protocol url) = .ok n)
    (hr : without_leading_slash (url_path url) ≠ []) :
    handled_as (parse_url url) = some
        (if has_key (query_pairs (url_query url)) "source-network".toList = true
            ∨ has_key (query_pairs (url_query url)) "bridge".toList = true then
          RequestType.CROSS_CHAIN_TRANSFER
        else if has_key (query_pairs (url_query url)) "link".toList = true then
          RequestType.TRANSACTION
        else RequestType.TRANSFER) ∧
      (∀ r, parse_url url = .ok r → handled_as (.ok r) = some r.base.type) := by
  rw [← strip_slash_eq] at hr
  rw [parse_url_known url n hg hn]
  refine ⟨?_, fun r h => (parse_request_ok_base n _ _ r h).2.1⟩
  rw [parse_request_cases n _ _ hr]
  generalize has_key (query_pairs (url_query url)) "source-network".toList = a
  generalize has_key (query_pairs (url_query url)) "bridge".toList = b
  generalize has_key (query_pairs (url_query url)) "link".toList = c
  cases a <;> cases b <;> cases c <;>
    simp [handled_as_cross_chain, handled_as_transaction, handled_as_transfer]

theorem parse_url_variant_priority_witness :
    (regex_match_url "solana:r?link=x&source-network=ethereum".toList).isSome = true ∧
    string_to_network (url_protocol "solana:r?link=x&source-network=ethereum".toList)
      = .ok .SOLANA ∧
    without_leading_slash (url_path "solana:r?link=x&source-network=ethereum".toList) ≠ [] ∧
    handled_as (parse_url "solana:r?link=x&source-network=ethereum".toList)
      = some RequestType.CROSS_CHAIN_TRANSFER :=
  ⟨by decide, by decide, by decide,
    (parse_url_variant_priority "solana:r?link=x&source-network=ethereum".toList .SOLANA
      (by decide) (by decide) (by decide)).1⟩

/-- The references of an accepted URL. For every URL that `parse_url` accepts, whatever the
variant, the references of the returned request are the values, as `url_decode` reads them, of
all the query pairs whose key is `reference`, in their order of appearance, duplicates and
empty values included. -/
theorem parse_url_references (url : Str) (r : Request) (h : parse_url url = .ok r) :
    r.base.references = values_of (query_pairs (url_query url)) "reference".toList := by
  obtain ⟨-, n, -, hp⟩ := parse_url_ok_inv url r h
  exact (parse_request_ok_base n _ _ r hp).2.2.2.2.2.2.2

theorem parse_url_references_witness :
    parse_url "solana:recipient123?amount=1.5&reference=ref1&reference=&reference=ref1".toList
      = .ok (.transfer ⟨⟨.TRANSFER, .SOLANA, "recipient123".toList, none, none, none,
          ["ref1".toList, [], "ref1".toList]⟩, "1.5".toList, none⟩) ∧
    (Request.transfer ⟨⟨.TRANSFER, .SOLANA, "recipient123".toList, none, none, none,
          ["ref1".toList, [], "ref1".toList]⟩, "1.5".toList, none⟩).base.references
      = values_of (query_pairs (url_query
          "solana:recipient123?amount=1.5&reference=ref1&reference=&reference=ref1".toList))
        "reference".toList :=
  ⟨by decide,
    parse_url_references
      "solana:recipient123?amount=1.5&reference=ref1&reference=&reference=ref1".toList
      (.transfer ⟨⟨.TRANSFER, .SOLANA, "recipient123".toList, none, none, none,
          ["ref1".toList, [], "ref1".toList]⟩, "1.5".toList, none⟩) (by decide)⟩

theorem parse_request_not_unsupported (n : SVMNetwork) (path query p : Str) :
    parse_request n path query ≠ .error (.unsupportedProtocol p) := by
  rw [parse_request_pairs]
  simp only [parse_cross_chain, parse_transaction, parse_transfer]
  split_ifs <;> simp

/-- C6. The scheme is mapped to a network exactly as the table `string_to_network` does. For
every URL that passes the grammar check: parsing fails with the unsupported-network error if
and only if `string_to_network` fails on the scheme, the error then names that scheme, and
whenever a request is returned its network is the one `string_to_network` gives for the
scheme; no default network is substituted. -/
theorem parse_url_network_table (url : Str) (hg : (regex_match_url url).isSome = true) :
    ((∃ p, parse_url url = .error (.unsupportedProtocol p)) ↔
        ∃ e, string_to_network (url_protocol url) = .error e) ∧
      (∀ e, string_to_network (url_protocol url) = .error e →
        parse_url url = .error (.unsupportedProtocol (url_protocol url)) ∧
        error_kind (parse_url url) = some .UnsupportedNetwork) ∧
      (∀ r, parse_url url = .ok r →
        string_to_network (url_protocol url) = .ok r.base.network) := by
  refine ⟨⟨?_, ?_⟩, ?_, ?_⟩
  · rintro ⟨p, hp⟩
    cases hn : string_to_network (url_protocol url) with
    | error e => exact ⟨e, rfl⟩
    | ok n =>
      rw [parse_url_known url n hg hn] at hp
      exact absurd hp (parse_request_not_unsupported n _ _ p)
  · rintro ⟨e, he⟩
    exact ⟨_, parse_url_unknown url e hg he⟩
  · intro e he
    rw [parse_url_unknown url e hg he]
    exact ⟨rfl, rfl⟩
  · intro r hr
    obtain ⟨-, n, hn, hp⟩ := parse_url_ok_inv url r hr
    rw [hn, (parse_request_ok_base n _ _ r hp).2.2.1]

theorem parse_url_network_table_witness :
    (regex_match_url "SOLANA:recipient123?amount=1.5".toList).isSome = true ∧
    parse_url "SOLANA:recipient123?amount=1.5".toList
      = .error (.unsupportedProtocol "SOLANA".toList) ∧
    (regex_match_url "bitcoin:recipient123?amount=1.5".toList).isSome = true ∧
    parse_url "bitcoin:recipient123?amount=1.5".toList
      = .error (.unsupportedProtocol "bitcoin".toList) :=
  ⟨by decide,
    ((parse_url_network_table "SOLANA:recipient123?amount=1.5".toList (by decide)).2.1
      (.unknownNetwork "SOLANA".toList) (by decide)).1,
    by decide,
    ((parse_url_network_table "bitcoin:recipient123?amount=1.5".toList (by decide)).2.1
      (.unknownNetwork "bitcoin".toList) (by decide)).1⟩

/-- C7. The empty string, and every string that is not of the form
`scheme ":" path [ "?" query ]` with `scheme` matching `[a-zA-Z][a-zA-Z0-9+.-]*`, is rejected
with a malformed-URL error ("URL must be a non-empty string" or "Invalid URL format"); no
request is returned for it. -/
theorem parse_url_malformed (url : Str) (h : url = [] ∨ ¬ MatchesGrammar url) :
    (parse_url url = .error .emptyUrl ∨ parse_url url = .error .invalidFormat) ∧
      error_kind (parse_url url) = some .MalformedUrl ∧
      ∀ r, parse_url url ≠ .ok r := by
  have key : parse_url url = .error .emptyUrl ∨ parse_url url = .error .invalidFormat := by
    by_cases h0 : url = []
    · left; rw [h0]; rfl
    · right
      have hm : ¬ MatchesGrammar url := by
        rcases h with h | h
        · exact absurd h h0
        · exact h
      cases hg : (regex_match_url url).isSome with
      | false => exact parse_url_no_match url h0 hg
      | true => exact absurd (matches_grammar_of_regex url hg) hm
  refine ⟨key, ?_, ?_⟩
  · rcases key with k | k <;> rw [k] <;> rfl
  · intro r hr
    rcases key with k | k <;> rw [k] at hr <;> cases hr

theorem not_matches_grammar_of_no_colon (url : Str) (h : ':' ∉ url) : ¬ MatchesGrammar url := by
  rintro ⟨scheme, path, query, -, he⟩
  apply h
  rw [he]
  simp

theorem parse_url_malformed_witness :
    ("invalid".toList = [] ∨ ¬ MatchesGrammar "invalid".toList) ∧
    parse_url "invalid".toList = .error .invalidFormat := by
  have hm : ¬ MatchesGrammar "invalid".toList :=
    not_matches_grammar_of_no_colon _ (by decide)
  refine ⟨Or.inr hm, ?_⟩
  rcases (parse_url_malformed "invalid".toList (Or.inr hm)).1 with k | k
  · exact absurd k (by decide)
  · exact k

/-! ## Recipient, order of the checks, transfer branch -/

theorem parse_url_empty_path (url : Str) (h : url_path url = []) :
    parse_url url = .error .emptyUrl ∨ parse_url url = .error .invalidFormat := by
  by_cases h0 : url = []
  · left; rw [h0]; rfl
  · right
    cases hg : (regex_match_url url).isSome with
    | false => exact parse_url_no_match url h0 hg
    | true =>
      obtain ⟨-, -, -, -, hp, -⟩ := regex_match_url_some url hg
      exact absurd h hp

/-- C8, as the code has it. For every URL, a returned request has as recipient the path (the
text between the first colon and the first question mark after it, not percent-decoded) with
one leading slash removed, and that recipient is not empty. A URL that passes the grammar
check with a known scheme and whose path consists of a single slash fails with the
missing-recipient error "Empty recipient address". A URL whose path is empty is rejected
before that, by the grammar check, with a malformed-URL error. -/
theorem parse_url_recipient (url : Str) :
    (∀ r, parse_url url = .ok r →
        r.base.recipient = without_leading_slash (url_path url) ∧ r.base.recipient ≠ []) ∧
      ((regex_match_url url).isSome = true →
        (∃ n, string_to_network (url_protocol url) = .ok n) →
        without_leading_slash (url_path url) = [] →
        parse_url url = .error .emptyRecipient ∧
          error_kind (parse_url url) = some .MissingRecipient) ∧
      (url_path url = [] → error_kind (parse_url url) = some .MalformedUrl) := by
  refine ⟨?_, ?_, ?_⟩
  · intro r hr
    obtain ⟨-, n, -, hp⟩ := parse_url_ok_inv url r hr
    obtain ⟨h1, -, -, h2, -⟩ := parse_request_ok_base n _ _ r hp
    rw [h2]
    exact ⟨strip_slash_eq _, h1⟩
  · rintro hg ⟨n, hn⟩ he
    obtain ⟨-, -, -, -, hp, -⟩ := regex_match_url_some url hg
    rw [← strip_slash_eq] at he
    have : parse_url url = .error .emptyRecipient := by
      rw [parse_url_known url n hg hn, parse_request_pairs, if_neg hp, if_pos he]
    rw [this]
    exact ⟨rfl, rfl⟩
  · intro he
    rcases parse_url_empty_path url he with k | k <;> rw [k] <;> rfl

/-- C8, the claim as stated fails: the inputs `solana:` and `solana:?amount=1` have a known
scheme and an empty path, and are rejected as malformed ("Invalid URL format"), not with a
missing-recipient error. -/
theorem parse_url_empty_path_is_malformed :
    url_protocol "solana:".toList = "solana".toList ∧
    url_path "solana:".toList = [] ∧
    parse_url "solana:".toList = .error .invalidFormat ∧
    error_kind (parse_url "solana:".toList) ≠ some .MissingRecipient ∧
    url_path "solana:?amount=1".toList = [] ∧
    parse_url "solana:?amount=1".toList = .error .invalidFormat ∧
    error_kind (parse_url "solana:?amount=1".toList) ≠ some .MissingRecipient := by
  decide

theorem parse_request_error_kind (n : SVMNetwork) (url : Str)
    (hr : strip_slash (url_path url) ≠ []) :
    error_kind (parse_request n (url_path url) (url_query url)) =
      (missing_parameter url).map ErrorKind.MissingRequiredParameter := by
  rw [parse_request_cases n _ _ hr, parse_cross_chain_pairs, parse_transaction_pairs,
    parse_transfer_pairs]
  unfold missing_parameter
  simp only [lacks_value_iff]
  generalize has_key (query_pairs (url_query url)) "source-network".toList = a
  generalize has_key (query_pairs (url_query url)) "bridge".toList = b
  generalize has_key (query_pairs (url_query url)) "link".toList = c
  cases a <;> cases b <;> cases c <;> simp only [Bool.or_false, Bool.or_true, if_true,
    Bool.false_eq_true, if_false] <;> first | rfl | (split_ifs <;> rfl)

/-- C9. The checks of `parse_url` are applied in a fixed order and the error reported is that
of the first check that fails: the grammar (malformed URL), then the network table
(unsupported network), then the recipient (missing recipient), then the required parameters of
the variant (missing required parameter, naming the field); a request is returned exactly when
no check fails. -/
theorem parse_url_error_priority (url : Str) :
    error_kind (parse_url url) =
      if grammar_check_fails url = true then some .MalformedUrl
      else if network_check_fails url = true then some .UnsupportedNetwork
      else if recipient_check_fails url = true then some .MissingRecipient
      else (missing_parameter url).map ErrorKind.MissingRequiredParameter := by
  by_cases h0 : url = []
  · subst h0; rfl
  · cases hg : (regex_match_url url).isSome with
    | false =>
      have h1 : grammar_check_fails url = true := by
        simp [grammar_check_fails, regex_match_url_none url hg]
      rw [parse_url_no_match url h0 hg, if_pos h1]; rfl
    | true =>
      have h1 : ¬ grammar_check_fails url = true := by
        cases hm : regex_match_url url with
        | none => rw [hm] at hg; simp at hg
        | some x => simp [grammar_check_fails, hm, h0]
      rw [if_neg h1]
      cases hn : string_to_network (url_protocol url) with
      | error e =>
        have h2 : network_check_fails url = true := by simp [network_check_fails, hn]
        rw [parse_url_unknown url e hg hn, if_pos h2]; rfl
      | ok n =>
        have h2 : ¬ network_check_fails url = true := by simp [network_check_fails, hn]
        rw [parse_url_known url n hg hn, if_neg h2]
        obtain ⟨-, -, -, -, hp, -⟩ := regex_match_url_some url hg
        by_cases hr : strip_slash (url_path url) = []
        · have h3 : recipient_check_fails url = true := by
            simp [recipient_check_fails, ← strip_slash_eq, hr]
          rw [if_pos h3, parse_request_pairs, if_neg hp, if_pos hr]; rfl
        · have h3 : ¬ recipient_check_fails url = true := by
            simp [recipient_check_fails, ← strip_slash_eq, hr]
          rw [if_neg h3]
          exact parse_request_error_kind n url hr

theorem parse_url_error_priority_examples :
    error_kind (parse_url "bitcoin:/".toList) = some .UnsupportedNetwork ∧
    error_kind (parse_url "solana:/".toList) = some .MissingRecipient ∧
    error_kind (parse_url "solana:recipient123".toList)
      = some (.MissingRequiredParameter "amount".toList) ∧
    error_kind (parse_url "".toList) = some .MalformedUrl := by
  decide

/-- The transfer branch. For every URL that passes the grammar check, with a scheme of the
network table and a non-empty recipient, whose query has none of the keys `source-network`,
`bridge`, `link`: parsing fails, with the error "Transfer request requires an amount
parameter", if and only if the key `amount` is missing or its first value is empty; otherwise a
transfer request is returned whose amount is the first value of `amount` as `url_decode` reads
it, kept as a string, and whose `spl_token`, `label`, `message`, `memo` are the first values of
`spl-token`, `label`, `message`, `memo` as `url_decode` reads them (unset when the key is
absent or its value empty). -/
theorem parse_url_transfer_branch (url : Str) (n : SVMNetwork)
    (hg : (regex_match_url url).isSome = true)
    (hn : string_to_network (url_protocol url) = .ok n)
    (hr : without_leading_slash (url_path url) ≠ [])
    (h1 : has_key (query_pairs (url_query url)) "source-network".toList = false)
    (h2 : has_key (query_pairs (url_query url)) "bridge".toList = false)
    (h3 : has_key (query_pairs (url_query url)) "link".toList = false) :
    (parse_url url = .error .transferRequiresAmount ↔
        (first_value (query_pairs (url_query url)) "amount".toList = none ∨
          first_value (query_pairs (url_query url)) "amount".toList = some [])) ∧
      (error_kind (parse_url url) = some (.MissingRequiredParameter "amount".toList) ↔
        (first_value (query_pairs (url_query url)) "amount".toList = none ∨
          first_value (query_pairs (url_query url)) "amount".toList = some [])) ∧
      (∀ amount, first_value (query_pairs (url_query url)) "amount".toList = some amount →
        amount ≠ [] →
        parse_url url = .ok (.transfer
          ⟨⟨.TRANSFER, n, without_leading_slash (url_path url),
            first_nonempty_value (query_pairs (url_query url)) "label".toList,
            first_nonempty_value (query_pairs (url_query url)) "message".toList,
            first_nonempty_value (query_pairs (url_query url)) "memo".toList,
            values_of (query_pairs (url_query url)) "reference".toList⟩,
            amount,
            first_nonempty_value (query_pairs (url_query url)) "spl-token".toList⟩)) := by
  rw [← strip_slash_eq] at hr
  have hp : parse_url url = parse_transfer n (strip_slash (url_path url))
      (parse_query_params (url_query url)) := by
    rw [parse_url_known url n hg hn, parse_request_cases n _ _ hr, h1, h2, h3]
    rfl
  rw [hp, parse_transfer_pairs, ← strip_slash_eq]
  cases hv : first_value (query_pairs (url_query url)) "amount".toList with
  | none =>
    refine ⟨?_, ?_, ?_⟩
    · simp
    · simp [error_kind, UrlError.kind]
    · intro amount h; cases h
  | some v =>
    by_cases he : v = []
    · subst he
      refine ⟨?_, ?_, ?_⟩
      · simp
      · simp [error_kind, UrlError.kind]
      · intro amount h hne
        cases h
        exact absurd rfl hne
    · refine ⟨?_, ?_, ?_⟩
      · simp [he]
      · simp [he, error_kind]
      · intro amount h hne
        cases h
        simp [he]

theorem parse_url_transfer_branch_witness :
    (regex_match_url "solana:recipient123?amount=1.5&label=Test%20Payment".toList).isSome
      = true ∧
    string_to_network (url_protocol "solana:recipient123?amount=1.5&label=Test%20Payment".toList)
      = .ok .SOLANA ∧
    without_leading_slash (url_path "solana:recipient123?amount=1.5&label=Test%20Payment".toList)
      ≠ [] ∧
    has_key (query_pairs (url_query "solana:recipient123?amount=1.5&label=Test%20Payment".toList))
      "source-network".toList = false ∧
    has_key (query_pairs (url_query "solana:recipient123?amount=1.5&label=Test%20Payment".toList))
      "bridge".toList = false ∧
    has_key (query_pairs (url_query "solana:recipient123?amount=1.5&label=Test%20Payment".toList))
      "link".toList = false ∧
    parse_url "solana:recipient123?amount=1.5&label=Test%20Payment".toList
      = .ok (.transfer ⟨⟨.TRANSFER, .SOLANA, "recipient123".toList, some "Test Payment".toList,
          none, none, []⟩, "1.5".toList, none⟩) :=
  ⟨by decide, by decide, by decide, by decide, by decide, by decide,
    (parse_url_transfer_branch "solana:recipient123?amount=1.5&label=Test%20Payment".toList
      .SOLANA (by decide) (by decide) (by decide) (by decide) (by decide) (by decide)).2.2
      "1.5".toList (by decide) (by decide)⟩

/-! ## Round trip of the URL codec on unreserved text -/

theorem unreserved_ne (c d : Char) (hc : unreserved c = true) (hd : unreserved d = false) :
    c ≠ d := by
  intro h; rw [h, hd] at hc; cases hc

theorem url_decode_cons_plain (c : Char) (tail : Str) (h1 : c ≠ '%') (h2 : c ≠ '+') :
    url_decode (c :: tail) = c :: url_decode tail := by
  match tail with
  | [] => simp [url_decode, h2]
  | [c1] => simp [url_decode, h2]
  | c1 :: c2 :: rest => simp [url_decode, h1, h2]

theorem url_decode_plain (s : Str) (h : plain s = true) : url_decode s = s := by
  induction s with
  | nil => rfl
  | cons c tail ih =>
    simp only [plain, List.all_cons, Bool.and_eq_true] at h
    rw [url_decode_cons_plain c tail (unreserved_ne c '%' h.1 (by decide))
      (unreserved_ne c '+' h.1 (by decide)), ih h.2]

theorem url_encode_plain (s : Str) (h : plain s = true) : url_encode s = s := by
  induction s with
  | nil => rfl
  | cons c tail ih =>
    simp only [plain, List.all_cons, Bool.and_eq_true] at h
    have hc : url_encode_char c = [c] := by
      have := h.1
      unfold unreserved at this
      unfold url_encode_char
      rw [if_pos this]
    simp only [url_encode, hc, ih h.2, List.singleton_append]

theorem str_find_plain (k v : Str) (h : plain k = true) :
    str_find (k ++ '=' :: v) '=' = some k.length := by
  induction k with
  | nil => simp [str_find]
  | cons c tail ih =>
    simp only [plain, List.all_cons, Bool.and_eq_true] at h
    have hc : c ≠ '=' := unreserved_ne c '=' h.1 (by decide)
    simp [str_find, hc, ih h.2]

theorem pair_of_plain (k v : Str) (hk : plain k = true) (hv : plain v = true) :
    pair_of (k ++ '=' :: v) = some (k, v) := by
  unfold pair_of
  rw [str_find_plain k v hk]
  simp [url_decode_plain k hk, url_decode_plain v hv]

theorem getline_all_single (p : Str) (h0 : p ≠ []) (h : '&' ∉ p) : getline_all p = [p] := by
  induction p with
  | nil => exact absurd rfl h0
  | cons c tail ih =>
    have hc : c ≠ '&' := fun e => h (by rw [e]; simp)
    have ht : '&' ∉ tail := fun e => h (List.mem_cons_of_mem _ e)
    cases tail with
    | nil => simp [getline_all, hc]
    | cons d rest =>
      simp only [getline_all, hc, if_false] at ih ⊢
      rw [ih (by simp) ht]

theorem getline_all_append (p s : Str) (h : '&' ∉ p) :
    getline_all (p ++ '&' :: s) = p :: getline_all s := by
  induction p with
  | nil => simp [getline_all]
  | cons c tail ih =>
    have hc : c ≠ '&' := fun e => h (by rw [e]; simp)
    have ht : '&' ∉ tail := fun e => h (List.mem_cons_of_mem _ e)
    have e : getline_all (c :: (tail ++ '&' :: s)) =
        match getline_all (tail ++ '&' :: s) with
        | [] => [[c]]
        | x :: xs => (c :: x) :: xs := by
      simp only [getline_all, hc, if_false]
    rw [List.cons_append, e, ih ht]

theorem plain_not_mem (s : Str) (d : Char) (h : plain s = true) (hd : unreserved d = false) :
    d ∉ s := by
  intro hm
  have := List.all_eq_true.mp h d hm
  rw [hd] at this; cases this

theorem piece_no_amp (k v : Str) (hk : plain k = true) (hv : plain v = true) :
    '&' ∉ k ++ '=' :: v := by
  intro hm
  rcases List.mem_append.mp hm with h | h
  · exact plain_not_mem k '&' hk (by decide) h
  · rcases List.mem_cons.mp h with h | h
    · exact absurd h (by decide)
    · exact plain_not_mem v '&' hv (by decide) h

theorem getline_all_tail (rest : List (Str × Str)) (p : Str) (h0 : p ≠ []) (hp : '&' ∉ p)
    (hr : plain_pairs rest = true) :
    getline_all (p ++ tail_pairs rest) = p :: rest.map (fun kv => kv.1 ++ '=' :: kv.2) := by
  induction rest generalizing p with
  | nil => simpa [tail_pairs] using getline_all_single p h0 hp
  | cons kv rest ih =>
    simp only [plain_pairs, List.all_cons, Bool.and_eq_true] at hr
    have hr2 : plain_pairs rest = true := hr.2
    rw [tail_pairs, List.cons_append, getline_all_append p _ hp,
      ih (kv.1 ++ '=' :: kv.2) (by simp) (piece_no_amp _ _ hr.1.1 hr.1.2) hr2, List.map_cons]

theorem filterMap_pair_of_pieces (pairs : List (Str × Str)) (h : plain_pairs pairs = true) :
    (pairs.map (fun kv => kv.1 ++ '=' :: kv.2)).filterMap pair_of = pairs := by
  induction pairs with
  | nil => rfl
  | cons kv rest ih =>
    simp only [plain_pairs, List.all_cons, Bool.and_eq_true] at h
    have hr2 : plain_pairs rest = true := h.2
    rw [List.map_cons, List.filterMap_cons, pair_of_plain _ _ h.1.1 h.1.2, ih hr2]

/-- The query written from a list of pairs of unreserved text reads back as that list. -/
theorem query_pairs_join (pairs : List (Str × Str)) (h : plain_pairs pairs = true) :
    query_pairs (join_query pairs) = pairs := by
  cases pairs with
  | nil => rfl
  | cons kv rest =>
    have h2 := h
    simp only [plain_pairs, List.all_cons, Bool.and_eq_true] at h2
    have hr2 : plain_pairs rest = true := h2.2
    unfold query_pairs
    rw [join_query, getline_all_tail rest _ (by simp) (piece_no_amp _ _ h2.1.1 h2.1.2) hr2,
      ← List.map_cons (fun kv => kv.1 ++ '=' :: kv.2) kv rest, filterMap_pair_of_pieces _ h]

theorem takeWhile_until (p : Char → Bool) (l r : Str) (a : Char)
    (hl : ∀ c ∈ l, p c = true) (ha : p a = false) :
    (l ++ a :: r).takeWhile p = l ∧ (l ++ a :: r).dropWhile p = a :: r := by
  induction l with
  | nil => simp [List.takeWhile, List.dropWhile, ha]
  | cons c tail ih =>
    have hc : p c = true := hl c (by simp)
    have ht := ih (fun x hx => hl x (List.mem_cons_of_mem _ hx))
    simp [List.takeWhile, List.dropWhile, hc, ht.1, ht.2]

/-- The three parts of a URL written as scheme, colon, path, question mark, query. -/
theorem url_parts (net path query : Str) (hn : ':' ∉ net) (hp : '?' ∉ path) :
    url_protocol (net ++ ':' :: (path ++ '?' :: query)) = net ∧
      url_path (net ++ ':' :: (path ++ '?' :: query)) = path ∧
      url_query (net ++ ':' :: (path ++ '?' :: query)) = query := by
  have h1 := takeWhile_until (fun c => decide (c ≠ ':')) net (path ++ '?' :: query) ':'
    (fun c hc => by
      have : c ≠ ':' := fun e => hn (e ▸ hc)
      simpa using this) (by simp)
  have h2 := takeWhile_until (fun c => decide (c ≠ '?')) path query '?'
    (fun c hc => by
      have : c ≠ '?' := fun e => hp (e ▸ hc)
      simpa using this) (by simp)
  unfold url_path url_query url_after_colon url_protocol
  simp only [ne_eq] at h1 h2 ⊢
  rw [h1.1, h1.2]
  simp only [List.drop_succ_cons, List.drop_zero]
  rw [h2.1, h2.2]
  simp

theorem regexDot_join_query (pairs : List (Str × Str)) (h : plain_pairs pairs = true) :
    (join_query pairs).all regexDot = true := by
  have hu : ∀ s : Str, plain s = true → s.all regexDot = true := by
    intro s hs
    unfold plain at hs
    rw [List.all_eq_true] at hs ⊢
    intro c hc
    have h1 := unreserved_ne c (Char.ofNat 10) (hs c hc) (by decide)
    have h2 := unreserved_ne c (Char.ofNat 13) (hs c hc) (by decide)
    simp [regexDot, h1, h2]
  have ht : ∀ ps : List (Str × Str), plain_pairs ps = true →
      (tail_pairs ps).all regexDot = true := by
    intro ps
    induction ps with
    | nil => intro _; rfl
    | cons kv rest ih =>
      intro hps
      simp only [plain_pairs, List.all_cons, Bool.and_eq_true] at hps
      have e1 : regexDot '&' = true := by decide
      have e2 : regexDot '=' = true := by decide
      simp only [tail_pairs, List.all_cons, List.all_append, hu _ hps.1.1, hu _ hps.1.2,
        ih hps.2, e1, e2, Bool.and_self, List.cons_append]
  cases pairs with
  | nil => rfl
  | cons kv rest =>
    simp only [plain_pairs, List.all_cons, Bool.and_eq_true] at h
    have e2 : regexDot '=' = true := by decide
    simp only [join_query, List.all_cons, List.all_append, hu _ h.1.1, hu _ h.1.2,
      ht rest h.2, e2, Bool.and_self]

theorem tail_pairs_append (a b : List (Str × Str)) :
    tail_pairs (a ++ b) = tail_pairs a ++ tail_pairs b := by
  induction a with
  | nil => rfl
  | cons kv rest ih => simp [tail_pairs, ih]

theorem encode_values_append (a b : List (Str × Str)) :
    encode_values (a ++ b) = encode_values a ++ encode_values b := by
  simp [encode_values]

theorem emit_optional_eq (key k : Str) (o : Option Str) (hk : key = '&' :: (k ++ ['='])) :
    emit_optional key o = tail_pairs (encode_values (optional_pair k o)) := by
  cases o with
  | none => rfl
  | some v => simp [emit_optional, optional_pair, encode_values, tail_pairs, hk]

theorem emit_references_eq (refs : List Str) :
    emit_references refs = tail_pairs (encode_values (reference_pairs refs)) := by
  induction refs with
  | nil => rfl
  | cons v rest ih =>
    have e : emit_references (v :: rest) =
        "&reference=".toList ++ url_encode v ++ emit_references rest := rfl
    rw [e, ih]
    simp [reference_pairs, encode_values, tail_pairs]

/-- The text written by `create_transfer_url`. -/
theorem create_transfer_url_eq (r : TransferRequest) :
    create_transfer_url r = network_to_string r.network
      ++ ':' :: (r.recipient ++ '?' :: join_query (encode_values (transfer_pairs r))) := by
  unfold create_transfer_url transfer_pairs
  rw [emit_optional_eq "&spl-token=".toList "spl-token".toList _ rfl,
    emit_optional_eq "&label=".toList "label".toList _ rfl,
    emit_optional_eq "&message=".toList "message".toList _ rfl,
    emit_optional_eq "&memo=".toList "memo".toList _ rfl, emit_references_eq]
  simp [encode_values, join_query, tail_pairs_append]

/-- The text written by `create_transaction_url`. -/
theorem create_transaction_url_eq (r : TransactionRequest) :
    create_transaction_url r = network_to_string r.network
      ++ ':' :: (r.recipient ++ '?' :: join_query (encode_values (transaction_pairs r))) := by
  unfold create_transaction_url transaction_pairs
  rw [emit_optional_eq "&label=".toList "label".toList _ rfl,
    emit_optional_eq "&message=".toList "message".toList _ rfl,
    emit_optional_eq "&memo=".toList "memo".toList _ rfl, emit_references_eq]
  simp [encode_values, join_query, tail_pairs_append]

/-- The text written by `create_cross_chain_url`. -/
theorem create_cross_chain_url_eq (r : CrossChainTransferRequest) :
    create_cross_chain_url r = network_to_string r.network
      ++ ':' :: (r.recipient ++ '?' :: join_query (encode_values (cross_chain_pairs r))) := by
  unfold create_cross_chain_url cross_chain_pairs
  rw [emit_optional_eq "&bridge=".toList "bridge".toList _ rfl,
    emit_optional_eq "&label=".toList "label".toList _ rfl,
    emit_optional_eq "&message=".toList "message".toList _ rfl,
    emit_optional_eq "&memo=".toList "memo".toList _ rfl, emit_references_eq]
  simp [encode_values, join_query, tail_pairs, tail_pairs_append]

theorem encode_values_plain (pairs : List (Str × Str)) (h : plain_pairs pairs = true) :
    encode_values pairs = pairs := by
  induction pairs with
  | nil => rfl
  | cons kv rest ih =>
    simp only [plain_pairs, List.all_cons, Bool.and_eq_true] at h
    have hr : plain_pairs rest = true := h.2
    have e : encode_values (kv :: rest) = (kv.1, url_encode kv.2) :: encode_values rest := rfl
    rw [e, ih hr, url_encode_plain _ h.1.2]

theorem plain_pairs_append (a b : List (Str × Str)) :
    plain_pairs (a ++ b) = (plain_pairs a && plain_pairs b) := by
  simp [plain_pairs, List.all_append]

theorem plain_pairs_optional (k : Str) (o : Option Str) (hk : plain k = true)
    (ho : plain_optional o = true) : plain_pairs (optional_pair k o) = true := by
  cases o with
  | none => rfl
  | some v =>
    simp only [plain_optional, Bool.and_eq_true] at ho
    simp [plain_pairs, optional_pair, hk, ho.2]

theorem plain_pairs_references (refs : List Str) (h : refs.all plain = true) :
    plain_pairs (reference_pairs refs) = true := by
  have hk : plain "reference".toList = true := by decide
  induction refs with
  | nil => rfl
  | cons v rest ih =>
    simp only [List.all_cons, Bool.and_eq_true] at h
    have := ih h.2
    simp only [plain_pairs, reference_pairs, List.map_cons, List.all_cons, hk, h.1,
      Bool.and_self, Bool.true_and] at this ⊢
    exact this

theorem values_of_optional_pair (k k' : Str) (o : Option Str) :
    values_of (optional_pair k o) k' = if k = k' then o.toList else [] := by
  cases o with
  | none => simp [optional_pair, values_of]
  | some v => by_cases h : k = k' <;> simp [optional_pair, values_of, h]

theorem values_of_reference_pairs (refs : List Str) (k' : Str) :
    values_of (reference_pairs refs) k' = if "reference".toList = k' then refs else [] := by
  induction refs with
  | nil => simp [reference_pairs, values_of]
  | cons v rest ih =>
    have e : reference_pairs (v :: rest) = ("reference".toList, v) :: reference_pairs rest := rfl
    rw [e, values_of_cons, ih]
    by_cases h : "reference".toList = k' <;> simp only [h, if_true, if_false]

theorem has_key_eq_false (pairs : List (Str × Str)) (k : Str) (h : values_of pairs k = []) :
    has_key pairs k = false := by
  cases hh : has_key pairs k with
  | false => rfl
  | true => exact absurd h ((has_key_iff pairs k).mp hh)

theorem has_key_eq_true (pairs : List (Str × Str)) (k v : Str) (vs : List Str)
    (h : values_of pairs k = v :: vs) : has_key pairs k = true := by
  apply (has_key_iff pairs k).mpr
  rw [h]; simp

theorem first_nonempty_value_optional (pairs : List (Str × Str)) (k : Str) (o : Option Str)
    (h : values_of pairs k = o.toList) (ho : plain_optional o = true) :
    first_nonempty_value pairs k = o := by
  unfold first_nonempty_value first_value
  rw [h]
  cases o with
  | none => rfl
  | some v =>
    simp only [plain_optional, Bool.and_eq_true] at ho
    have : v ≠ [] := by
      intro e; rw [e] at ho; simp at ho
    simp [this]

theorem network_to_string_facts (n : SVMNetwork) :
    ':' ∉ network_to_string n ∧ schemeMatches (network_to_string n) = true ∧
      string_to_network (network_to_string n) = .ok n := by
  cases n <;> decide

theorem recipient_carried_facts (recipient : Str) (h : recipient_carried recipient = true) :
    recipient ≠ [] ∧ '?' ∉ recipient ∧ strip_slash recipient = recipient := by
  unfold recipient_carried at h
  simp only [Bool.and_eq_true, Bool.not_eq_true', List.isEmpty_eq_false, bne_iff_ne, ne_eq] at h
  obtain ⟨⟨h1, h2⟩, h3⟩ := h
  refine ⟨?_, ?_, ?_⟩
  · intro e; rw [e] at h1; simp at h1
  · intro hm
    have : recipient.contains '?' = true := by simpa using hm
    rw [this] at h2; cases h2
  · cases recipient with
    | nil => rfl
    | cons c rest =>
      have hc : c ≠ '/' := by
        intro e; apply h3; rw [e]; rfl
      simp [strip_slash, hc]

/-- Parsing the URL written from a network, a carried recipient and pairs of unreserved text
comes down to the branches applied to that network, recipient and query. -/
theorem parse_url_written (n : SVMNetwork) (recipient : Str) (pairs : List (Str × Str))
    (hr : recipient_carried recipient = true) (hp : plain_pairs pairs = true) :
    parse_url (network_to_string n ++ ':' :: (recipient ++ '?' :: join_query pairs)) =
      if has_key pairs "source-network".toList || has_key pairs "bridge".toList then
        parse_cross_chain n recipient (parse_query_params (join_query pairs))
      else if has_key pairs "link".toList then
        parse_transaction n recipient (parse_query_params (join_query pairs))
      else parse_transfer n recipient (parse_query_params (join_query pairs)) := by
  obtain ⟨hn1, hn2, hn3⟩ := network_to_string_facts n
  obtain ⟨hr1, hr2, hr3⟩ := recipient_carried_facts recipient hr
  obtain ⟨hu1, hu2, hu3⟩ := url_parts (network_to_string n) recipient (join_query pairs) hn1 hr2
  have hg : (regex_match_url
      (network_to_string n ++ ':' :: (recipient ++ '?' :: join_query pairs))).isSome = true := by
    unfold regex_match_url
    rw [hu1, hu2, hu3, hn2, regexDot_join_query pairs hp]
    have : recipient.isEmpty = false := by
      cases recipient with
      | nil => exact absurd rfl hr1
      | cons c rest => rfl
    simp [this]
  rw [parse_url_known _ n hg (by rw [hu1]; exact hn3), hu2, hu3,
    parse_request_cases n _ _ (by rw [hr3]; exact hr1), hr3, query_pairs_join pairs hp]

theorem eq_of_isEmpty_false (s : Str) (h : (!s.isEmpty) = true) : s ≠ [] := by
  intro e; rw [e] at h; simp at h

theorem base_carried_facts (b : PaymentRequest) (h : base_carried b = true) :
    recipient_carried b.recipient = true ∧ plain_optional b.label = true ∧
      plain_optional b.message = true ∧ plain_optional b.memo = true ∧
      b.references.all plain = true := by
  unfold base_carried at h
  simp only [Bool.and_eq_true] at h
  obtain ⟨⟨⟨⟨h1, h2⟩, h3⟩, h4⟩, h5⟩ := h
  exact ⟨h1, h2, h3, h4, h5⟩

theorem plain_pairs_transfer (r : TransferRequest) (hb : base_carried r.toPaymentRequest = true)
    (ha : plain r.amount = true) (hs : plain_optional r.spl_token = true) :
    plain_pairs (transfer_pairs r) = true := by
  obtain ⟨-, h2, h3, h4, h5⟩ := base_carried_facts _ hb
  have e : plain_pairs (transfer_pairs r) =
      ((plain "amount".toList && plain r.amount) &&
        plain_pairs (optional_pair "spl-token".toList r.spl_token
          ++ optional_pair "label".toList r.label ++ optional_pair "message".toList r.message
          ++ optional_pair "memo".toList r.memo ++ reference_pairs r.references)) := rfl
  rw [e, plain_pairs_append, plain_pairs_append, plain_pairs_append, plain_pairs_append,
    plain_pairs_optional _ _ (by decide) hs, plain_pairs_optional _ _ (by decide) h2,
    plain_pairs_optional _ _ (by decide) h3, plain_pairs_optional _ _ (by decide) h4,
    plain_pairs_references _ h5, ha]
  decide

theorem values_of_transfer_pairs (r : TransferRequest) :
    values_of (transfer_pairs r) "source-network".toList = [] ∧
    values_of (transfer_pairs r) "bridge".toList = [] ∧
    values_of (transfer_pairs r) "link".toList = [] ∧
    values_of (transfer_pairs r) "amount".toList = [r.amount] ∧
    values_of (transfer_pairs r) "spl-token".toList = r.spl_token.toList ∧
    values_of (transfer_pairs r) "label".toList = r.label.toList ∧
    values_of (transfer_pairs r) "message".toList = r.message.toList ∧
    values_of (transfer_pairs r) "memo".toList = r.memo.toList ∧
    values_of (transfer_pairs r) "reference".toList = r.references := by
  simp [transfer_pairs, values_of_cons, values_of_append, values_of_optional_pair,
    values_of_reference_pairs]

/-- Round trip of a transfer request of unreserved text. -/
theorem parse_create_transfer_url (r : TransferRequest) (ht : r.type = .TRANSFER)
    (hb : base_carried r.toPaymentRequest = true) (ha0 : r.amount ≠ [])
    (ha : plain r.amount = true) (hs : plain_optional r.spl_token = true) :
    parse_url (create_transfer_url r) = .ok (.transfer r) := by
  obtain ⟨h1, h2, h3, h4, h5⟩ := base_carried_facts _ hb
  have hp := plain_pairs_transfer r hb ha hs
  obtain ⟨v1, v2, v3, v4, v5, v6, v7, v8, v9⟩ := values_of_transfer_pairs r
  rw [create_transfer_url_eq, encode_values_plain _ hp, parse_url_written _ _ _ h1 hp,
    has_key_eq_false _ _ v1, has_key_eq_false _ _ v2, has_key_eq_false _ _ v3,
    parse_transfer_pairs, query_pairs_join _ hp,
    first_nonempty_value_optional _ _ _ v5 hs, first_nonempty_value_optional _ _ _ v6 h2,
    first_nonempty_value_optional _ _ _ v7 h3, first_nonempty_value_optional _ _ _ v8 h4, v9]
  unfold first_value
  rw [v4]
  simp only [Bool.or_self, Bool.false_eq_true, if_false, List.head?_cons, Option.getD_some,
    if_neg ha0]
  rw [← ht]

theorem plain_pairs_transaction (r : TransactionRequest)
    (hb : base_carried r.toPaymentRequest = true) (hl : plain r.link = true) :
    plain_pairs (transaction_pairs r) = true := by
  obtain ⟨-, h2, h3, h4, h5⟩ := base_carried_facts _ hb
  have e : plain_pairs (transaction_pairs r) =
      ((plain "link".toList && plain r.link) &&
        plain_pairs (optional_pair "label".toList r.label
          ++ optional_pair "message".toList r.message
          ++ optional_pair "memo".toList r.memo ++ reference_pairs r.references)) := rfl
  rw [e, plain_pairs_append, plain_pairs_append, plain_pairs_append,
    plain_pairs_optional _ _ (by decide) h2,
    plain_pairs_optional _ _ (by decide) h3, plain_pairs_optional _ _ (by decide) h4,
    plain_pairs_references _ h5, hl]
  decide

theorem values_of_transaction_pairs (r : TransactionRequest) :
    values_of (transaction_pairs r) "source-network".toList = [] ∧
    values_of (transaction_pairs r) "bridge".toList = [] ∧
    values_of (transaction_pairs r) "link".toList = [r.link] ∧
    values_of (transaction_pairs r) "label".toList = r.label.toList ∧
    values_of (transaction_pairs r) "message".toList = r.message.toList ∧
    values_of (transaction_pairs r) "memo".toList = r.memo.toList ∧
    values_of (transaction_pairs r) "reference".toList = r.references := by
  simp [transaction_pairs, values_of_cons, values_of_append, values_of_optional_pair,
    values_of_reference_pairs]

/-- Round trip of a transaction request of unreserved text. -/
theorem parse_create_transaction_url (r : TransactionRequest) (ht : r.type = .TRANSACTION)
    (hb : base_carried r.toPaymentRequest = true) (hl : plain r.link = true) :
    parse_url (create_transaction_url r) = .ok (.transaction r) := by
  obtain ⟨h1, h2, h3, h4, h5⟩ := base_carried_facts _ hb
  have hp := plain_pairs_transaction r hb hl
  obtain ⟨v1, v2, v3, v6, v7, v8, v9⟩ := values_of_transaction_pairs r
  rw [create_transaction_url_eq, encode_values_plain _ hp, parse_url_written _ _ _ h1 hp,
    has_key_eq_false _ _ v1, has_key_eq_false _ _ v2, has_key_eq_true _ _ _ _ v3,
    parse_transaction_pairs, query_pairs_join _ hp,
    first_nonempty_value_optional _ _ _ v6 h2,
    first_nonempty_value_optional _ _ _ v7 h3, first_nonempty_value_optional _ _ _ v8 h4, v9]
  unfold first_value
  rw [v3]
  simp only [Bool.or_self, Bool.false_eq_true, if_false, if_true, List.head?_cons,
    Option.getD_some]
  rw [← ht]

theorem plain_pairs_cross_chain (r : CrossChainTransferRequest)
    (hb : base_carried r.toPaymentRequest = true) (ha : plain r.amount = true)
    (hk : plain r.token = true) (hsn : plain r.source_network = true)
    (hbr : plain_optional r.bridge = true) :
    plain_pairs (cross_chain_pairs r) = true := by
  obtain ⟨-, h2, h3, h4, h5⟩ := base_carried_facts _ hb
  have e : plain_pairs (cross_chain_pairs r) =
      ((plain "amount".toList && plain r.amount) &&
        ((plain "token".toList && plain r.token) &&
          ((plain "source-network".toList && plain r.source_network) &&
            plain_pairs (optional_pair "bridge".toList r.bridge
              ++ optional_pair "label".toList r.label
              ++ optional_pair "message".toList r.message
              ++ optional_pair "memo".toList r.memo ++ reference_pairs r.references)))) := rfl
  rw [e, plain_pairs_append, plain_pairs_append, plain_pairs_append, plain_pairs_append,
    plain_pairs_optional _ _ (by decide) hbr, plain_pairs_optional _ _ (by decide) h2,
    plain_pairs_optional _ _ (by decide) h3, plain_pairs_optional _ _ (by decide) h4,
    plain_pairs_references _ h5, ha, hk, hsn]
  decide

theorem values_of_cross_chain_pairs (r : CrossChainTransferRequest) :
    values_of (cross_chain_pairs r) "source-network".toList = [r.source_network] ∧
    values_of (cross_chain_pairs r) "amount".toList = [r.amount] ∧
    values_of (cross_chain_pairs r) "token".toList = [r.token] ∧
    values_of (cross_chain_pairs r) "bridge".toList = r.bridge.toList ∧
    values_of (cross_chain_pairs r) "label".toList = r.label.toList ∧
    values_of (cross_chain_pairs r) "message".toList = r.message.toList ∧
    values_of (cross_chain_pairs r) "memo".toList = r.memo.toList ∧
    values_of (cross_chain_pairs r) "reference".toList = r.references := by
  simp [cross_chain_pairs, values_of_cons, values_of_append, values_of_optional_pair,
    values_of_reference_pairs]

/-- Round trip of a cross-chain request of unreserved text: every field comes back, except
`destination_network` and `bridge_params`, which the URL does not carry. -/
theorem parse_create_cross_chain_url (r : CrossChainTransferRequest)
    (ht : r.type = .CROSS_CHAIN_TRANSFER)
    (hb : base_carried r.toPaymentRequest = true)
    (ha0 : r.amount ≠ []) (ha : plain r.amount = true)
    (hk0 : r.token ≠ []) (hk : plain r.token = true)
    (hsn0 : r.source_network ≠ []) (hsn : plain r.source_network = true)
    (hbr : plain_optional r.bridge = true) :
    parse_url (create_cross_chain_url r) = .ok (url_fields (.crossChain r)) := by
  obtain ⟨h1, h2, h3, h4, h5⟩ := base_carried_facts _ hb
  have hp := plain_pairs_cross_chain r hb ha hk hsn hbr
  obtain ⟨v1, v2, v3, v5, v6, v7, v8, v9⟩ := values_of_cross_chain_pairs r
  rw [create_cross_chain_url_eq, encode_values_plain _ hp, parse_url_written _ _ _ h1 hp,
    has_key_eq_true _ _ _ _ v1,
    parse_cross_chain_pairs, query_pairs_join _ hp,
    first_nonempty_value_optional _ _ _ v5 hbr, first_nonempty_value_optional _ _ _ v6 h2,
    first_nonempty_value_optional _ _ _ v7 h3, first_nonempty_value_optional _ _ _ v8 h4, v9]
  unfold first_value
  rw [v1, v2, v3]
  simp only [Bool.true_or, if_true, List.head?_cons, Option.getD_some,
    if_neg ha0, if_neg hk0, if_neg hsn0]
  rw [← ht]
  rfl

/-- C1, as the code has it. For every request of one of the three variants built by the
constructors (the discriminant agrees with the struct), whose recipient is non-empty, has no
question mark and does not start with a slash, and whose other text fields (amount, spl_token,
link, token, source_network, bridge, label, message, memo, each reference) are made of the
characters `A-Z a-z 0-9 - _ . ~` only, with amount, token and source_network non-empty and the
optional fields non-empty when set: `create_url` returns a URL, `parse_url` accepts it, and
the request it returns is of the same variant and equal to the original in every field the URL
has a parameter for (all fields but `destination_network` and `bridge_params` of a cross-chain
request, which come back empty), references in order and with duplicates. -/
theorem url_round_trip (R : Request) (h : url_carried R = true) :
    ∃ u, create_url R = some u ∧ parse_url u = .ok (url_fields R) := by
  cases R with
  | transfer r =>
    simp only [url_carried, Bool.and_eq_true, beq_iff_eq] at h
    obtain ⟨⟨⟨⟨ht, hb⟩, ha0⟩, ha⟩, hs⟩ := h
    refine ⟨create_transfer_url r, ?_, ?_⟩
    · simp only [create_url, Request.base, ht]
    · exact parse_create_transfer_url r ht hb (eq_of_isEmpty_false _ ha0) ha hs
  | transaction r =>
    simp only [url_carried, Bool.and_eq_true, beq_iff_eq] at h
    obtain ⟨⟨ht, hb⟩, hl⟩ := h
    refine ⟨create_transaction_url r, ?_, ?_⟩
    · simp only [create_url, Request.base, ht]
    · exact parse_create_transaction_url r ht hb hl
  | crossChain r =>
    simp only [url_carried, Bool.and_eq_true, beq_iff_eq] at h
    obtain ⟨⟨⟨⟨⟨⟨⟨⟨ht, hb⟩, ha0⟩, ha⟩, hk0⟩, hk⟩, hsn0⟩, hsn⟩, hbr⟩ := h
    refine ⟨create_cross_chain_url r, ?_, ?_⟩
    · simp only [create_url, Request.base, ht]
    · exact parse_create_cross_chain_url r ht hb (eq_of_isEmpty_false _ ha0) ha
        (eq_of_isEmpty_false _ hk0) hk (eq_of_isEmpty_false _ hsn0) hsn hbr

theorem url_round_trip_witness :
    url_carried (.transfer ⟨⟨.TRANSFER, .SOLANA, "recipient123".toList,
        some "Test-Payment".toList, none, some "Test_Memo".toList,
        ["ref1".toList, "ref2".toList, "ref1".toList]⟩, "1.5".toList, none⟩) = true ∧
    ∃ u, create_url (.transfer ⟨⟨.TRANSFER, .SOLANA, "recipient123".toList,
        some "Test-Payment".toList, none, some "Test_Memo".toList,
        ["ref1".toList, "ref2".toList, "ref1".toList]⟩, "1.5".toList, none⟩) = some u ∧
      parse_url u = .ok (url_fields (.transfer ⟨⟨.TRANSFER, .SOLANA, "recipient123".toList,
        some "Test-Payment".toList, none, some "Test_Memo".toList,
        ["ref1".toList, "ref2".toList, "ref1".toList]⟩, "1.5".toList, none⟩)) :=
  ⟨by decide, url_round_trip _ (by decide)⟩

/-- C1, the claim as stated fails. Three requests with a non-empty recipient and non-empty
required fields do not come back: a recipient with a question mark is cut at it and the amount
is no longer found; a recipient that starts with a slash loses it; a label set to the empty
string comes back unset. -/
theorem url_round_trip_not_for_every_request :
    (create_url (.transfer (TransferRequest.new .SOLANA "a?b".toList "1".toList))
        = some "solana:a?b?amount=1".toList ∧
      parse_url "solana:a?b?amount=1".toList = .error .transferRequiresAmount) ∧
    (create_url (.transfer (TransferRequest.new .SOLANA "/a".toList "1".toList))
        = some "solana:/a?amount=1".toList ∧
      parse_url "solana:/a?amount=1".toList
        = .ok (.transfer (TransferRequest.new .SOLANA "a".toList "1".toList))) ∧
    (create_url (.transfer ⟨⟨.TRANSFER, .SOLANA, "r".toList, some [], none, none, []⟩,
          "1".toList, none⟩) = some "solana:r?amount=1&label=".toList ∧
      parse_url "solana:r?amount=1&label=".toList
        = .ok (.transfer ⟨⟨.TRANSFER, .SOLANA, "r".toList, none, none, none, []⟩,
          "1".toList, none⟩)) := by
  decide

/-! ## Base58 and percent-encoding evaluated -/

/-- C2, the code at failing inputs. The bytes 00 01 are encoded as `11112` (the leading zero
gives one `1`, and the three unused high digits of the buffer of four give three more), and
`11112` is decoded as 01 00 00 00 00: the four zero bytes of the leading ones are inserted at
the low end of the little-endian buffer and end up after the number. The empty sequence and
the sequence 00 00 both come back as the single byte 00. -/
theorem base58_round_trip_fails_with_leading_zero :
    encode_base58 [0, 1] = "11112".toList ∧
    decode_base58 "11112".toList = .ok [1, 0, 0, 0, 0] ∧
    decode_base58 (encode_base58 [0, 1]) ≠ .ok [0, 1] ∧
    decode_base58 (encode_base58 []) = .ok [0] ∧
    decode_base58 (encode_base58 [0, 0]) = .ok [0] := by
  decide

/-- C3, the code at failing inputs. For a character that is not unreserved `url_encode`
writes `%`, the fill character `0` and the character itself, not its two hexadecimal digits:
a space gives `%0 ` where the specification and the tests of the repository have `%20`, a
colon `%0:` for `%3A`, a slash `%0/` for `%2F`; the request of the test `CreateTransferUrl`
is written with `label=Test%0 Payment`. -/
theorem url_encode_writes_char_not_hex :
    url_encode " ".toList = "%0 ".toList ∧ percent_encode " ".toList = "%20".toList ∧
    url_encode ":".toList = "%0:".toList ∧ percent_encode ":".toList = "%3A".toList ∧
    url_encode "/".toList = "%0/".toList ∧ percent_encode "/".toList = "%2F".toList ∧
    create_transfer_url ⟨⟨.TRANSFER, .SOLANA, "recipient123".toList,
        some "Test Payment".toList, some "Hello World".toList, none,
        ["ref1".toList, "ref2".toList]⟩, "1.5".toList, none⟩
      = ("solana:recipient123?amount=1.5&label=Test%0 Payment&message=Hello%0 World"
          ++ "&reference=ref1&reference=ref2").toList := by
  decide

/-! ## Cross-chain and transaction branches, canonical form -/

/-- The cross-chain branch. For every URL that passes the grammar check, with a scheme of the
network table and a non-empty recipient, whose query has the key `source-network` or the key
`bridge`: a request is returned if and only if the first values of `amount`, `token` and
`source-network` are all present and non-empty; otherwise the error names the first of the
three, in that order, that is missing or empty; a returned request is a cross-chain transfer
with those three values as `url_decode` reads them, the network of the scheme as destination,
and the bridge when its first value is non-empty. -/
theorem parse_url_cross_chain_branch (url : Str) (n : SVMNetwork)
    (hg : (regex_match_url url).isSome = true)
    (hn : string_to_network (url_protocol url) = .ok n)
    (hr : without_leading_slash (url_path url) ≠ [])
    (hk : has_key (query_pairs (url_query url)) "source-network".toList = true ∨
      has_key (query_pairs (url_query url)) "bridge".toList = true) :
    ((∃ r, parse_url url = .ok r) ↔
        (lacks_value (query_pairs (url_query url)) "amount".toList = false ∧
          lacks_value (query_pairs (url_query url)) "token".toList = false ∧
          lacks_value (query_pairs (url_query url)) "source-network".toList = false)) ∧
      (lacks_value (query_pairs (url_query url)) "amount".toList = true →
        parse_url url = .error .crossChainRequiresAmount ∧
        error_kind (parse_url url) = some (.MissingRequiredParameter "amount".toList)) ∧
      (lacks_value (query_pairs (url_query url)) "amount".toList = false →
        lacks_value (query_pairs (url_query url)) "token".toList = true →
        parse_url url = .error .crossChainRequiresToken ∧
        error_kind (parse_url url) = some (.MissingRequiredParameter "token".toList)) ∧
      (lacks_value (query_pairs (url_query url)) "amount".toList = false →
        lacks_value (query_pairs (url_query url)) "token".toList = false →
        lacks_value (query_pairs (url_query url)) "source-network".toList = true →
        parse_url url = .error .crossChainRequiresSourceNetwork ∧
        error_kind (parse_url url)
          = some (.MissingRequiredParameter "source-network".toList)) ∧
      (∀ amount token source_network,
        first_value (query_pairs (url_query url)) "amount".toList = some amount →
        first_value (query_pairs (url_query url)) "token".toList = some token →
        first_value (query_pairs (url_query url)) "source-network".toList
          = some source_network →
        amount ≠ [] → token ≠ [] → source_network ≠ [] →
        parse_url url = .ok (.crossChain
          ⟨⟨.CROSS_CHAIN_TRANSFER, n, without_leading_slash (url_path url),
            first_nonempty_value (query_pairs (url_query url)) "label".toList,
            first_nonempty_value (query_pairs (url_query url)) "message".toList,
            first_nonempty_value (query_pairs (url_query url)) "memo".toList,
            values_of (query_pairs (url_query url)) "reference".toList⟩,
            source_network, [], amount, token,
            first_nonempty_value (query_pairs (url_query url)) "bridge".toList, []⟩)) := by
  rw [← strip_slash_eq] at hr
  have hc : (has_key (query_pairs (url_query url)) "source-network".toList
      || has_key (query_pairs (url_query url)) "bridge".toList) = true := by
    rcases hk with h | h <;> rw [h] <;> simp
  have hp : parse_url url = parse_cross_chain n (strip_slash (url_path url))
      (parse_query_params (url_query url)) := by
    rw [parse_url_known url n hg hn, parse_request_cases n _ _ hr, if_pos hc]
  rw [hp, parse_cross_chain_pairs, ← strip_slash_eq]
  simp only [lacks_value]
  cases first_value (query_pairs (url_query url)) "amount".toList with
  | none => simp [error_kind, UrlError.kind]
  | some a =>
    cases first_value (query_pairs (url_query url)) "token".toList with
    | none => cases a <;> simp [error_kind, UrlError.kind]
    | some t =>
      cases first_value (query_pairs (url_query url)) "source-network".toList with
      | none => cases a <;> cases t <;> simp [error_kind, UrlError.kind]
      | some s =>
        cases a <;> cases t <;> cases s <;> simp [error_kind, UrlError.kind] <;>
          intros <;> simp_all

theorem parse_url_cross_chain_branch_witness :
    (regex_match_url
      "solana:recipient123?amount=100&token=USDC&source-network=ethereum&bridge=wormhole".toList
      ).isSome = true ∧
    string_to_network (url_protocol
      "solana:recipient123?amount=100&token=USDC&source-network=ethereum&bridge=wormhole".toList)
      = .ok .SOLANA ∧
    without_leading_slash (url_path
      "solana:recipient123?amount=100&token=USDC&source-network=ethereum&bridge=wormhole".toList)
      ≠ [] ∧
    has_key (query_pairs (url_query
      "solana:recipient123?amount=100&token=USDC&source-network=ethereum&bridge=wormhole".toList))
      "source-network".toList = true ∧
    parse_url
      "solana:recipient123?amount=100&token=USDC&source-network=ethereum&bridge=wormhole".toList
      = .ok (.crossChain ⟨⟨.CROSS_CHAIN_TRANSFER, .SOLANA, "recipient123".toList, none, none,
          none, []⟩, "ethereum".toList, [], "100".toList, "USDC".toList,
          some "wormhole".toList, []⟩) :=
  ⟨by decide, by decide, by decide, by decide,
    (parse_url_cross_chain_branch
      "solana:recipient123?amount=100&token=USDC&source-network=ethereum&bridge=wormhole".toList
      .SOLANA (by decide) (by decide) (by decide) (Or.inl (by decide))).2.2.2.2
      "100".toList "USDC".toList "ethereum".toList (by decide) (by decide) (by decide)
      (by decide) (by decide) (by decide)⟩

/-- The transaction branch. For every URL that passes the grammar check, with a scheme of the
network table and a non-empty recipient, whose query has the key `link` and neither
`source-network` nor `bridge`: parsing succeeds and returns a transaction request whose link
is the first value of `link` as `url_decode` reads it, the empty string included. -/
theorem parse_url_transaction_branch (url : Str) (n : SVMNetwork)
    (hg : (regex_match_url url).isSome = true)
    (hn : string_to_network (url_protocol url) = .ok n)
    (hr : without_leading_slash (url_path url) ≠ [])
    (h1 : has_key (query_pairs (url_query url)) "source-network".toList = false)
    (h2 : has_key (query_pairs (url_query url)) "bridge".toList = false)
    (h3 : has_key (query_pairs (url_query url)) "link".toList = true) :
    ∃ link, first_value (query_pairs (url_query url)) "link".toList = some link ∧
      parse_url url = .ok (.transaction
        ⟨⟨.TRANSACTION, n, without_leading_slash (url_path url),
          first_nonempty_value (query_pairs (url_query url)) "label".toList,
          first_nonempty_value (query_pairs (url_query url)) "message".toList,
          first_nonempty_value (query_pairs (url_query url)) "memo".toList,
          values_of (query_pairs (url_query url)) "reference".toList⟩, link⟩) := by
  rw [← strip_slash_eq] at hr
  have hp : parse_url url = parse_transaction n (strip_slash (url_path url))
      (parse_query_params (url_query url)) := by
    rw [parse_url_known url n hg hn, parse_request_cases n _ _ hr, h1, h2, h3]
    rfl
  rw [hp, parse_transaction_pairs, ← strip_slash_eq]
  have hv := (has_key_iff _ _).mp h3
  unfold first_value
  cases hl : values_of (query_pairs (url_query url)) "link".toList with
  | nil => exact absurd hl hv
  | cons v vs => exact ⟨v, rfl, rfl⟩

theorem parse_url_transaction_branch_witness :
    (regex_match_url "solana:recipient?link=".toList).isSome = true ∧
    string_to_network (url_protocol "solana:recipient?link=".toList) = .ok .SOLANA ∧
    without_leading_slash (url_path "solana:recipient?link=".toList) ≠ [] ∧
    has_key (query_pairs (url_query "solana:recipient?link=".toList))
      "source-network".toList = false ∧
    has_key (query_pairs (url_query "solana:recipient?link=".toList)) "bridge".toList = false ∧
    has_key (query_pairs (url_query "solana:recipient?link=".toList)) "link".toList = true ∧
    (∃ link, first_value (query_pairs (url_query "solana:recipient?link=".toList))
        "link".toList = some link ∧
      parse_url "solana:recipient?link=".toList = .ok (.transaction
        ⟨⟨.TRANSACTION, .SOLANA, "recipient".toList, none, none, none, []⟩, link⟩)) ∧
    parse_url "solana:recipient?link=".toList = .ok (.transaction
        ⟨⟨.TRANSACTION, .SOLANA, "recipient".toList, none, none, none, []⟩, []⟩) ∧
    parse_url "solana:recipient?amount=".toList = .error .transferRequiresAmount :=
  ⟨by decide, by decide, by decide, by decide, by decide, by decide,
    parse_url_transaction_branch "solana:recipient?link=".toList .SOLANA (by decide) (by decide)
      (by decide) (by decide) (by decide) (by decide),
    by decide, by decide⟩

theorem join_query_eq_strings (net recipient : Str) (pairs : List (Str × Str)) :
    net ++ ':' :: (recipient ++ '?' :: join_query pairs)
      = net ++ ":".toList ++ recipient ++ "?".toList ++ join_query pairs := by
  simp

/-- C13. The canonical serialized form. For a request whose discriminant agrees with its
struct, `create_url` returns what the function of the variant returns, and that is exactly
`network_to_string(network)`, `:`, the recipient, `?`, and then the parameters as
`key=url_encode(value)` joined by `&`, in a fixed order: for a transfer `amount`, then
`spl-token`, `label`, `message`, `memo`; for a transaction `link`, then `label`, `message`,
`memo`; for a cross-chain transfer `amount`, `token`, `source-network`, then `bridge`, `label`,
`message`, `memo`; an optional parameter is written only when set, and one `reference` pair
follows for each stored reference, in stored order. -/
theorem create_url_canonical :
    (∀ r : TransferRequest, r.type = .TRANSFER →
      create_url (.transfer r) = some (create_transfer_url r) ∧
      create_transfer_url r =
        network_to_string r.network ++ ":".toList ++ r.recipient ++ "?".toList
          ++ join_query (encode_values
            ([("amount".toList, r.amount)] ++ optional_pair "spl-token".toList r.spl_token
              ++ optional_pair "label".toList r.label
              ++ optional_pair "message".toList r.message
              ++ optional_pair "memo".toList r.memo
              ++ r.references.map (fun v => ("reference".toList, v))))) ∧
    (∀ r : TransactionRequest, r.type = .TRANSACTION →
      create_url (.transaction r) = some (create_transaction_url r) ∧
      create_transaction_url r =
        network_to_string r.network ++ ":".toList ++ r.recipient ++ "?".toList
          ++ join_query (encode_values
            ([("link".toList, r.link)] ++ optional_pair "label".toList r.label
              ++ optional_pair "message".toList r.message
              ++ optional_pair "memo".toList r.memo
              ++ r.references.map (fun v => ("reference".toList, v))))) ∧
    (∀ r : CrossChainTransferRequest, r.type = .CROSS_CHAIN_TRANSFER →
      create_url (.crossChain r) = some (create_cross_chain_url r) ∧
      create_cross_chain_url r =
        network_to_string r.network ++ ":".toList ++ r.recipient ++ "?".toList
          ++ join_query (encode_values
            ([("amount".toList, r.amount), ("token".toList, r.token),
                ("source-network".toList, r.source_network)]
              ++ optional_pair "bridge".toList r.bridge
              ++ optional_pair "label".toList r.label
              ++ optional_pair "message".toList r.message
              ++ optional_pair "memo".toList r.memo
              ++ r.references.map (fun v => ("reference".toList, v))))) := by
  refine ⟨?_, ?_, ?_⟩
  · intro r ht
    refine ⟨by simp only [create_url, Request.base, ht], ?_⟩
    rw [create_transfer_url_eq, join_query_eq_strings]
    simp only [transfer_pairs, reference_pairs, List.singleton_append, List.cons_append,
      List.nil_append, List.append_assoc]
  · intro r ht
    refine ⟨by simp only [create_url, Request.base, ht], ?_⟩
    rw [create_transaction_url_eq, join_query_eq_strings]
    simp only [transaction_pairs, reference_pairs, List.singleton_append, List.cons_append,
      List.nil_append, List.append_assoc]
  · intro r ht
    refine ⟨by simp only [create_url, Request.base, ht], ?_⟩
    rw [create_cross_chain_url_eq, join_query_eq_strings]
    simp only [cross_chain_pairs, reference_pairs, List.cons_append, List.nil_append,
      List.append_assoc]

theorem create_url_canonical_example :
    create_url (.crossChain ⟨⟨.CROSS_CHAIN_TRANSFER, .SOLANA, "recipient123".toList,
        some "Shop".toList, none, some "m1".toList, ["ref1".toList, "ref2".toList]⟩,
        "ethereum".toList, [], "100".toList, "USDC".toList, some "wormhole".toList, []⟩)
      = some ("solana:recipient123?amount=100&token=USDC&source-network=ethereum"
          ++ "&bridge=wormhole&label=Shop&memo=m1&reference=ref1&reference=ref2").toList := by
  decide

/-! ## Serializing a parsed request again -/

theorem not_mem_url_path (url : Str) : '?' ∉ url_path url := by
  intro h
  have := List.mem_takeWhile_imp h
  simp at this

theorem not_mem_strip_slash (c : Char) (path : Str) (h : c ∉ path) : c ∉ strip_slash path := by
  cases path with
  | nil => exact h
  | cons d rest =>
    simp only [strip_slash]
    split_ifs
    · exact fun hm => h (List.mem_cons_of_mem _ hm)
    · exact h

theorem plain_optional_first_nonempty (pairs : List (Str × Str)) (k : Str)
    (h : optional_unreserved (first_nonempty_value pairs k) = true) :
    plain_optional (first_nonempty_value pairs k) = true := by
  unfold first_nonempty_value at h ⊢
  generalize first_value pairs k = o at h ⊢
  cases o with
  | none => rfl
  | some v =>
    cases v with
    | nil => rfl
    | cons c rest =>
      simp only [reduceCtorEq, if_false, optional_unreserved] at h
      simp [plain_optional, h]

theorem recipient_carried_of (recipient : Str) (h1 : recipient ≠ []) (h2 : '?' ∉ recipient)
    (h3 : recipient.head? ≠ some '/') : recipient_carried recipient = true := by
  unfold recipient_carried
  cases recipient with
  | nil => exact absurd rfl h1
  | cons c rest =>
    have hc : (c :: rest).contains '?' = false := by
      cases hh : (c :: rest).contains '?' with
      | false => rfl
      | true => exact absurd (by simpa using hh) h2
    rw [hc]
    simpa using h3

theorem reserialize_transfer (n : SVMNetwork) (recipient query : Str) (R : Request)
    (hc : recipient_carried recipient = true)
    (h : parse_transfer n recipient (parse_query_params query) = .ok R)
    (hv : values_unreserved R = true) :
    ∃ u, create_url R = some u ∧ parse_url u = .ok R := by
  rw [parse_transfer_pairs] at h
  split_ifs at h with ha
  cases h
  simp only [values_unreserved, Bool.and_eq_true] at hv
  obtain ⟨⟨⟨⟨⟨v1, v2⟩, v3⟩, v4⟩, v5⟩, v6⟩ := hv
  refine ⟨create_transfer_url _, rfl, parse_create_transfer_url _ rfl ?_ ha v1
    (plain_optional_first_nonempty _ _ v2)⟩
  simp only [base_carried, hc, plain_optional_first_nonempty _ _ v3,
    plain_optional_first_nonempty _ _ v4, plain_optional_first_nonempty _ _ v5, v6,
    Bool.and_self]

theorem reserialize_transaction (n : SVMNetwork) (recipient query : Str) (R : Request)
    (hc : recipient_carried recipient = true)
    (h : parse_transaction n recipient (parse_query_params query) = .ok R)
    (hv : values_unreserved R = true) :
    ∃ u, create_url R = some u ∧ parse_url u = .ok R := by
  rw [parse_transaction_pairs] at h
  cases h
  simp only [values_unreserved, Bool.and_eq_true] at hv
  obtain ⟨⟨⟨⟨v1, v3⟩, v4⟩, v5⟩, v6⟩ := hv
  refine ⟨create_transaction_url _, rfl, parse_create_transaction_url _ rfl ?_ v1⟩
  simp only [base_carried, hc, plain_optional_first_nonempty _ _ v3,
    plain_optional_first_nonempty _ _ v4, plain_optional_first_nonempty _ _ v5, v6,
    Bool.and_self]

theorem reserialize_cross_chain (n : SVMNetwork) (recipient query : Str) (R : Request)
    (hc : recipient_carried recipient = true)
    (h : parse_cross_chain n recipient (parse_query_params query) = .ok R)
    (hv : values_unreserved R = true) :
    ∃ u, create_url R = some u ∧ parse_url u = .ok R := by
  rw [parse_cross_chain_pairs] at h
  split_ifs at h with ha hk hs
  cases h
  simp only [values_unreserved, Bool.and_eq_true] at hv
  obtain ⟨⟨⟨⟨⟨⟨⟨v1, v1b⟩, v1c⟩, v2⟩, v3⟩, v4⟩, v5⟩, v6⟩ := hv
  have hb : base_carried ⟨.CROSS_CHAIN_TRANSFER, n, recipient,
      first_nonempty_value (query_pairs query) "label".toList,
      first_nonempty_value (query_pairs query) "message".toList,
      first_nonempty_value (query_pairs query) "memo".toList,
      values_of (query_pairs query) "reference".toList⟩ = true := by
    simp only [base_carried, hc, plain_optional_first_nonempty _ _ v3,
      plain_optional_first_nonempty _ _ v4, plain_optional_first_nonempty _ _ v5, v6,
      Bool.and_self]
  exact ⟨create_cross_chain_url _, rfl,
    parse_create_cross_chain_url
      ⟨⟨.CROSS_CHAIN_TRANSFER, n, recipient,
        first_nonempty_value (query_pairs query) "label".toList,
        first_nonempty_value (query_pairs query) "message".toList,
        first_nonempty_value (query_pairs query) "memo".toList,
        values_of (query_pairs query) "reference".toList⟩,
        (first_value (query_pairs query) "source-network".toList).getD [], [],
        (first_value (query_pairs query) "amount".toList).getD [],
        (first_value (query_pairs query) "token".toList).getD [],
        first_nonempty_value (query_pairs query) "bridge".toList, []⟩
      rfl hb ha v1 hk v1b hs v1c (plain_optional_first_nonempty _ _ v2)⟩

/-- C14, as the code has it. For every URL that `parse_url` accepts, when the recipient of the
returned request does not start with a slash and its parameter values are made of the
characters `A-Z a-z 0-9 - _ . ~` only, `create_url` applied to the returned request gives a
URL that `parse_url` accepts and that parses to the same request, field for field. -/
theorem reserialize_stable (u : Str) (R : Request) (h : parse_url u = .ok R)
    (hs : R.base.recipient.head? ≠ some '/') (hv : values_unreserved R = true) :
    ∃ u2, create_url R = some u2 ∧ parse_url u2 = .ok R := by
  obtain ⟨-, n, -, hp⟩ := parse_url_ok_inv u R h
  obtain ⟨h1, -, -, h2, -⟩ := parse_request_ok_base n _ _ R hp
  have hc : recipient_carried (strip_slash (url_path u)) = true :=
    recipient_carried_of _ h1 (not_mem_strip_slash _ _ (not_mem_url_path u)) (by rw [← h2]; exact hs)
  rw [parse_request_cases n _ _ h1] at hp
  split_ifs at hp
  · exact reserialize_cross_chain n _ _ R hc hp hv
  · exact reserialize_transaction n _ _ R hc hp hv
  · exact reserialize_transfer n _ _ R hc hp hv

theorem reserialize_stable_witness :
    parse_url "solana:/recipient123?label=Shop&amount=1.5&reference=r1".toList
      = .ok (.transfer ⟨⟨.TRANSFER, .SOLANA, "recipient123".toList, some "Shop".toList, none,
          none, ["r1".toList]⟩, "1.5".toList, none⟩) ∧
    (Request.transfer ⟨⟨.TRANSFER, .SOLANA, "recipient123".toList, some "Shop".toList, none,
          none, ["r1".toList]⟩, "1.5".toList, none⟩).base.recipient.head? ≠ some '/' ∧
    values_unreserved (.transfer ⟨⟨.TRANSFER, .SOLANA, "recipient123".toList,
          some "Shop".toList, none, none, ["r1".toList]⟩, "1.5".toList, none⟩) = true ∧
    ∃ u2, create_url (.transfer ⟨⟨.TRANSFER, .SOLANA, "recipient123".toList,
          some "Shop".toList, none, none, ["r1".toList]⟩, "1.5".toList, none⟩) = some u2 ∧
      parse_url u2 = .ok (.transfer ⟨⟨.TRANSFER, .SOLANA, "recipient123".toList,
          some "Shop".toList, none, none, ["r1".toList]⟩, "1.5".toList, none⟩) :=
  ⟨by decide, by decide, by decide,
    reserialize_stable "solana:/recipient123?label=Shop&amount=1.5&reference=r1".toList
      (.transfer ⟨⟨.TRANSFER, .SOLANA, "recipient123".toList, some "Shop".toList, none,
          none, ["r1".toList]⟩, "1.5".toList, none⟩) (by decide) (by decide) (by decide)⟩

/-- C14, the claim as stated fails. The URL `solana://a?amount=1` is accepted, with the
recipient `/a` (one slash of the path is removed); the request is written as
`solana:/a?amount=1`, which parses with the recipient `a`. -/
theorem reserialize_changes_slash_recipient :
    parse_url "solana://a?amount=1".toList
      = .ok (.transfer (TransferRequest.new .SOLANA "/a".toList "1".toList)) ∧
    create_url (.transfer (TransferRequest.new .SOLANA "/a".toList "1".toList))
      = some "solana:/a?amount=1".toList ∧
    parse_url "solana:/a?amount=1".toList
      = .ok (.transfer (TransferRequest.new .SOLANA "a".toList "1".toList)) ∧
    parse_url "solana:/a?amount=1".toList ≠ parse_url "solana://a?amount=1".toList := by
  decide

/-! ## Order of the parameters -/

theorem getline_all_prefix (a : Str) :
    ∃ s ss, ∀ y, getline_all (a ++ '&' :: y) = (s :: ss) ++ getline_all y := by
  induction a with
  | nil => exact ⟨[], [], fun y => by simp [getline_all]⟩
  | cons c rest ih =>
    obtain ⟨s, ss, h⟩ := ih
    by_cases hc : c = '&'
    · refine ⟨[], s :: ss, fun y => ?_⟩
      have e : getline_all (c :: (rest ++ '&' :: y)) = [] :: getline_all (rest ++ '&' :: y) := by
        simp only [getline_all, hc, if_true]
      rw [List.cons_append, e, h y]
      rfl
    · refine ⟨c :: s, ss, fun y => ?_⟩
      have e : getline_all (c :: (rest ++ '&' :: y)) =
          match getline_all (rest ++ '&' :: y) with
          | [] => [[c]]
          | x :: xs => (c :: x) :: xs := by
        simp only [getline_all, hc, if_false]
      rw [List.cons_append, e, h y]
      rfl

theorem pair_of_ne_nil (p : Str) (kv : Str × Str) (h : pair_of p = some kv) : p ≠ [] := by
  intro e
  rw [e] at h
  simp [pair_of, str_find] at h

/-- The pieces read from two queries that differ by the exchange of two adjacent pieces. -/
theorem getline_all_exchange (pre post p1 p2 : Str)
    (hpre : pre = [] ∨ pre.getLast? = some '&')
    (hpost : post = [] ∨ post.head? = some '&')
    (h1 : '&' ∉ p1) (h2 : '&' ∉ p2) (hn1 : p1 ≠ []) (hn2 : p2 ≠ []) :
    ∃ X Y, getline_all (pre ++ (p1 ++ '&' :: (p2 ++ post))) = X ++ p1 :: p2 :: Y ∧
      getline_all (pre ++ (p2 ++ '&' :: (p1 ++ post))) = X ++ p2 :: p1 :: Y := by
  have tail : ∀ p : Str, '&' ∉ p → p ≠ [] →
      ∃ Y, ∀ q : Str, '&' ∉ q → q ≠ [] → getline_all (q ++ post) = q :: Y := by
    intro p _ _
    rcases hpost with hp | hp
    · exact ⟨[], fun q hq hq0 => by rw [hp, List.append_nil]; exact getline_all_single q hq0 hq⟩
    · obtain ⟨b, hb⟩ := List.head?_eq_some_iff.mp hp
      exact ⟨getline_all b, fun q hq _ => by rw [hb]; exact getline_all_append q b hq⟩
  obtain ⟨Y, hY⟩ := tail p1 h1 hn1
  have mid : ∀ p q : Str, '&' ∉ p → '&' ∉ q → q ≠ [] →
      getline_all (p ++ '&' :: (q ++ post)) = p :: q :: Y := by
    intro p q hp hq hq0
    rw [getline_all_append p _ hp, hY q hq hq0]
  rcases hpre with hp | hp
  · refine ⟨[], Y, ?_, ?_⟩
    · rw [hp]; simpa using mid p1 p2 h1 h2 hn2
    · rw [hp]; simpa using mid p2 p1 h2 h1 hn1
  · obtain ⟨a, ha⟩ := List.getLast?_eq_some_iff.mp hp
    obtain ⟨s, ss, hs⟩ := getline_all_prefix a
    refine ⟨s :: ss, Y, ?_, ?_⟩
    · rw [ha, List.append_assoc, List.singleton_append, hs, mid p1 p2 h1 h2 hn2]
    · rw [ha, List.append_assoc, List.singleton_append, hs, mid p2 p1 h2 h1 hn1]

theorem values_of_exchange (X Y : List Str) (p1 p2 k1 v1 k2 v2 k : Str)
    (hk1 : pair_of p1 = some (k1, v1)) (hk2 : pair_of p2 = some (k2, v2)) (hne : k1 ≠ k2) :
    values_of ((X ++ p1 :: p2 :: Y).filterMap pair_of) k
      = values_of ((X ++ p2 :: p1 :: Y).filterMap pair_of) k := by
  simp only [List.filterMap_append, List.filterMap_cons, hk1, hk2, values_of_append,
    values_of_cons]
  by_cases e1 : k1 = k
  · have e2 : ¬ k2 = k := fun e => hne (e1.trans e.symm)
    simp only [e1, e2, if_true, if_false]
  · simp only [e1, if_false]

/-- A query enters `parse_request` only through the values of each key. -/
theorem parse_request_congr (n : SVMNetwork) (path q1 q2 : Str)
    (h : ∀ k, values_of (query_pairs q1) k = values_of (query_pairs q2) k) :
    parse_request n path q1 = parse_request n path q2 := by
  have e1 : ∀ k, has_key (query_pairs q1) k = has_key (query_pairs q2) k := by
    intro k
    have a := has_key_iff (query_pairs q1) k
    have b := has_key_iff (query_pairs q2) k
    rw [h k] at a
    cases h1 : has_key (query_pairs q1) k <;> cases h2 : has_key (query_pairs q2) k
    · rfl
    · exact absurd (a.mpr (b.mp h2)) (by rw [h1]; simp)
    · exact absurd (b.mpr (a.mp h1)) (by rw [h2]; simp)
    · rfl
  have e2 : ∀ k, first_value (query_pairs q1) k = first_value (query_pairs q2) k := by
    intro k; unfold first_value; rw [h k]
  have e3 : ∀ k, first_nonempty_value (query_pairs q1) k
      = first_nonempty_value (query_pairs q2) k := by
    intro k; unfold first_nonempty_value; rw [e2 k]
  rw [parse_request_pairs, parse_request_pairs, parse_cross_chain_pairs, parse_cross_chain_pairs,
    parse_transaction_pairs, parse_transaction_pairs, parse_transfer_pairs, parse_transfer_pairs]
  simp only [e1, e2, e3, h]

theorem schemeMatches_of_question (l : Str) (h : '?' ∈ l) : schemeMatches l = false := by
  cases l with
  | nil => rfl
  | cons c rest =>
    rcases List.mem_cons.mp h with e | e
    · rw [← e]
      have : schemeFirst '?' = false := by decide
      simp [schemeMatches, this]
    · have hr : rest.all schemeRest = false := by
        cases hh : rest.all schemeRest with
        | false => rfl
        | true =>
          have := List.all_eq_true.mp hh '?' e
          exact absurd this (by decide)
      simp [schemeMatches, hr]

theorem parse_url_question_before_colon (s q : Str) (hc : ':' ∉ s) :
    parse_url (s ++ '?' :: q) = .error .invalidFormat := by
  apply parse_url_no_match _ (by simp)
  have hp : '?' ∈ url_protocol (s ++ '?' :: q) := by
    unfold url_protocol
    rw [List.takeWhile_append_of_pos (fun a ha => by
      have : a ≠ ':' := fun e => hc (e ▸ ha)
      simpa using this)]
    simp [List.takeWhile]
  have hm := schemeMatches_of_question _ hp
  unfold regex_match_url
  rw [hm]
  simp

/-- The result of `parse_url` on a URL written as scheme, colon, path, question mark, query. -/
theorem parse_url_parts (p t q : Str) (hp : ':' ∉ p) (ht : '?' ∉ t) :
    parse_url (p ++ ':' :: (t ++ '?' :: q)) =
      if (schemeMatches p && !t.isEmpty && q.all regexDot) = true then
        match string_to_network p with
        | .ok n => parse_request n t q
        | .error _ => .error (.unsupportedProtocol p)
      else .error .invalidFormat := by
  obtain ⟨h1, h2, h3⟩ := url_parts p t q hp ht
  have hm : ':' ∈ p ++ ':' :: (t ++ '?' :: q) := by simp
  by_cases hc : (schemeMatches p && !t.isEmpty && q.all regexDot) = true
  · have hg : (regex_match_url (p ++ ':' :: (t ++ '?' :: q))).isSome = true := by
      unfold regex_match_url
      rw [h1, h2, h3]
      simp only [Bool.and_eq_true] at hc
      simp [hm, hc.1.1, hc.1.2, hc.2]
    rw [if_pos hc, parse_url_of_match _ hg, h1, h2, h3]
  · have hg : (regex_match_url (p ++ ':' :: (t ++ '?' :: q))).isSome = false := by
      unfold regex_match_url
      rw [h1, h2, h3]
      have hd : decide (':' ∈ p ++ ':' :: (t ++ '?' :: q)) = true := by simp
      rw [hd, Bool.true_and, if_neg hc]
      rfl
    rw [if_neg hc, parse_url_no_match _ (by simp) hg]

theorem all_regexDot_exchange (pre post p1 p2 : Str) :
    (pre ++ (p1 ++ '&' :: (p2 ++ post))).all regexDot
      = (pre ++ (p2 ++ '&' :: (p1 ++ post))).all regexDot := by
  simp only [List.all_append, List.all_cons]
  cases pre.all regexDot <;> cases p1.all regexDot <;> cases p2.all regexDot <;>
    cases post.all regexDot <;> cases regexDot '&' <;> rfl

/-- C15. The order of the parameters does not matter. For every URL, exchanging two adjacent
`key=value` pairs of the query whose (percent-decoded) keys differ changes nothing in the
result of `parse_url`: the same request, field for field, or the same error. Here `s` is the
part of the URL before its first question mark, `pre` the query before the two pairs (empty or
ending with `&`) and `post` the query after them (empty or starting with `&`). -/
theorem parse_url_pair_order (s pre post p1 p2 k1 v1 k2 v2 : Str)
    (hs : '?' ∉ s)
    (hpre : pre = [] ∨ pre.getLast? = some '&')
    (hpost : post = [] ∨ post.head? = some '&')
    (h1 : '&' ∉ p1) (h2 : '&' ∉ p2)
    (hk1 : pair_of p1 = some (k1, v1)) (hk2 : pair_of p2 = some (k2, v2))
    (hne : k1 ≠ k2) :
    parse_url (s ++ '?' :: (pre ++ (p1 ++ '&' :: (p2 ++ post))))
      = parse_url (s ++ '?' :: (pre ++ (p2 ++ '&' :: (p1 ++ post)))) := by
  by_cases hc : ':' ∈ s
  · have hsplit := split_at_char ':' s hc
    have hp : ':' ∉ s.takeWhile (fun c => c ≠ ':') := by
      intro h
      have := List.mem_takeWhile_imp h
      simp at this
    have ht : '?' ∉ (s.dropWhile (fun c => c ≠ ':')).drop 1 := by
      intro h
      apply hs
      rw [hsplit]
      exact List.mem_append_right _ (List.mem_cons_of_mem _ h)
    generalize s.takeWhile (fun c => c ≠ ':') = p at hsplit hp
    generalize (s.dropWhile (fun c => c ≠ ':')).drop 1 = t at hsplit ht
    obtain ⟨X, Y, hx1, hx2⟩ := getline_all_exchange pre post p1 p2 hpre hpost h1 h2
      (pair_of_ne_nil _ _ hk1) (pair_of_ne_nil _ _ hk2)
    have hv : ∀ k, values_of (query_pairs (pre ++ (p1 ++ '&' :: (p2 ++ post)))) k
        = values_of (query_pairs (pre ++ (p2 ++ '&' :: (p1 ++ post)))) k := by
      intro k
      unfold query_pairs
      rw [hx1, hx2]
      exact values_of_exchange X Y p1 p2 k1 v1 k2 v2 k hk1 hk2 hne
    rw [hsplit, List.append_assoc, List.cons_append, List.append_assoc, List.cons_append,
      parse_url_parts p t _ hp ht, parse_url_parts p t _ hp ht,
      all_regexDot_exchange pre post p1 p2]
    split_ifs
    · cases string_to_network p with
      | error e => rfl
      | ok n => exact parse_request_congr n t _ _ hv
    · rfl
  · rw [parse_url_question_before_colon s _ hc, parse_url_question_before_colon s _ hc]

theorem parse_url_pair_order_witness :
    '?' ∉ "solana:r".toList ∧ ("ref=0&".toList = [] ∨ "ref=0&".toList.getLast? = some '&') ∧
    ("&reference=x".toList = [] ∨ "&reference=x".toList.head? = some '&') ∧
    '&' ∉ "label=a%20b".toList ∧ '&' ∉ "amount=1".toList ∧
    pair_of "label=a%20b".toList = some ("label".toList, "a b".toList) ∧
    pair_of "amount=1".toList = some ("amount".toList, "1".toList) ∧
    "label".toList ≠ "amount".toList ∧
    parse_url ("solana:r".toList
        ++ '?' :: ("ref=0&".toList ++ ("label=a%20b".toList
        ++ '&' :: ("amount=1".toList ++ "&reference=x".toList))))
      = parse_url ("solana:r".toList
        ++ '?' :: ("ref=0&".toList ++ ("amount=1".toList
        ++ '&' :: ("label=a%20b".toList ++ "&reference=x".toList)))) :=
  ⟨by decide, Or.inr (by decide), Or.inr (by decide), by decide, by decide, by decide,
    by decide, by decide,
    parse_url_pair_order "solana:r".toList "ref=0&".toList "&reference=x".toList
      "label=a%20b".toList "amount=1".toList "label".toList "a b".toList "amount".toList
      "1".toList (by decide) (Or.inr (by decide)) (Or.inr (by decide)) (by decide) (by decide)
      (by decide) (by decide) (by decide)⟩

/-! ## Percent-decoding -/

theorem isspace_cases (c : Char) (h : isspace c = true) :
    c = ' ' ∨ c = Char.ofNat 9 ∨ c = Char.ofNat 10 ∨ c = Char.ofNat 11 ∨ c = Char.ofNat 12
      ∨ c = Char.ofNat 13 := by
  unfold isspace at h
  simp only [Bool.or_eq_true, decide_eq_true_eq, Bool.and_eq_true] at h
  rcases h with h | ⟨h1, h2⟩
  · exact Or.inl h
  · have e := Char.ofNat_toNat c
    interval_cases hh : c.toNat
    · right; left; exact e.symm
    · right; right; left; exact e.symm
    · right; right; right; left; exact e.symm
    · right; right; right; right; left; exact e.symm
    · right; right; right; right; right; exact e.symm

theorem isspace_not_hex (c : Char) (h : isspace c = true) : isHexDigit c = false := by
  rcases isspace_cases c h with e | e | e | e | e | e <;> rw [e] <;> decide

theorem isspace_not_sign (c : Char) (h : isspace c = true) : c ≠ '-' ∧ c ≠ '+' := by
  rcases isspace_cases c h with e | e | e | e | e | e <;> rw [e] <;> decide

theorem isspace_not_nul (c : Char) (h : isspace c = true) : c ≠ Char.ofNat 0 := by
  rcases isspace_cases c h with e | e | e | e | e | e <;> rw [e] <;> decide

theorem hex_not_nul (c : Char) (h : isHexDigit c = true) : c ≠ Char.ofNat 0 := by
  intro e; rw [e] at h; exact absurd h (by decide)

theorem hex_not_sign (c : Char) (h : isHexDigit c = true) : c ≠ '-' ∧ c ≠ '+' := by
  constructor <;> intro e <;> rw [e] at h <;> exact absurd h (by decide)

/-- When `strtol` consumes the two characters of the buffer of `url_decode`: the second is a
hexadecimal digit and the first is one too, or is white space, or is a sign. -/
theorem strtol16_consumed (c1 c2 : Char) :
    (strtol16 [c1, c2, Char.ofNat 0]).2 = 2 ↔
      ((isHexDigit c1 = true ∨ isspace c1 = true ∨ c1 = '+' ∨ c1 = '-') ∧
        isHexDigit c2 = true) := by
  by_cases n1 : c1 = Char.ofNat 0
  · subst n1
    simp [strtol16, List.takeWhile]
    intro h
    rcases h with h | h | h | h
    all_goals exact absurd h (by decide)
  · have hn1 : (decide (c1 ≠ Char.ofNat 0)) = true := by simpa using n1
    by_cases n2 : c2 = Char.ofNat 0
    · subst n2
      have h0 : isHexDigit (Char.ofNat 0) = false := by decide
      have hs0 : isspace (Char.ofNat 0) = false := by decide
      rw [h0]
      simp only [Bool.false_eq_true, and_false, iff_false]
      by_cases s1 : isspace c1 = true
      · simp [strtol16, List.takeWhile, n1, s1]
      · by_cases g1 : c1 = '-' ∨ c1 = '+'
        · rcases g1 with g | g <;> subst g <;> decide
        · simp only [not_or] at g1
          by_cases x1 : isHexDigit c1 = true <;>
            simp [strtol16, List.takeWhile, n1, s1, g1.1, g1.2, x1]
    · have hn2 : (decide (c2 ≠ Char.ofNat 0)) = true := by simpa using n2
      by_cases s1 : isspace c1 = true
      · have hx1 := isspace_not_hex c1 s1
        have hg1 := isspace_not_sign c1 s1
        by_cases s2 : isspace c2 = true
        · have hx2 := isspace_not_hex c2 s2
          simp [strtol16, List.takeWhile, n1, n2, s1, s2, hx2]
        · by_cases g2 : c2 = '-' ∨ c2 = '+'
          · have hx2 : isHexDigit c2 = false := by
              rcases g2 with g | g <;> subst g <;> decide
            rcases g2 with g | g <;> simp [strtol16, List.takeWhile, n1, n2, s1, s2, g, hx2] <;>
              decide
          · simp only [not_or] at g2
            by_cases x2 : isHexDigit c2 = true <;>
              simp [strtol16, List.takeWhile, n1, n2, s1, s2, g2.1, g2.2, x2]
      · by_cases g1 : c1 = '-' ∨ c1 = '+'
        · by_cases x2 : isHexDigit c2 = true
          · rcases g1 with g | g <;> subst g <;>
              simp [strtol16, List.takeWhile, n2, s1, x2]
          · rcases g1 with g | g <;> subst g <;>
              simp [strtol16, List.takeWhile, n2, s1, x2]
        · simp only [not_or] at g1
          by_cases x1 : isHexDigit c1 = true
          · by_cases x2 : isHexDigit c2 = true <;>
              simp [strtol16, List.takeWhile, n1, n2, s1, g1.1, g1.2, x1, x2]
          · simp [strtol16, List.takeWhile, n1, n2, s1, g1.1, g1.2, x1]

theorem url_decode_escape (c1 c2 : Char) (rest : Str)
    (h : (strtol16 [c1, c2, Char.ofNat 0]).2 = 2) :
    url_decode ('%' :: c1 :: c2 :: rest)
      = longToChar (strtol16 [c1, c2, Char.ofNat 0]).1 :: url_decode rest := by
  simp [url_decode, h]

theorem url_decode_literal (c1 c2 : Char) (rest : Str)
    (h : ¬ (strtol16 [c1, c2, Char.ofNat 0]).2 = 2) :
    url_decode ('%' :: c1 :: c2 :: rest) = '%' :: url_decode (c1 :: c2 :: rest) := by
  simp [url_decode, h]

theorem url_decode_plus (tail : Str) : url_decode ('+' :: tail) = ' ' :: url_decode tail := by
  match tail with
  | [] => simp [url_decode]
  | [c1] => simp [url_decode]
  | c1 :: c2 :: rest => simp [url_decode]

theorem url_decode_percent_end : url_decode ['%'] = ['%'] := by decide

theorem url_decode_percent_one (c : Char) :
    url_decode ['%', c] = ['%', if c = '+' then ' ' else c] := by
  by_cases h : c = '+' <;> simp [url_decode, h]

theorem not_consumed_percent_second (c1 : Char) :
    ¬ (strtol16 [c1, '%', Char.ofNat 0]).2 = 2 := by
  rw [strtol16_consumed]
  intro h
  exact absurd h.2 (by decide)

theorem not_consumed_percent_first (c2 : Char) :
    ¬ (strtol16 ['%', c2, Char.ofNat 0]).2 = 2 := by
  rw [strtol16_consumed]
  intro h
  rcases h.1 with h | h | h | h <;> exact absurd h (by decide)

/-- A percent sign is never taken into an escape that starts before it, so decoding splits at
it. -/
theorem url_decode_append_percent (s t : Str) :
    url_decode (s ++ '%' :: t) = url_decode s ++ url_decode ('%' :: t) := by
  suffices h : ∀ n (s : Str), s.length = n →
      url_decode (s ++ '%' :: t) = url_decode s ++ url_decode ('%' :: t) from h _ s rfl
  intro n
  induction n using Nat.strong_induction_on with
  | _ n ih =>
    intro s hn
    match s, hn with
    | [], _ => rfl
    | [c], _ =>
      have e0 : url_decode ([] ++ '%' :: t) = url_decode [] ++ url_decode ('%' :: t) := rfl
      by_cases hc : c = '%'
      · subst hc
        cases t with
        | nil => decide
        | cons d t2 =>
          rw [List.singleton_append, url_decode_literal _ _ _ (not_consumed_percent_first d),
            url_decode_percent_end]
          rfl
      · by_cases hp : c = '+'
        · subst hp
          rw [List.singleton_append, url_decode_plus, url_decode_plus]
          rfl
        · rw [List.singleton_append, url_decode_cons_plain c _ hc hp,
            url_decode_cons_plain c _ hc hp]
          rfl
    | c :: d :: rest, hl =>
      have ih1 : url_decode ((d :: rest) ++ '%' :: t)
          = url_decode (d :: rest) ++ url_decode ('%' :: t) :=
        ih (d :: rest).length (by rw [← hl]; simp) (d :: rest) rfl
      by_cases hc : c = '%'
      · subst hc
        cases rest with
        | nil =>
          have e : url_decode ['%', d] = '%' :: url_decode [d] := by
            by_cases hd : d = '+' <;> simp [url_decode, hd]
          have e2 : ['%', d] ++ '%' :: t = '%' :: d :: '%' :: t := rfl
          rw [e2, url_decode_literal _ _ _ (not_consumed_percent_second d), e]
          have := ih1
          simp only [List.singleton_append] at this
          rw [this]
          rfl
        | cons c2 rest2 =>
          have ih2 : url_decode (rest2 ++ '%' :: t)
              = url_decode rest2 ++ url_decode ('%' :: t) :=
            ih rest2.length (by rw [← hl]; simp; omega) rest2 rfl
          by_cases hx : (strtol16 [d, c2, Char.ofNat 0]).2 = 2
          · have e2 : ('%' :: d :: c2 :: rest2) ++ '%' :: t
                = '%' :: d :: c2 :: (rest2 ++ '%' :: t) := rfl
            rw [e2, url_decode_escape _ _ _ hx, url_decode_escape _ _ _ hx, ih2]
            rfl
          · have e2 : ('%' :: d :: c2 :: rest2) ++ '%' :: t
                = '%' :: d :: c2 :: (rest2 ++ '%' :: t) := rfl
            have e3 : d :: c2 :: (rest2 ++ '%' :: t) = (d :: c2 :: rest2) ++ '%' :: t := rfl
            rw [e2, url_decode_literal _ _ _ hx, url_decode_literal _ _ _ hx, e3, ih1]
            rfl
      · by_cases hp : c = '+'
        · subst hp
          rw [List.cons_append, url_decode_plus, url_decode_plus, ih1]
          rfl
        · rw [List.cons_append, url_decode_cons_plain c _ hc hp,
            url_decode_cons_plain c _ hc hp, ih1]
          rfl

theorem url_decode_length_le (s : Str) : (url_decode s).length ≤ s.length := by
  suffices h : ∀ n (s : Str), s.length = n → (url_decode s).length ≤ s.length from h _ s rfl
  intro n
  induction n using Nat.strong_induction_on with
  | _ n ih =>
    intro s hn
    match s, hn with
    | [], _ => simp [url_decode]
    | c :: tail, hl =>
      have ih1 : (url_decode tail).length ≤ tail.length :=
        ih tail.length (by rw [← hl]; simp) tail rfl
      by_cases hc : c = '%'
      · subst hc
        match tail, hl, ih1 with
        | [], _, _ => simp [url_decode]
        | [d], _, _ => rw [url_decode_percent_one]; simp
        | d :: c2 :: rest2, hl, ih1 =>
          by_cases hx : (strtol16 [d, c2, Char.ofNat 0]).2 = 2
          · have ih2 : (url_decode rest2).length ≤ rest2.length :=
              ih rest2.length (by rw [← hl]; simp; omega) rest2 rfl
            rw [url_decode_escape _ _ _ hx]
            simp only [List.length_cons]
            omega
          · rw [url_decode_literal _ _ _ hx]
            simp only [List.length_cons] at ih1 ⊢
            omega
      · by_cases hp : c = '+'
        · subst hp
          rw [url_decode_plus]
          simp only [List.length_cons]
          omega
        · rw [url_decode_cons_plain c _ hc hp]
          simp only [List.length_cons]
          omega

/-- C16, the code at failing inputs. `url_decode` reads the two characters after a `%` with
`strtol`, which also accepts a sign or white space before a digit: `%+5` is decoded to the
byte 5, `% 7` to the byte 7 and `%-1` to the byte 255, where percent-decoding copies the `%`
(and turns the `+` into a space). Escapes of two hexadecimal digits and `+` are decoded as the
specification says. -/
theorem url_decode_accepts_sign_and_space :
    url_decode "%+5".toList = [Char.ofNat 5] ∧ percent_decode "%+5".toList = "% 5".toList ∧
    url_decode "% 7".toList = [Char.ofNat 7] ∧ percent_decode "% 7".toList = "% 7".toList ∧
    url_decode "%-1".toList = [Char.ofNat 255] ∧ percent_decode "%-1".toList = "%-1".toList ∧
    url_decode "Test%20Payment".toList = "Test Payment".toList ∧
    url_decode "Test+Payment".toList = "Test Payment".toList ∧
    url_decode "%4a%4A".toList = "JJ".toList ∧
    percent_decode "Test%20Payment".toList = "Test Payment".toList ∧
    parse_url "solana:r?amount=1&memo=50%+5".toList
      = .ok (.transfer ⟨⟨.TRANSFER, .SOLANA, "r".toList, none, none,
          some ['5', '0', Char.ofNat 5], []⟩, "1".toList, none⟩) := by
  decide

/-- C17. Truncated percent escapes are literal. For every string, a `%` that is its last
character is copied to the output, and a `%` followed by one last character is copied, that
character being then decoded as usual (a `+` gives a space); what comes before is decoded as
if the string ended there. The output is never longer than the input. -/
theorem url_decode_truncated_escape (s : Str) (c : Char) :
    url_decode (s ++ ['%']) = url_decode s ++ ['%'] ∧
      url_decode (s ++ ['%', c]) = url_decode s ++ ['%', if c = '+' then ' ' else c] ∧
      (url_decode s).length ≤ s.length := by
  refine ⟨?_, ?_, url_decode_length_le s⟩
  · rw [url_decode_append_percent, url_decode_percent_end]
  · rw [url_decode_append_percent, url_decode_percent_one]

theorem url_decode_truncated_escape_examples :
    url_decode "100%".toList = "100%".toList ∧ url_decode "a%4".toList = "a%4".toList ∧
    url_decode "%41%+".toList = "A% ".toList ∧ url_decode "%%".toList = "%%".toList := by
  decide

/-! ## Base58: zero runs and invalid characters -/

/-- C18, the code at failing inputs. The bytes 00 01 have one leading zero and are encoded as
`11112`, with four leading `1`; the byte 00 is encoded as `111`. Once the result holds the
`1` of a leading zero, the unused high digits of the buffer, which are zero, are written as
`1` too. -/
theorem encode_base58_extra_leading_ones :
    leading_zeros [0, 1] = 1 ∧ encode_base58 [0, 1] = "11112".toList ∧
    leading_ones (encode_base58 [0, 1]) = 4 ∧
    leading_zeros [0] = 1 ∧ encode_base58 [0] = "111".toList ∧
    leading_ones (encode_base58 [0]) = 3 ∧
    leading_zeros [1] = 0 ∧ encode_base58 [1] = "2".toList := by
  decide

/-- C19, the code at failing inputs. The text `12`, one leading `1` and then the number one,
is decoded as the bytes 01 00, and `112` as 01 00 00: the zero bytes of the leading ones are
inserted at the low end of the little-endian buffer, so after the final reverse they follow
the number instead of preceding it. -/
theorem decode_base58_zeros_after_number :
    leading_ones "12".toList = 1 ∧ decode_base58 "12".toList = .ok [1, 0] ∧
    leading_ones "112".toList = 2 ∧ decode_base58 "112".toList = .ok [1, 0, 0] ∧
    decode_base58 "2".toList = .ok [1] := by
  decide

theorem alphabet_index_none_iff (c : Char) :
    alphabet_index c = none ↔ c ∉ BASE58_ALPHABET := by
  unfold alphabet_index
  split_ifs with h
  · simp [h]
  · simp [h]

theorem decode_outer_error_iff (rest : Str) (result : List Nat) :
    (∃ e, decode_outer rest result = .error e) ↔ ∃ c ∈ rest, c ∉ BASE58_ALPHABET := by
  induction rest generalizing result with
  | nil => simp [decode_outer]
  | cons c tail ih =>
    cases hc : alphabet_index c with
    | none =>
      have hm := (alphabet_index_none_iff c).mp hc
      simp only [decode_outer, hc]
      exact ⟨fun _ => ⟨c, by simp, hm⟩, fun _ => ⟨_, rfl⟩⟩
    | some carry =>
      have hm : c ∈ BASE58_ALPHABET := by
        by_contra hn
        rw [(alphabet_index_none_iff c).mpr hn] at hc
        cases hc
      simp only [decode_outer, hc]
      rw [ih]
      constructor
      · rintro ⟨d, hd, hn⟩
        exact ⟨d, List.mem_cons_of_mem _ hd, hn⟩
      · rintro ⟨d, hd, hn⟩
        rcases List.mem_cons.mp hd with e | e
        · rw [e] at hn; exact absurd hm hn
        · exact ⟨d, e, hn⟩

theorem decode_outer_error_char (rest : Str) (result : List Nat) (e : ReferenceError)
    (h : decode_outer rest result = .error e) :
    ∃ c ∈ rest, c ∉ BASE58_ALPHABET ∧ e = .invalidBase58Character c := by
  induction rest generalizing result with
  | nil => simp [decode_outer] at h
  | cons c tail ih =>
    cases hc : alphabet_index c with
    | none =>
      simp only [decode_outer, hc] at h
      cases h
      exact ⟨c, by simp, (alphabet_index_none_iff c).mp hc, rfl⟩
    | some carry =>
      simp only [decode_outer, hc] at h
      obtain ⟨d, hd, hn, he⟩ := ih _ h
      exact ⟨d, List.mem_cons_of_mem _ hd, hn, he⟩

theorem mem_drop_leading_ones (T : Str) (c : Char) (hc : c ∉ BASE58_ALPHABET) :
    c ∈ T.drop (leading_ones T) ↔ c ∈ T := by
  induction T with
  | nil => simp [leading_ones]
  | cons d tail ih =>
    by_cases hd : d = '1'
    · subst hd
      have h1 : c ≠ '1' := by
        intro e; apply hc; rw [e]; decide
      simp only [leading_ones, if_true, List.drop_succ_cons, ih, List.mem_cons, h1, false_or]
    · simp [leading_ones, hd]

theorem decode_base58_error_iff (T : Str) :
    (∃ e, decode_base58 T = .error e) ↔ ∃ c ∈ T, c ∉ BASE58_ALPHABET := by
  have key : (∃ e, decode_base58 T = .error e) ↔
      ∃ e, decode_outer (T.drop (leading_ones T))
        (List.replicate (T.length * 733 / 1000 + 1) 0) = .error e := by
    unfold decode_base58
    cases decode_outer (T.drop (leading_ones T))
        (List.replicate (T.length * 733 / 1000 + 1) 0) with
    | error e => simp
    | ok r => simp
  rw [key, decode_outer_error_iff]
  constructor
  · rintro ⟨c, hc, hn⟩
    exact ⟨c, (mem_drop_leading_ones T c hn).mp hc, hn⟩
  · rintro ⟨c, hc, hn⟩
    exact ⟨c, (mem_drop_leading_ones T c hn).mpr hc, hn⟩

/-- C20. `decode_base58` fails, with the exception "Invalid base58 character", if and only if
the text has a character outside the alphabet
`123456789ABCDEFGHJKLMNPQRSTUVWXYZabcdefghijkmnopqrstuvwxyz`; the exception names such a
character of the text. A text with `0`, `O`, `I` or `l` anywhere is rejected, and a text over
the alphabet, the empty one included, is decoded. -/
theorem decode_base58_fails_iff (T : Str) :
    ((∃ e, decode_base58 T = .error e) ↔ ∃ c ∈ T, c ∉ BASE58_ALPHABET) ∧
      (∀ e, decode_base58 T = .error e →
        ∃ c ∈ T, c ∉ BASE58_ALPHABET ∧ e = .invalidBase58Character c) ∧
      (∀ c ∈ ['0', 'O', 'I', 'l'], c ∈ T → ∃ e, decode_base58 T = .error e) ∧
      ((∀ c ∈ T, c ∈ BASE58_ALPHABET) → ∃ bytes, decode_base58 T = .ok bytes) := by
  refine ⟨decode_base58_error_iff T, ?_, ?_, ?_⟩
  · intro e he
    unfold decode_base58 at he
    cases hd : decode_outer (T.drop (leading_ones T))
        (List.replicate (T.length * 733 / 1000 + 1) 0) with
    | error e2 =>
      rw [hd] at he
      cases he
      obtain ⟨c, hc, hn, hx⟩ := decode_outer_error_char _ _ _ hd
      exact ⟨c, (mem_drop_leading_ones T c hn).mp hc, hn, hx⟩
    | ok r => rw [hd] at he; cases he
  · intro c hc hT
    have hall : ∀ d ∈ ['0', 'O', 'I', 'l'], d ∉ BASE58_ALPHABET := by decide
    exact (decode_base58_error_iff T).mpr ⟨c, hT, hall c hc⟩
  · intro h
    cases hd : decode_base58 T with
    | ok bytes => exact ⟨bytes, rfl⟩
    | error e =>
      obtain ⟨c, hc, hn⟩ := (decode_base58_error_iff T).mp ⟨e, hd⟩
      exact absurd (h c hc) hn

theorem decode_base58_fails_examples :
    decode_base58 "0".toList = .error (.invalidBase58Character '0') ∧
    decode_base58 "1O".toList = .error (.invalidBase58Character 'O') ∧
    decode_base58 "abIc".toList = .error (.invalidBase58Character 'I') ∧
    decode_base58 "11l".toList = .error (.invalidBase58Character 'l') ∧
    decode_base58 "".toList = .ok [0] ∧
    decode_base58 "7bWpEA".toList = .ok [1, 2, 3, 0, 255] := by
  decide

/-! ## Enumerations and their strings -/

theorem string_to_network_to_string (n : SVMNetwork) :
    string_to_network (network_to_string n) = .ok n := by
  cases n <;> decide

theorem string_to_request_type_to_string (t : RequestType) :
    string_to_request_type (request_type_to_string t) = .ok t := by
  cases t <;> decide

theorem string_to_payment_status_to_string (p : PaymentStatus) :
    string_to_payment_status (payment_status_to_string p) = .ok p := by
  cases p <;> decide

theorem network_to_string_of_ok (s : Str) (n : SVMNetwork) (h : string_to_network s = .ok n) :
    network_to_string n = s := by
  unfold string_to_network at h
  split_ifs at h <;> (cases h; symm; assumption)

theorem request_type_to_string_of_ok (s : Str) (t : RequestType)
    (h : string_to_request_type s = .ok t) : request_type_to_string t = s := by
  unfold string_to_request_type at h
  split_ifs at h <;> (cases h; symm; assumption)

theorem payment_status_to_string_of_ok (s : Str) (p : PaymentStatus)
    (h : string_to_payment_status s = .ok p) : payment_status_to_string p = s := by
  unfold string_to_payment_status at h
  split_ifs at h <;> (cases h; symm; assumption)

theorem string_to_network_error (s : Str) (e : TypesError) (h : string_to_network s = .error e) :
    e = .unknownNetwork s := by
  unfold string_to_network at h
  split_ifs at h
  cases h
  rfl

theorem string_to_request_type_error (s : Str) (e : TypesError)
    (h : string_to_request_type s = .error e) : e = .unknownRequestType s := by
  unfold string_to_request_type at h
  split_ifs at h
  cases h
  rfl

theorem string_to_payment_status_error (s : Str) (e : TypesError)
    (h : string_to_payment_status s = .error e) : e = .unknownPaymentStatus s := by
  unfold string_to_payment_status at h
  split_ifs at h
  cases h
  rfl

theorem network_strings (s : Str) :
    s ∈ ["solana".toList, "sonic".toList, "eclipse".toList, "soon".toList] ↔
      ∃ n, s = network_to_string n := by
  constructor
  · intro h
    simp only [List.mem_cons, List.mem_singleton, List.not_mem_nil, or_false] at h
    rcases h with h | h | h | h
    · exact ⟨.SOLANA, h⟩
    · exact ⟨.SONIC, h⟩
    · exact ⟨.ECLIPSE, h⟩
    · exact ⟨.SOON, h⟩
  · rintro ⟨n, rfl⟩
    cases n <;> simp [network_to_string]

theorem request_type_strings (s : Str) :
    s ∈ ["transfer".toList, "transaction".toList, "cross-chain-transfer".toList] ↔
      ∃ t, s = request_type_to_string t := by
  constructor
  · intro h
    simp only [List.mem_cons, List.mem_singleton, List.not_mem_nil, or_false] at h
    rcases h with h | h | h
    · exact ⟨.TRANSFER, h⟩
    · exact ⟨.TRANSACTION, h⟩
    · exact ⟨.CROSS_CHAIN_TRANSFER, h⟩
  · rintro ⟨t, rfl⟩
    cases t <;> simp [request_type_to_string]

theorem payment_status_strings (s : Str) :
    s ∈ ["created".toList, "pending".toList, "confirmed".toList, "failed".toList,
        "expired".toList, "bridging".toList, "bridge-confirmed".toList,
        "bridge-failed".toList] ↔
      ∃ p, s = payment_status_to_string p := by
  constructor
  · intro h
    simp only [List.mem_cons, List.mem_singleton, List.not_mem_nil, or_false] at h
    rcases h with h | h | h | h | h | h | h | h
    · exact ⟨.CREATED, h⟩
    · exact ⟨.PENDING, h⟩
    · exact ⟨.CONFIRMED, h⟩
    · exact ⟨.FAILED, h⟩
    · exact ⟨.EXPIRED, h⟩
    · exact ⟨.BRIDGING, h⟩
    · exact ⟨.BRIDGE_CONFIRMED, h⟩
    · exact ⟨.BRIDGE_FAILED, h⟩
  · rintro ⟨p, rfl⟩
    cases p <;> simp [payment_status_to_string]

/-- C27. The enumeration conversions are mutually inverse: converting a network, a request type
or a payment status to its string and back gives the enumerator again; the conversions to
string are total and injective, and the strings are `solana`, `sonic`, `eclipse`, `soon`;
`transfer`, `transaction`, `cross-chain-transfer`; `created`, `pending`, `confirmed`,
`failed`, `expired`, `bridging`, `bridge-confirmed`, `bridge-failed`. -/
theorem enum_conversions_inverse :
    (∀ n, string_to_network (network_to_string n) = .ok n) ∧
    (∀ t, string_to_request_type (request_type_to_string t) = .ok t) ∧
    (∀ s, string_to_payment_status (payment_status_to_string s) = .ok s) ∧
    Function.Injective network_to_string ∧
    Function.Injective request_type_to_string ∧
    Function.Injective payment_status_to_string ∧
    [SVMNetwork.SOLANA, .SONIC, .ECLIPSE, .SOON].map network_to_string
      = ["solana".toList, "sonic".toList, "eclipse".toList, "soon".toList] ∧
    [RequestType.TRANSFER, .TRANSACTION, .CROSS_CHAIN_TRANSFER].map request_type_to_string
      = ["transfer".toList, "transaction".toList, "cross-chain-transfer".toList] ∧
    [PaymentStatus.CREATED, .PENDING, .CONFIRMED, .FAILED, .EXPIRED, .BRIDGING,
        .BRIDGE_CONFIRMED, .BRIDGE_FAILED].map payment_status_to_string
      = ["created".toList, "pending".toList, "confirmed".toList, "failed".toList,
        "expired".toList, "bridging".toList, "bridge-confirmed".toList,
        "bridge-failed".toList] := by
  refine ⟨string_to_network_to_string, string_to_request_type_to_string,
    string_to_payment_status_to_string, ?_, ?_, ?_, rfl, rfl, rfl⟩
  · intro a b hab
    have := string_to_network_to_string a
    rw [hab, string_to_network_to_string b] at this
    exact (Except.ok.inj this).symm
  · intro a b hab
    have := string_to_request_type_to_string a
    rw [hab, string_to_request_type_to_string b] at this
    exact (Except.ok.inj this).symm
  · intro a b hab
    have := string_to_payment_status_to_string a
    rw [hab, string_to_payment_status_to_string b] at this
    exact (Except.ok.inj this).symm

/-- C28. Unknown strings are a hard error. Each of `string_to_network`,
`string_to_request_type`, `string_to_payment_status` returns an enumerator if and only if the
string is exactly one of the strings of that enumeration, and then the conversion back gives
the string; on every other string it fails with the exception that quotes the string, and
returns no value. -/
theorem string_to_enum_strict (s : Str) :
    (((∃ n, string_to_network s = .ok n) ↔
          s ∈ ["solana".toList, "sonic".toList, "eclipse".toList, "soon".toList]) ∧
        (∀ n, string_to_network s = .ok n → network_to_string n = s) ∧
        (s ∉ ["solana".toList, "sonic".toList, "eclipse".toList, "soon".toList] →
          string_to_network s = .error (.unknownNetwork s))) ∧
      (((∃ t, string_to_request_type s = .ok t) ↔
          s ∈ ["transfer".toList, "transaction".toList, "cross-chain-transfer".toList]) ∧
        (∀ t, string_to_request_type s = .ok t → request_type_to_string t = s) ∧
        (s ∉ ["transfer".toList, "transaction".toList, "cross-chain-transfer".toList] →
          string_to_request_type s = .error (.unknownRequestType s))) ∧
      (((∃ p, string_to_payment_status s = .ok p) ↔
          s ∈ ["created".toList, "pending".toList, "confirmed".toList, "failed".toList,
            "expired".toList, "bridging".toList, "bridge-confirmed".toList,
            "bridge-failed".toList]) ∧
        (∀ p, string_to_payment_status s = .ok p → payment_status_to_string p = s) ∧
        (s ∉ ["created".toList, "pending".toList, "confirmed".toList, "failed".toList,
            "expired".toList, "bridging".toList, "bridge-confirmed".toList,
            "bridge-failed".toList] →
          string_to_payment_status s = .error (.unknownPaymentStatus s))) := by
  have n1 : (∃ n, string_to_network s = .ok n) ↔
      s ∈ ["solana".toList, "sonic".toList, "eclipse".toList, "soon".toList] := by
    rw [network_strings]
    constructor
    · rintro ⟨n, hn⟩; exact ⟨n, (network_to_string_of_ok s n hn).symm⟩
    · rintro ⟨n, rfl⟩; exact ⟨n, string_to_network_to_string n⟩
  have t1 : (∃ t, string_to_request_type s = .ok t) ↔
      s ∈ ["transfer".toList, "transaction".toList, "cross-chain-transfer".toList] := by
    rw [request_type_strings]
    constructor
    · rintro ⟨t, ht⟩; exact ⟨t, (request_type_to_string_of_ok s t ht).symm⟩
    · rintro ⟨t, rfl⟩; exact ⟨t, string_to_request_type_to_string t⟩
  have p1 : (∃ p, string_to_payment_status s = .ok p) ↔
      s ∈ ["created".toList, "pending".toList, "confirmed".toList, "failed".toList,
        "expired".toList, "bridging".toList, "bridge-confirmed".toList,
        "bridge-failed".toList] := by
    rw [payment_status_strings]
    constructor
    · rintro ⟨p, hp⟩; exact ⟨p, (payment_status_to_string_of_ok s p hp).symm⟩
    · rintro ⟨p, rfl⟩; exact ⟨p, string_to_payment_status_to_string p⟩
  refine ⟨⟨n1, network_to_string_of_ok s, ?_⟩, ⟨t1, request_type_to_string_of_ok s, ?_⟩,
    ⟨p1, payment_status_to_string_of_ok s, ?_⟩⟩
  · intro h
    cases hs : string_to_network s with
    | ok n => exact absurd (n1.mp ⟨n, hs⟩) h
    | error e => rw [string_to_network_error s e hs]
  · intro h
    cases hs : string_to_request_type s with
    | ok t => exact absurd (t1.mp ⟨t, hs⟩) h
    | error e => rw [string_to_request_type_error s e hs]
  · intro h
    cases hs : string_to_payment_status s with
    | ok p => exact absurd (p1.mp ⟨p, hs⟩) h
    | error e => rw [string_to_payment_status_error s e hs]

theorem string_to_enum_strict_examples :
    string_to_network "invalid".toList = .error (.unknownNetwork "invalid".toList) ∧
    string_to_network "".toList = .error (.unknownNetwork "".toList) ∧
    string_to_network "Solana".toList = .error (.unknownNetwork "Solana".toList) ∧
    string_to_request_type "invalid".toList
      = .error (.unknownRequestType "invalid".toList) ∧
    string_to_payment_status "Bridge-Failed".toList
      = .error (.unknownPaymentStatus "Bridge-Failed".toList) ∧
    string_to_payment_status "bridge-failed".toList = .ok .BRIDGE_FAILED := by
  decide

/-! ## The reference generators and the validator -/

theorem write_bytes_full (bytes : List Nat) (n : Nat) (h : bytes.length = n) :
    write_bytes (List.replicate n 0) bytes = bytes := by
  unfold write_bytes
  rw [List.length_replicate, ← h, List.take_length]
  simp

/-- C21. The function `generate_reference`, the entropy source being an input. It fails with a
`std::invalid_argument` if and only if the length is 0 or above 1024, and then the entropy
source is not called. For a length from 1 to 1024 it calls the source once, for exactly that
many bytes; it fails with the `CryptographicException`, which is not a
`std::invalid_argument`, if and only if the source reports a failure; otherwise it returns
`encode_base58` of the bytes drawn. -/
theorem generate_reference_contract (rand : EntropySource) (length : Nat) :
    ((∃ e, (generate_reference rand length).result = .error e ∧ e.isInvalidArgument = true) ↔
        (length = 0 ∨ length > 1024)) ∧
      ((length = 0 ∨ length > 1024) → (generate_reference rand length).requests = []) ∧
      (1 ≤ length → length ≤ 1024 →
        (generate_reference rand length).requests = [length] ∧
        ((∃ e, (generate_reference rand length).result = .error e ∧
            e.isCryptographicFailure = true ∧ e.isInvalidArgument = false) ↔
          rand length = none) ∧
        (rand length = none →
          (generate_reference rand length).result = .error .randomBytesFailed) ∧
        (∀ bytes, rand length = some bytes → bytes.length = length →
          (generate_reference rand length).result = .ok (encode_base58 bytes))) := by
  by_cases h0 : length = 0
  · subst h0
    simp [generate_reference, GenerateError.isInvalidArgument]
  · by_cases h1 : length > 1024
    · have h2 : ¬ length ≤ 1024 := by omega
      simp [generate_reference, h0, h1, h2, GenerateError.isInvalidArgument]
    · have h2 : length ≤ 1024 := by omega
      have h3 : 1 ≤ length := by omega
      cases hr : rand length with
      | none =>
        simp [generate_reference, h0, h1, h2, h3, hr, GenerateError.isInvalidArgument,
          GenerateError.isCryptographicFailure]
      | some bytes =>
        have hg : generate_reference rand length =
            ⟨[length], .ok (encode_base58 (write_bytes (List.replicate length 0) bytes))⟩ := by
          simp only [generate_reference, h0, h1, hr, if_false]
        rw [hg]
        refine ⟨?_, ?_, ?_⟩
        · simp [h0, h1]
        · intro h; rcases h with h | h
          · exact absurd h h0
          · exact absurd h h1
        · intro _ _
          refine ⟨rfl, by simp, by simp, ?_⟩
          intro bs hb hl
          injection hb with e
          subst e
          rw [write_bytes_full _ length hl]

theorem generate_reference_contract_examples :
    generate_reference (fun _ => some [1, 2, 3]) 0 = ⟨[], .error .lengthZero⟩ ∧
    generate_reference (fun _ => some [1, 2, 3]) 1025 = ⟨[], .error .lengthOver1024⟩ ∧
    generate_reference (fun _ => none) 3 = ⟨[3], .error .randomBytesFailed⟩ ∧
    generate_reference (fun _ => some [1, 2, 3]) 3 = ⟨[3], .ok (encode_base58 [1, 2, 3])⟩ := by
  decide

/-- C22. The function `generate_timestamped_reference` fails with a `std::invalid_argument` if
and only if the length is below 4 or above 1020, whatever the clock and the entropy source,
and then the entropy source is not called; 3 and 1021 are rejected, 4 and 1020 are not. -/
theorem generate_timestamped_reference_range (now : Int) (rand : EntropySource)
    (length : Nat) :
    ((∃ e, (generate_timestamped_reference now rand length).result = .error e ∧
          e.isInvalidArgument = true) ↔ (length < 4 ∨ length > 1020)) ∧
      ((length < 4 ∨ length > 1020) →
        (generate_timestamped_reference now rand length).requests = []) ∧
      (generate_timestamped_reference now rand 3).result = .error .lengthUnder4 ∧
      (generate_timestamped_reference now rand 1021).result = .error .lengthOver1020 ∧
      (∀ e, (generate_timestamped_reference now rand 4).result = .error e →
        e.isInvalidArgument = false) ∧
      (∀ e, (generate_timestamped_reference now rand 1020).result = .error e →
        e.isInvalidArgument = false) := by
  have key : ∀ n, 4 ≤ n → n ≤ 1020 →
      ∀ e, (generate_timestamped_reference now rand n).result = .error e →
        e.isInvalidArgument = false := by
    intro n h1 h2 e he
    have a : ¬ n < 4 := by omega
    have b : ¬ n > 1020 := by omega
    unfold generate_timestamped_reference at he
    rw [if_neg a, if_neg b] at he
    cases hr : rand n with
    | none => rw [hr] at he; cases he; rfl
    | some bytes => rw [hr] at he; cases he
  refine ⟨?_, ?_, by simp [generate_timestamped_reference],
    by simp [generate_timestamped_reference], key 4 (by omega) (by omega),
    key 1020 (by omega) (by omega)⟩
  · constructor
    · rintro ⟨e, he, hi⟩
      by_contra hc
      have := key length (by omega) (by omega) e he
      rw [this] at hi
      cases hi
    · intro h
      by_cases a : length < 4
      · exact ⟨.lengthUnder4, by simp [generate_timestamped_reference, a], rfl⟩
      · have b : length > 1020 := by omega
        exact ⟨.lengthOver1020, by simp [generate_timestamped_reference, a, b], rfl⟩
  · intro h
    by_cases a : length < 4
    · simp [generate_timestamped_reference, a]
    · have b : length > 1020 := by omega
      simp [generate_timestamped_reference, a, b]

theorem write_timestamp_eq (t : Nat) (r : List Nat) (h : 4 ≤ r.length) :
    write_timestamp t r
      = [t / 16777216 % 256, t / 65536 % 256, t / 256 % 256, t % 256] ++ r.drop 4 := by
  match r, h with
  | a :: b :: c :: d :: rest, _ => simp [write_timestamp]

theorem to_uint32_lt (now : Int) : to_uint32 now < 4294967296 := by
  unfold to_uint32
  have h1 : 0 ≤ now % 4294967296 := Int.emod_nonneg _ (by norm_num)
  have h2 : now % 4294967296 < 4294967296 := Int.emod_lt_of_pos _ (by norm_num)
  omega

/-- C23. The timestamp embedding. For every length from 4 to 1020, every clock reading and
every draw of that many bytes, the byte sequence that `generate_timestamped_reference` encodes
has exactly that length; its bytes 0 to 3 are the big-endian 32-bit representation of the
seconds modulo `2^32`; its bytes from 4 on are those of the draw at the same positions. -/
theorem generate_timestamped_reference_bytes (now : Int) (rand : EntropySource)
    (length : Nat) (r : List Nat)
    (h1 : 4 ≤ length) (h2 : length ≤ 1020) (hr : rand length = some r)
    (hl : r.length = length) :
    ∃ B b0 b1 b2 b3,
      (generate_timestamped_reference now rand length).result = .ok (encode_base58 B) ∧
      B.length = length ∧
      B.take 4 = [b0, b1, b2, b3] ∧
      b0 < 256 ∧ b1 < 256 ∧ b2 < 256 ∧ b3 < 256 ∧
      (b0 * 16777216 + b1 * 65536 + b2 * 256 + b3 : Int) = now % 4294967296 ∧
      B.drop 4 = r.drop 4 ∧
      ∀ i, 4 ≤ i → i < length → B.get? i = r.get? i := by
  have a : ¬ length < 4 := by omega
  have b : ¬ length > 1020 := by omega
  have ht := to_uint32_lt now
  have hnow : (to_uint32 now : Int) = now % 4294967296 := by
    unfold to_uint32
    exact Int.toNat_of_nonneg (Int.emod_nonneg _ (by norm_num))
  refine ⟨write_timestamp (to_uint32 now) r, to_uint32 now / 16777216 % 256,
    to_uint32 now / 65536 % 256, to_uint32 now / 256 % 256, to_uint32 now % 256, ?_, ?_, ?_,
    Nat.mod_lt _ (by norm_num), Nat.mod_lt _ (by norm_num), Nat.mod_lt _ (by norm_num),
    Nat.mod_lt _ (by norm_num), ?_, ?_, ?_⟩
  · simp only [generate_timestamped_reference, a, b, hr, if_false]
    rw [write_bytes_full r length hl]
  · rw [write_timestamp_eq _ r (by omega)]
    simp only [List.length_append, List.length_cons, List.length_nil, List.length_drop]
    omega
  · rw [write_timestamp_eq _ r (by omega)]
    rfl
  · rw [← hnow]
    have : to_uint32 now / 16777216 % 256 * 16777216 + to_uint32 now / 65536 % 256 * 65536
        + to_uint32 now / 256 % 256 * 256 + to_uint32 now % 256 = to_uint32 now := by
      omega
    exact_mod_cast this
  · rw [write_timestamp_eq _ r (by omega)]
    rfl
  · intro i hi _
    rw [write_timestamp_eq _ r (by omega)]
    obtain ⟨k, rfl⟩ : ∃ k, i = k + 4 := ⟨i - 4, by omega⟩
    simp only [List.get?_eq_getElem?, List.cons_append, List.nil_append,
      List.getElem?_cons_succ, List.getElem?_drop]
    congr 1
    omega

theorem generate_timestamped_reference_bytes_witness :
    (4 : Nat) ≤ 8 ∧ (8 : Nat) ≤ 1020 ∧
    (fun n => some (List.replicate n 9) : EntropySource) 8 = some (List.replicate 8 9) ∧
    (List.replicate 8 9).length = 8 ∧
    ∃ B b0 b1 b2 b3,
      (generate_timestamped_reference 1700000000 (fun n => some (List.replicate n 9)) 8).result
        = .ok (encode_base58 B) ∧
      B.length = 8 ∧
      B.take 4 = [b0, b1, b2, b3] ∧
      b0 < 256 ∧ b1 < 256 ∧ b2 < 256 ∧ b3 < 256 ∧
      (b0 * 16777216 + b1 * 65536 + b2 * 256 + b3 : Int) = 1700000000 % 4294967296 ∧
      B.drop 4 = (List.replicate 8 9).drop 4 ∧
      ∀ i, 4 ≤ i → i < 8 → B.get? i = (List.replicate 8 9).get? i :=
  ⟨by decide, by decide, rfl, by decide,
    generate_timestamped_reference_bytes 1700000000 (fun n => some (List.replicate n 9)) 8
      (List.replicate 8 9) (by decide) (by decide) rfl (by decide)⟩

theorem generate_timestamped_reference_example :
    generate_timestamped_reference 1700000000 (fun n => some (List.replicate n 9)) 8
      = ⟨[8], .ok (encode_base58 [101, 83, 241, 0, 9, 9, 9, 9])⟩ := by
  decide

/-- C24. The predicate `validate_reference` is total and is true if and only if the text is
not empty, has at most 1500 characters, has only characters of the base58 alphabet, and is
decoded by `decode_base58` to between 8 and 1024 bytes; it is false for the empty text, for a
text of more than 1500 characters and for `0`, `O`, `I`, `l`. -/
theorem validate_reference_iff (T : Str) :
    (validate_reference T = true ↔
        (T ≠ [] ∧ T.length ≤ 1500 ∧ (∀ c ∈ T, c ∈ BASE58_ALPHABET) ∧
          ∃ bytes, decode_base58 T = .ok bytes ∧ 8 ≤ bytes.length ∧ bytes.length ≤ 1024)) ∧
      (T = [] → validate_reference T = false) ∧
      (T.length > 1500 → validate_reference T = false) ∧
      (∀ c ∈ ['0', 'O', 'I', 'l'], T = [c] → validate_reference T = false) ∧
      (∀ e, decode_base58 T = .error e → validate_reference T = false) := by
  have h4 : ∀ c ∈ ['0', 'O', 'I', 'l'], validate_reference [c] = false := by decide
  have hempty : T = [] → validate_reference T = false := by
    intro h; subst h; rfl
  have hlong : T.length > 1500 → validate_reference T = false := by
    intro h
    unfold validate_reference
    split_ifs <;> rfl
  have herr : ∀ e, decode_base58 T = .error e → validate_reference T = false := by
    intro e he
    unfold validate_reference
    rw [he]
    split_ifs <;> rfl
  refine ⟨?_, hempty, hlong, ?_, herr⟩
  · constructor
    · intro h
      have h1 : T ≠ [] := by
        intro e; rw [hempty e] at h; cases h
      have h2 : T.length ≤ 1500 := by
        by_contra hc
        rw [hlong (by omega)] at h
        cases h
      cases hd : decode_base58 T with
      | error e => rw [herr e hd] at h; cases h
      | ok bytes =>
        have hT : T.isEmpty = false := by
          cases T with
          | nil => exact absurd rfl h1
          | cons c rest => rfl
        have h3 : ¬ T.length > 1500 := by omega
        simp only [validate_reference, hT, h3, hd, if_false, Bool.false_eq_true,
          Bool.and_eq_true, decide_eq_true_eq] at h
        refine ⟨h1, h2, ?_, bytes, rfl, h.1, h.2⟩
        intro c hc
        by_contra hn
        obtain ⟨e, he⟩ := (decode_base58_error_iff T).mpr ⟨c, hc, hn⟩
        rw [he] at hd
        cases hd
    · rintro ⟨h1, h2, -, bytes, hd, h8, h1024⟩
      have hT : T.isEmpty = false := by
        cases T with
        | nil => exact absurd rfl h1
        | cons c rest => rfl
      have h3 : ¬ T.length > 1500 := by omega
      simp only [validate_reference, hT, h3, hd, if_false, Bool.false_eq_true,
        Bool.and_eq_true, decide_eq_true_eq]
      exact ⟨h8, h1024⟩
  · intro c hc hT
    rw [hT]
    exact h4 c hc

/-! ## The client: network and references read from the options -/

theorem foldl_push_numbered_reference (options : Options) (js : List Nat) (acc : List Str) :
    js.foldl (push_numbered_reference options) acc
      = acc ++ js.filterMap (fun i => options.find ("reference".toList ++ to_string i)) := by
  induction js generalizing acc with
  | nil => simp
  | cons j rest ih =>
    rw [List.foldl_cons, ih, List.filterMap_cons]
    unfold push_numbered_reference
    cases options.find ("reference".toList ++ to_string j) with
    | none => rfl
    | some v => simp

theorem reference_option_keys_eq :
    reference_option_keys
      = "reference".toList :: (List.range' 1 10).map (fun i => "reference".toList ++ to_string i)
    := by
  decide

theorem parse_references_from_options_eq (options : Options) :
    Client.parse_references_from_options options
      = reference_option_keys.filterMap (fun k => options.find k) := by
  unfold Client.parse_references_from_options
  rw [foldl_push_numbered_reference, reference_option_keys_eq, List.filterMap_cons,
    List.filterMap_map]
  cases options.find "reference".toList with
  | none => rfl
  | some v => rfl

theorem client_create_transfer_url_eq (client : Client) (recipient amount : Str)
    (options : Options) :
    client.create_transfer_url recipient amount options =
      match client.parse_network_from_options options with
      | .error e => .error e
      | .ok n => .ok (SvmPay.create_transfer_url
          ⟨⟨.TRANSFER, n, recipient, options.find "label".toList,
            options.find "message".toList, options.find "memo".toList,
            reference_option_keys.filterMap (fun k => options.find k)⟩, amount,
            options.find "spl-token".toList⟩) := by
  unfold Client.create_transfer_url
  rw [parse_references_from_options_eq]
  cases client.parse_network_from_options options <;> rfl

theorem client_create_transaction_url_eq (client : Client) (recipient link : Str)
    (options : Options) :
    client.create_transaction_url recipient link options =
      match client.parse_network_from_options options with
      | .error e => .error e
      | .ok n => .ok (SvmPay.create_transaction_url
          ⟨⟨.TRANSACTION, n, recipient, options.find "label".toList,
            options.find "message".toList, options.find "memo".toList,
            reference_option_keys.filterMap (fun k => options.find k)⟩, link⟩) := by
  unfold Client.create_transaction_url
  rw [parse_references_from_options_eq]
  cases client.parse_network_from_options options <;> rfl

/-- C29. The network of the client URLs. `Client::create_transfer_url` and
`Client::create_transaction_url` serialize a request whose network is
`string_to_network(options["network"])` when the option `network` is present, and the default
network of the client when it is absent; when the option is present and `string_to_network`
rejects it, the call fails with that `std::invalid_argument` and the default network is not
used. -/
theorem client_network_selection (client : Client) (recipient amount link : Str)
    (options : Options) :
    (options.find "network".toList = none →
      client.create_transfer_url recipient amount options = .ok (SvmPay.create_transfer_url
        ⟨⟨.TRANSFER, client.default_network_, recipient, options.find "label".toList,
          options.find "message".toList, options.find "memo".toList,
          reference_option_keys.filterMap (fun k => options.find k)⟩, amount,
          options.find "spl-token".toList⟩) ∧
      client.create_transaction_url recipient link options
        = .ok (SvmPay.create_transaction_url
        ⟨⟨.TRANSACTION, client.default_network_, recipient, options.find "label".toList,
          options.find "message".toList, options.find "memo".toList,
          reference_option_keys.filterMap (fun k => options.find k)⟩, link⟩)) ∧
    (∀ s n, options.find "network".toList = some s → string_to_network s = .ok n →
      client.create_transfer_url recipient amount options = .ok (SvmPay.create_transfer_url
        ⟨⟨.TRANSFER, n, recipient, options.find "label".toList,
          options.find "message".toList, options.find "memo".toList,
          reference_option_keys.filterMap (fun k => options.find k)⟩, amount,
          options.find "spl-token".toList⟩) ∧
      client.create_transaction_url recipient link options
        = .ok (SvmPay.create_transaction_url
        ⟨⟨.TRANSACTION, n, recipient, options.find "label".toList,
          options.find "message".toList, options.find "memo".toList,
          reference_option_keys.filterMap (fun k => options.find k)⟩, link⟩)) ∧
    (∀ s e, options.find "network".toList = some s → string_to_network s = .error e →
      e = .unknownNetwork s ∧
      client.create_transfer_url recipient amount options = .error (.unknownNetwork s) ∧
      client.create_transaction_url recipient link options = .error (.unknownNetwork s)) := by
  rw [client_create_transfer_url_eq, client_create_transaction_url_eq]
  unfold Client.parse_network_from_options
  refine ⟨?_, ?_, ?_⟩
  · intro h
    rw [h]
    exact ⟨rfl, rfl⟩
  · intro s n h hn
    rw [h]
    simp [hn]
  · intro s e h he
    have hx := string_to_network_error s e he
    subst hx
    rw [h]
    simp [he]

theorem client_network_selection_examples :
    Client.create_transfer_url ⟨.SOLANA, false⟩ "recipient123".toList "1.5".toList
        [("network".toList, "sonic".toList)] = .ok "sonic:recipient123?amount=1.5".toList ∧
    Client.create_transfer_url ⟨.ECLIPSE, false⟩ "recipient123".toList "1.5".toList []
      = .ok "eclipse:recipient123?amount=1.5".toList ∧
    Client.create_transfer_url ⟨.SOLANA, false⟩ "recipient123".toList "1.5".toList
        [("network".toList, "bitcoin".toList)] = .error (.unknownNetwork "bitcoin".toList) ∧
    Client.create_transaction_url ⟨.SOLANA, false⟩ "recipient123".toList "tx".toList
        [("network".toList, "Sonic".toList)] = .error (.unknownNetwork "Sonic".toList) := by
  decide

/-- C30. The references of the client URLs. For every options map, the reference list of the
request that `Client::create_transfer_url` and `Client::create_transaction_url` serialize is
the value of the key `reference`, when present, followed by the values of `reference1`,
`reference2`, ..., `reference10`, those present, in that order; no other key contributes, so
the list has at most 11 entries; each is written as one `reference=` parameter, in that order,
after the other parameters. -/
theorem client_references (client : Client) (recipient amount link : Str)
    (options : Options) :
    Client.parse_references_from_options options
        = ["reference".toList, "reference1".toList, "reference2".toList, "reference3".toList,
            "reference4".toList, "reference5".toList, "reference6".toList,
            "reference7".toList, "reference8".toList, "reference9".toList,
            "reference10".toList].filterMap (fun k => options.find k) ∧
      (Client.parse_references_from_options options).length ≤ 11 ∧
      (∀ n, client.parse_network_from_options options = .ok n →
        client.create_transfer_url recipient amount options = .ok
          (network_to_string n ++ ":".toList ++ recipient ++ "?".toList
            ++ join_query (encode_values
              ([("amount".toList, amount)]
                ++ optional_pair "spl-token".toList (options.find "spl-token".toList)
                ++ optional_pair "label".toList (options.find "label".toList)
                ++ optional_pair "message".toList (options.find "message".toList)
                ++ optional_pair "memo".toList (options.find "memo".toList)
                ++ (Client.parse_references_from_options options).map
                  (fun v => ("reference".toList, v))))) ∧
        client.create_transaction_url recipient link options = .ok
          (network_to_string n ++ ":".toList ++ recipient ++ "?".toList
            ++ join_query (encode_values
              ([("link".toList, link)]
                ++ optional_pair "label".toList (options.find "label".toList)
                ++ optional_pair "message".toList (options.find "message".toList)
                ++ optional_pair "memo".toList (options.find "memo".toList)
                ++ (Client.parse_references_from_options options).map
                  (fun v => ("reference".toList, v)))))) := by
  have hk := parse_references_from_options_eq options
  refine ⟨hk, ?_, ?_⟩
  · rw [hk]
    exact le_trans (List.length_filterMap_le _ _) (by decide)
  · intro n hn
    rw [client_create_transfer_url_eq, client_create_transaction_url_eq, hn, hk]
    simp only [create_transfer_url_eq, create_transaction_url_eq, join_query_eq_strings,
      transfer_pairs, transaction_pairs, reference_pairs, List.singleton_append,
      List.cons_append, List.nil_append, List.append_assoc, and_self]

theorem client_references_examples :
    Client.create_transfer_url ⟨.SOLANA, false⟩ "recipient123".toList "1.5".toList
        [("reference2".toList, "ref3".toList), ("reference".toList, "ref1".toList),
          ("reference10".toList, "r10".toList), ("reference1".toList, "ref2".toList),
          ("reference11".toList, "x".toList), ("reference0".toList, "y".toList)]
      = .ok ("solana:recipient123?amount=1.5&reference=ref1&reference=ref2&reference=ref3"
          ++ "&reference=r10").toList := by
  decide

/-! ## Validation of a generated reference -/

set_option maxRecDepth 100000 in
/-- C25. A generated reference that does not validate. When the entropy source writes 32 zero
bytes, `generate_reference(32)` returns the text of 96 characters `1` (the 32 leading ones and
the 64 unused digits of the buffer), `decode_base58` reads it back as the single byte 0, and
`validate_reference` rejects it, a decoded reference being shorter than 8 bytes. The
timestamped variant does the same when moreover the clock reads a multiple of `2^32` seconds
(here 0), the four timestamp bytes being zero as well. -/
theorem generated_reference_not_valid :
    let zeros : EntropySource := fun n => some (List.replicate n 0)
    generate_reference zeros 32 = ⟨[32], .ok (List.replicate 96 '1')⟩
    ∧ generate_timestamped_reference 0 zeros 32 = ⟨[32], .ok (List.replicate 96 '1')⟩
    ∧ decode_base58 (List.replicate 96 '1') = .ok [0]
    ∧ validate_reference (List.replicate 96 '1') = false := by
  decide

/-! ## Base58 as a positional numeral -/

theorem encode_inner_length (ds : List Nat) : ∀ c, (encode_inner c ds).length = ds.length := by
  induction ds with
  | nil => intro c; rfl
  | cons d ds ih => intro c; simp [encode_inner, ih]

theorem encode_inner_lt (ds : List Nat) : ∀ c, ∀ d ∈ encode_inner c ds, d < 58 := by
  induction ds with
  | nil => intro c d hd; simp [encode_inner] at hd
  | cons x ds ih =>
    intro c d hd
    simp only [encode_inner, List.mem_cons] at hd
    rcases hd with rfl | hd
    · exact Nat.mod_lt _ (by norm_num)
    · exact ih _ d hd

theorem digits_value_encode_inner (ds : List Nat) :
    ∀ c, c + 256 * digits_value ds < 58 ^ ds.length →
      digits_value (encode_inner c ds) = c + 256 * digits_value ds := by
  induction ds with
  | nil =>
    intro c h
    simp only [digits_value, List.length_nil, pow_zero] at h
    simp only [encode_inner, digits_value]
    omega
  | cons d ds ih =>
    intro c h
    simp only [digits_value, List.length_cons, pow_succ] at h
    have hq : (c + 256 * d) / 58 + 256 * digits_value ds < 58 ^ ds.length := by
      have h1 : (c + 256 * d) / 58 + 256 * digits_value ds
          = (c + 256 * d + 58 * (256 * digits_value ds)) / 58 := by
        rw [Nat.add_mul_div_left _ _ (by norm_num : 0 < 58)]
      rw [h1]
      apply Nat.div_lt_of_lt_mul
      have : c + 256 * d + 58 * (256 * digits_value ds)
          = c + 256 * (d + 58 * digits_value ds) := by ring
      rw [this]
      calc c + 256 * (d + 58 * digits_value ds) < 58 ^ ds.length * 58 := h
        _ = 58 * 58 ^ ds.length := by ring
    simp only [encode_inner, digits_value]
    rw [ih _ hq]
    have := Nat.mod_add_div (c + 256 * d) 58
    omega

theorem encode_outer_length (bytes : List Nat) :
    ∀ ds, (encode_outer bytes ds).length = ds.length := by
  induction bytes with
  | nil => intro ds; rfl
  | cons b bytes ih => intro ds; simp [encode_outer, ih, encode_inner_length]

theorem encode_outer_lt (bytes : List Nat) :
    ∀ ds, (∀ d ∈ ds, d < 58) → ∀ d ∈ encode_outer bytes ds, d < 58 := by
  induction bytes with
  | nil => intro ds h; exact h
  | cons b bytes ih =>
    intro ds _
    exact ih _ (encode_inner_lt ds b)

theorem foldl_bytes_ge (bytes : List Nat) :
    ∀ a, a ≤ bytes.foldl (fun acc b => acc * 256 + b) a := by
  induction bytes with
  | nil => intro a; exact le_refl a
  | cons b bytes ih =>
    intro a
    simp only [List.foldl_cons]
    exact le_trans (by omega) (ih _)

theorem digits_value_encode_outer (bytes : List Nat) :
    ∀ ds, bytes.foldl (fun acc b => acc * 256 + b) (digits_value ds) < 58 ^ ds.length →
      digits_value (encode_outer bytes ds)
        = bytes.foldl (fun acc b => acc * 256 + b) (digits_value ds) := by
  induction bytes with
  | nil => intro ds _; rfl
  | cons b bytes ih =>
    intro ds h
    simp only [List.foldl_cons] at h
    have h1 : b + 256 * digits_value ds < 58 ^ ds.length := by
      have := foldl_bytes_ge bytes (digits_value ds * 256 + b)
      omega
    have h2 := digits_value_encode_inner ds b h1
    have h3 : digits_value (encode_inner b ds) = digits_value ds * 256 + b := by
      rw [h2]; ring
    simp only [encode_outer, List.foldl_cons]
    rw [← h3]
    apply ih
    rw [h3, encode_inner_length]
    exact h

theorem digits_value_replicate_zero (n : Nat) : digits_value (List.replicate n 0) = 0 := by
  induction n with
  | zero => rfl
  | succ n ih => simp [List.replicate_succ, digits_value, ih]

theorem bytes_value_eq_ofDigits (bytes : List Nat) :
    bytes_value bytes = Nat.ofDigits 256 bytes.reverse := by
  rw [Nat.ofDigits_eq_foldr, List.foldr_reverse]
  unfold bytes_value
  congr 1
  funext x y
  simp only [Nat.cast_id]
  ring

theorem bytes_value_lt (bytes : List Nat) (h : ∀ b ∈ bytes, b < 256) :
    bytes_value bytes < 256 ^ bytes.length := by
  rw [bytes_value_eq_ofDigits]
  have := Nat.ofDigits_lt_base_pow_length (b := 256) (l := bytes.reverse) (by norm_num)
    (fun x hx => h x (List.mem_reverse.mp hx))
  simpa using this

theorem bytes_value_replicate_zero (z : Nat) (bytes : List Nat) :
    bytes_value (List.replicate z 0 ++ bytes) = bytes_value bytes := by
  induction z with
  | zero => rfl
  | succ z ih =>
    unfold bytes_value at ih ⊢
    simpa [List.replicate_succ] using ih

theorem leading_zeros_split (bytes : List Nat) :
    bytes = List.replicate (leading_zeros bytes) 0 ++ bytes.drop (leading_zeros bytes) := by
  induction bytes with
  | nil => rfl
  | cons b bytes ih =>
    by_cases hb : b = 0
    · subst hb
      simp only [leading_zeros, if_true, List.replicate_succ, List.drop_succ_cons,
        List.cons_append]
      rw [← ih]
    · simp [leading_zeros, hb]

theorem leading_zeros_le (bytes : List Nat) : leading_zeros bytes ≤ bytes.length := by
  induction bytes with
  | nil => simp [leading_zeros]
  | cons b bytes ih =>
    by_cases hb : b = 0
    · simp [leading_zeros, hb, ih]
    · simp [leading_zeros, hb]

theorem drop_leading_zeros_head (bytes : List Nat) :
    (bytes.drop (leading_zeros bytes)).head? ≠ some 0 := by
  induction bytes with
  | nil => simp [leading_zeros]
  | cons b bytes ih =>
    by_cases hb : b = 0
    · subst hb
      simpa [leading_zeros] using ih
    · simp [leading_zeros, hb]

/-- A byte sequence without a leading zero is determined by the number it denotes. -/
theorem bytes_value_inj (b1 b2 : List Nat) (h1 : ∀ b ∈ b1, b < 256) (h2 : ∀ b ∈ b2, b < 256)
    (z1 : b1.head? ≠ some 0) (z2 : b2.head? ≠ some 0) (h : bytes_value b1 = bytes_value b2) :
    b1 = b2 := by
  have key : ∀ l : List Nat, (∀ b ∈ l, b < 256) → l.head? ≠ some 0 →
      Nat.digits 256 (bytes_value l) = l.reverse := by
    intro l hl hz
    rw [bytes_value_eq_ofDigits]
    apply Nat.digits_ofDigits 256 (by norm_num)
    · intro x hx; exact hl x (List.mem_reverse.mp hx)
    · intro hne
      rw [List.getLast_reverse]
      intro h0
      apply hz
      cases l with
      | nil => simp at hne
      | cons a l => simp at h0 ⊢; exact h0
  have e1 := key b1 h1 z1
  have e2 := key b2 h2 z2
  rw [h, e2] at e1
  exact (List.reverse_injective e1).symm

theorem encode_emit_nonempty (digits : List Nat) :
    ∀ result : Str, result ≠ [] →
      encode_emit result digits = result ++ digits.map alphabet_char := by
  induction digits with
  | nil => intro result _; simp [encode_emit]
  | cons d digits ih =>
    intro result hr
    have he : result.isEmpty = false := by
      cases result with
      | nil => exact absurd rfl hr
      | cons a l => rfl
    simp only [encode_emit, he, Bool.not_false, Bool.or_true, if_true]
    rw [ih _ (by simp)]
    simp

theorem encode_emit_empty (digits : List Nat) :
    encode_emit [] digits = (digits.dropWhile (fun d => decide (d = 0))).map alphabet_char := by
  induction digits with
  | nil => simp [encode_emit]
  | cons d digits ih =>
    by_cases hd : d = 0
    · subst hd
      simp only [encode_emit, List.isEmpty_nil, Bool.not_true, Bool.or_false,
        gt_iff_lt, lt_self_iff_false, decide_False, Bool.false_eq_true, if_false]
      rw [ih]
      simp [List.dropWhile]
    · have hp : d > 0 := Nat.pos_of_ne_zero hd
      simp only [encode_emit, hp, decide_True, Bool.true_or, if_true, List.nil_append]
      rw [encode_emit_nonempty _ _ (by simp)]
      simp [List.dropWhile, hd]

theorem alphabet_index_char (d : Nat) (h : d < 58) : alphabet_index (alphabet_char d) = some d := by
  interval_cases d <;> decide

theorem alphabet_char_ne_one (d : Nat) (h : d < 58) (h0 : d ≠ 0) : alphabet_char d ≠ '1' := by
  interval_cases d <;> first | exact absurd rfl h0 | decide

theorem base58_value_map (digits : List Nat) (h : ∀ d ∈ digits, d < 58) :
    ∀ a, (digits.map alphabet_char).foldl (fun acc c => acc * 58 + (alphabet_index c).getD 0) a
      = digits.foldl (fun acc d => acc * 58 + d) a := by
  induction digits with
  | nil => intro a; rfl
  | cons d digits ih =>
    intro a
    simp only [List.map_cons, List.foldl_cons]
    rw [alphabet_index_char d (h d (List.mem_cons_self _ _))]
    exact ih (fun x hx => h x (List.mem_cons_of_mem _ hx)) _

theorem foldl_digits_reverse (digits : List Nat) :
    digits.reverse.foldl (fun acc d => acc * 58 + d) 0 = digits_value digits := by
  induction digits with
  | nil => rfl
  | cons d digits ih =>
    simp only [List.reverse_cons, List.foldl_append, List.foldl_cons, List.foldl_nil, ih,
      digits_value]
    ring

theorem foldl_digits_dropWhile (digits : List Nat) :
    (digits.dropWhile (fun d => decide (d = 0))).foldl (fun acc d => acc * 58 + d) 0
      = digits.foldl (fun acc d => acc * 58 + d) 0 := by
  induction digits with
  | nil => rfl
  | cons d digits ih =>
    by_cases hd : d = 0
    · subst hd
      simpa [List.dropWhile] using ih
    · simp [List.dropWhile, hd]

theorem base58_value_ones (z : Nat) (text : Str) :
    base58_value (List.replicate z '1' ++ text) = base58_value text := by
  induction z with
  | zero => rfl
  | succ z ih =>
    unfold base58_value at ih ⊢
    have h1 : (alphabet_index '1').getD 0 = 0 := by decide
    simpa [List.replicate_succ, h1] using ih

/-- The digits that `encode_base58` leaves in its buffer, highest first. -/
theorem encode_base58_eq (data : List Nat) :
    encode_base58 data
      = List.replicate (leading_zeros data) '1'
        ++ ((if leading_zeros data = 0 then
              List.dropWhile (fun d => decide (d = 0))
                (encode_outer (data.drop (leading_zeros data))
                  (List.replicate (data.length * 2) 0)).reverse
            else
              (encode_outer (data.drop (leading_zeros data))
                (List.replicate (data.length * 2) 0)).reverse).map alphabet_char) := by
  unfold encode_base58
  by_cases hz : leading_zeros data = 0
  · simp only [hz, List.replicate_zero, if_true, List.nil_append]
    exact encode_emit_empty _
  · simp only [hz, if_false]
    apply encode_emit_nonempty
    intro h
    apply hz
    simpa using congrArg List.length h

theorem pow_256_le (n : Nat) : 256 ^ n ≤ 58 ^ (n * 2) := by
  rw [mul_comm, pow_mul]
  exact Nat.pow_le_pow_left (by norm_num : 256 ≤ 58 ^ 2) n

/-- The buffer of `encode_base58` holds the number that the bytes denote. -/
theorem digits_value_buffer (data : List Nat) (h : ∀ b ∈ data, b < 256) :
    digits_value (encode_outer (data.drop (leading_zeros data))
      (List.replicate (data.length * 2) 0)) = bytes_value data := by
  have hv : bytes_value data = bytes_value (data.drop (leading_zeros data)) := by
    conv_lhs => rw [leading_zeros_split data]
    exact bytes_value_replicate_zero _ _
  have hlt : bytes_value (data.drop (leading_zeros data)) < 58 ^ (data.length * 2) := by
    have h1 := bytes_value_lt (data.drop (leading_zeros data))
      (fun b hb => h b (List.mem_of_mem_drop hb))
    have h2 : 256 ^ (data.drop (leading_zeros data)).length ≤ 256 ^ data.length :=
      Nat.pow_le_pow_right (by norm_num) (by simp)
    exact lt_of_lt_of_le h1 (le_trans h2 (pow_256_le _))
  have := digits_value_encode_outer (data.drop (leading_zeros data))
    (List.replicate (data.length * 2) 0)
  rw [digits_value_replicate_zero, List.length_replicate] at this
  rw [hv]
  exact this hlt

theorem buffer_lt (data : List Nat) :
    ∀ d ∈ (encode_outer (data.drop (leading_zeros data))
      (List.replicate (data.length * 2) 0)).reverse, d < 58 := by
  intro d hd
  refine encode_outer_lt _ _ ?_ d (List.mem_reverse.mp hd)
  intro x hx
  rw [List.eq_of_mem_replicate hx]
  norm_num

/-- The text of `encode_base58` writes in base 58 the number that the bytes denote. -/
theorem base58_value_encode (data : List Nat) (h : ∀ b ∈ data, b < 256) :
    base58_value (encode_base58 data) = bytes_value data := by
  rw [encode_base58_eq, base58_value_ones, ← digits_value_buffer data h, ← foldl_digits_reverse]
  unfold base58_value
  by_cases hz : leading_zeros data = 0
  · rw [if_pos hz,
      base58_value_map _ (fun d hd => buffer_lt data d ((List.dropWhile_suffix _).subset hd)),
      foldl_digits_dropWhile]
  · rw [if_neg hz, base58_value_map _ (buffer_lt data)]

theorem encode_base58_length_of_zero (data : List Nat) (hz : leading_zeros data ≠ 0) :
    (encode_base58 data).length = leading_zeros data + data.length * 2 := by
  rw [encode_base58_eq]
  simp [hz, encode_outer_length]

theorem encode_base58_head_of_zero (data : List Nat) (hz : leading_zeros data ≠ 0) :
    (encode_base58 data).head? = some '1' := by
  rw [encode_base58_eq]
  obtain ⟨k, hk⟩ := Nat.exists_eq_succ_of_ne_zero hz
  rw [hk]
  simp [List.replicate_succ]

theorem encode_base58_head_of_nonzero (data : List Nat) (hz : leading_zeros data = 0) :
    (encode_base58 data).head? ≠ some '1' := by
  rw [encode_base58_eq]
  simp only [hz, List.replicate_zero, if_true, List.nil_append]
  generalize hH : (encode_outer (data.drop 0) (List.replicate (data.length * 2) 0)).reverse = H
  have hlt : ∀ d ∈ H, d < 58 := by
    have := buffer_lt data
    rw [hz, hH] at this
    exact this
  clear hH
  induction H with
  | nil => simp
  | cons d H ih =>
    by_cases hd : d = 0
    · subst hd
      simpa [List.dropWhile] using ih (fun x hx => hlt x (List.mem_cons_of_mem _ hx))
    · simp only [List.dropWhile, hd, decide_False, List.map_cons, List.head?_cons]
      intro hc
      exact alphabet_char_ne_one d (hlt d (List.mem_cons_self _ _)) hd (Option.some.inj hc)

/-- The encoder is injective on byte sequences. -/
theorem encode_base58_inj (b1 b2 : List Nat) (h1 : ∀ b ∈ b1, b < 256) (h2 : ∀ b ∈ b2, b < 256)
    (h : encode_base58 b1 = encode_base58 b2) : b1 = b2 := by
  have hv : bytes_value b1 = bytes_value b2 := by
    rw [← base58_value_encode b1 h1, ← base58_value_encode b2 h2, h]
  have hv1 : bytes_value b1 = bytes_value (b1.drop (leading_zeros b1)) := by
    conv_lhs => rw [leading_zeros_split b1]
    exact bytes_value_replicate_zero _ _
  have hv2 : bytes_value b2 = bytes_value (b2.drop (leading_zeros b2)) := by
    conv_lhs => rw [leading_zeros_split b2]
    exact bytes_value_replicate_zero _ _
  have hm : b1.drop (leading_zeros b1) = b2.drop (leading_zeros b2) :=
    bytes_value_inj _ _ (fun b hb => h1 b (List.mem_of_mem_drop hb))
      (fun b hb => h2 b (List.mem_of_mem_drop hb)) (drop_leading_zeros_head b1)
      (drop_leading_zeros_head b2) (by rw [← hv1, ← hv2, hv])
  have hz : leading_zeros b1 = leading_zeros b2 := by
    by_cases z1 : leading_zeros b1 = 0
    · by_cases z2 : leading_zeros b2 = 0
      · rw [z1, z2]
      · exfalso
        apply encode_base58_head_of_nonzero b1 z1
        rw [h]
        exact encode_base58_head_of_zero b2 z2
    · by_cases z2 : leading_zeros b2 = 0
      · exfalso
        apply encode_base58_head_of_nonzero b2 z2
        rw [← h]
        exact encode_base58_head_of_zero b1 z1
      · have l1 := encode_base58_length_of_zero b1 z1
        have l2 := encode_base58_length_of_zero b2 z2
        rw [h] at l1
        have d1 : (b1.drop (leading_zeros b1)).length = b1.length - leading_zeros b1 := by simp
        have d2 : (b2.drop (leading_zeros b2)).length = b2.length - leading_zeros b2 := by simp
        rw [hm] at d1
        have g1 := leading_zeros_le b1
        have g2 := leading_zeros_le b2
        omega
  rw [leading_zeros_split b1, leading_zeros_split b2, hm, hz]

/-! ## Uniqueness of the references -/

/-- C26. Reference uniqueness reduces to the entropy. `encode_base58` is injective on byte
sequences: two sequences of bytes with the same text are equal. Hence two calls of
`generate_reference` whose entropy sources wrote the `length` bytes `b1` and `b2` return the
same string only if `b1 = b2`; two distinct draws give two different references. -/
theorem reference_uniqueness (b1 b2 : List Nat) (h1 : ∀ b ∈ b1, b < 256)
    (h2 : ∀ b ∈ b2, b < 256) :
    (encode_base58 b1 = encode_base58 b2 → b1 = b2)
    ∧ (b1 ≠ b2 → encode_base58 b1 ≠ encode_base58 b2)
    ∧ ∀ (rand1 rand2 : EntropySource) (length : Nat) (s1 s2 : Str),
        rand1 length = some b1 → b1.length = length →
        rand2 length = some b2 → b2.length = length →
        (generate_reference rand1 length).result = .ok s1 →
        (generate_reference rand2 length).result = .ok s2 →
        (s1 = s2 → b1 = b2) ∧ (b1 ≠ b2 → s1 ≠ s2) := by
  have inj := encode_base58_inj b1 b2 h1 h2
  refine ⟨inj, fun hne he => hne (inj he), ?_⟩
  intro rand1 rand2 length s1 s2 r1 l1 r2 l2 g1 g2
  have e : s1 = s2 → b1 = b2 := by
    intro hs
    unfold generate_reference at g1 g2
    by_cases z : length = 0
    · simp [z] at g1
    by_cases o : length > 1024
    · simp [z, o] at g1
    simp only [z, o, if_false, r1, r2, write_bytes_full _ _ l1, write_bytes_full _ _ l2,
      Except.ok.injEq] at g1 g2
    apply inj
    rw [g1, g2, hs]
  exact ⟨e, fun hne hs => hne (e hs)⟩

/-- Two byte sequences that differ only by a leading zero have different texts. -/
theorem reference_uniqueness_witness :
    (∀ b ∈ [0, 1], b < 256) ∧ (∀ b ∈ [1], b < 256)
    ∧ encode_base58 [0, 1] ≠ encode_base58 [1] :=
  ⟨by decide, by decide,
    (reference_uniqueness [0, 1] [1] (by decide) (by decide)).2.1 (by decide)⟩

/-! ## The canonical numeral and the carries of the encoder -/

theorem digits_ofDigits_rdropWhile (b : Nat) (hb : 1 < b) (ds : List Nat)
    (h : ∀ d ∈ ds, d < b) :
    Nat.digits b (Nat.ofDigits b ds) = ds.rdropWhile (fun d => decide (d = 0)) := by
  induction ds using List.reverseRecOn with
  | nil => simp [List.rdropWhile]
  | append_singleton l a ih =>
    have hl : ∀ d ∈ l, d < b := fun d hd => h d (List.mem_append_left _ hd)
    by_cases ha : a = 0
    · subst ha
      rw [List.rdropWhile_concat_pos _ _ _ (by simp), ← ih hl, Nat.ofDigits_append]
      simp
    · rw [List.rdropWhile_concat_neg _ _ _ (by simpa using ha)]
      apply Nat.digits_ofDigits b hb _ h
      intro _
      simpa using ha

theorem digits_value_eq_ofDigits (ds : List Nat) : digits_value ds = Nat.ofDigits 58 ds := by
  induction ds with
  | nil => rfl
  | cons d ds ih => rw [digits_value, Nat.ofDigits_cons, ih]

theorem dropWhile_reverse_eq (p : Nat → Bool) (l : List Nat) :
    l.reverse.dropWhile p = (l.rdropWhile p).reverse := by
  simp [List.rdropWhile]

theorem leading_zeros_eq_zero (data : List Nat) (h : data.head? ≠ some 0) :
    leading_zeros data = 0 := by
  cases data with
  | nil => rfl
  | cons b rest =>
    have hb : b ≠ 0 := by
      intro e; apply h; simp [e]
    simp [leading_zeros, hb]

/-- Without a leading zero byte the text of `encode_base58` is the canonical numeral. -/
theorem encode_base58_numeral (data : List Nat) (hb : ∀ b ∈ data, b < 256)
    (h0 : data.head? ≠ some 0) : encode_base58 data = base58_numeral (bytes_value data) := by
  have hz := leading_zeros_eq_zero data h0
  have hv := digits_value_buffer data hb
  have hl : ∀ d ∈ encode_outer (data.drop (leading_zeros data))
      (List.replicate (data.length * 2) 0), d < 58 :=
    fun d hd => buffer_lt data d (List.mem_reverse.mpr hd)
  rw [encode_base58_eq, if_pos hz, hz, List.replicate_zero, List.nil_append, base58_numeral,
    ← hv, digits_value_eq_ofDigits, digits_ofDigits_rdropWhile 58 (by norm_num) _ hl,
    dropWhile_reverse_eq, hz]

theorem encode_inner_carry (ds : List Nat) :
    ∀ c, digits_value (encode_inner c ds) + 58 ^ ds.length * encode_carry c ds
      = c + 256 * digits_value ds := by
  induction ds with
  | nil => intro c; simp [encode_inner, encode_carry, digits_value]
  | cons d ds ih =>
    intro c
    simp only [encode_inner, encode_carry, digits_value, List.length_cons, pow_succ]
    have h1 := ih ((c + 256 * d) / 58)
    have h2 := Nat.mod_add_div (c + 256 * d) 58
    have e : 58 ^ ds.length * 58 * encode_carry ((c + 256 * d) / 58) ds
        = 58 * (58 ^ ds.length * encode_carry ((c + 256 * d) / 58) ds) := by ring
    rw [e]
    omega

theorem bytes_value_append (pre post : List Nat) :
    bytes_value (pre ++ post)
      = post.foldl (fun acc b => acc * 256 + b) (bytes_value pre) := by
  unfold bytes_value
  rw [List.foldl_append]

theorem bytes_value_prefix_le (pre post : List Nat) :
    bytes_value pre ≤ bytes_value (pre ++ post) := by
  rw [bytes_value_append]
  exact foldl_bytes_ge _ _

/-- The carry is zero at the end of every run of the inner loop of `encode_base58`. -/
theorem encode_carry_zero (data pre post : List Nat) (b : Nat) (hb : ∀ x ∈ data, x < 256)
    (h : data.drop (leading_zeros data) = pre ++ b :: post) :
    encode_carry b (encode_outer pre (List.replicate (data.length * 2) 0)) = 0 := by
  have hm : ∀ x ∈ pre ++ [b], x < 256 := by
    intro x hx
    apply hb x
    apply List.mem_of_mem_drop (n := leading_zeros data)
    rw [h]
    have : pre ++ b :: post = (pre ++ [b]) ++ post := by simp
    rw [this]
    exact List.mem_append_left _ hx
  have hlen : (pre ++ [b]).length ≤ data.length := by
    have := congrArg List.length h
    simp only [List.length_drop, List.length_append, List.length_cons] at this
    simp only [List.length_append, List.length_cons, List.length_nil]
    omega
  have hcap : bytes_value (pre ++ [b]) < 58 ^ (data.length * 2) :=
    lt_of_lt_of_le (bytes_value_lt _ hm)
      (le_trans (Nat.pow_le_pow_right (by norm_num) hlen) (pow_256_le _))
  have hpre : bytes_value pre < 58 ^ (data.length * 2) :=
    lt_of_le_of_lt (bytes_value_prefix_le pre [b]) hcap
  have hv := digits_value_encode_outer pre (List.replicate (data.length * 2) 0)
  rw [digits_value_replicate_zero, List.length_replicate] at hv
  have hv2 := hv hpre
  have hc := encode_inner_carry (encode_outer pre (List.replicate (data.length * 2) 0)) b
  rw [encode_outer_length, List.length_replicate, hv2] at hc
  have hb2 : bytes_value (pre ++ [b]) = bytes_value pre * 256 + b := by
    rw [bytes_value_append]; rfl
  have hfold : List.foldl (fun acc b => acc * 256 + b) 0 pre = bytes_value pre := rfl
  rw [hfold] at hc
  by_contra hne
  have h1 : 1 ≤ encode_carry b (encode_outer pre (List.replicate (data.length * 2) 0)) :=
    Nat.one_le_iff_ne_zero.mpr hne
  have h2 : 58 ^ (data.length * 2) ≤ 58 ^ (data.length * 2)
      * encode_carry b (encode_outer pre (List.replicate (data.length * 2) 0)) :=
    Nat.le_mul_of_pos_right _ h1
  omega

/-- C31. The encoder is the conversion of a big-endian integer to base 58. For every byte
sequence that is empty or whose first byte is not zero, `encode_base58` returns the canonical
base-58 numeral of the number that the bytes denote, most significant digit first, without a
leading zero digit, the digits written through the alphabet. The buffer of `2 * size` digits is
large enough for every byte sequence: the carry is zero when the inner loop ends, at every byte
that the outer loop takes. -/
theorem encode_base58_canonical (B : List Nat) (hb : ∀ b ∈ B, b < 256) :
    (B.head? ≠ some 0 → encode_base58 B = base58_numeral (bytes_value B))
    ∧ ∀ (pre post : List Nat) (b : Nat), B.drop (leading_zeros B) = pre ++ b :: post →
        encode_carry b (encode_outer pre (List.replicate (B.length * 2) 0)) = 0 :=
  ⟨fun h0 => encode_base58_numeral B hb h0,
    fun pre post b h => encode_carry_zero B pre post b hb h⟩

theorem encode_base58_canonical_witness :
    (∀ b ∈ [1, 0, 255], b < 256)
    ∧ encode_base58 [1, 0, 255] = base58_numeral 65791
    ∧ base58_numeral 65791 = "LZL".toList
    ∧ encode_carry 255 (encode_outer [1, 0] (List.replicate 6 0)) = 0 :=
  ⟨by decide, (encode_base58_canonical [1, 0, 255] (by decide)).1 (by decide),
    by simp [base58_numeral, alphabet_char, BASE58_ALPHABET],
    (encode_base58_canonical [1, 0, 255] (by decide)).2 [1, 0] [] 255 rfl⟩

/-! ## The text of the encoder -/

theorem alphabet_char_mem (d : Nat) (h : d < 58) : alphabet_char d ∈ BASE58_ALPHABET := by
  interval_cases d <;> decide

theorem encode_base58_mem_alphabet (data : List Nat) :
    ∀ c ∈ encode_base58 data, c ∈ BASE58_ALPHABET := by
  intro c hc
  rw [encode_base58_eq, List.mem_append] at hc
  rcases hc with hc | hc
  · rw [List.eq_of_mem_replicate hc]; decide
  · obtain ⟨d, hd, rfl⟩ := List.mem_map.mp hc
    apply alphabet_char_mem
    split_ifs at hd
    · exact buffer_lt data d ((List.dropWhile_suffix _).subset hd)
    · exact buffer_lt data d hd

theorem bytes_value_pos (data : List Nat) (hne : data ≠ []) (h0 : data.head? ≠ some 0) :
    0 < bytes_value data := by
  cases data with
  | nil => exact absurd rfl hne
  | cons b rest =>
    have hb : b ≠ 0 := by
      intro e; apply h0; simp [e]
    have := foldl_bytes_ge rest (0 * 256 + b)
    unfold bytes_value
    simp only [List.foldl_cons]
    omega

theorem encode_base58_ne_nil (data : List Nat) (hb : ∀ b ∈ data, b < 256) (hne : data ≠ []) :
    encode_base58 data ≠ [] := by
  by_cases hz : leading_zeros data = 0
  · have h0 : data.head? ≠ some 0 := by
      cases data with
      | nil => exact absurd rfl hne
      | cons b rest =>
        intro e
        simp only [List.head?_cons, Option.some.injEq] at e
        simp [leading_zeros, e] at hz
    have hv := base58_value_encode data hb
    have hp := bytes_value_pos data hne h0
    intro he
    rw [he] at hv
    simp [base58_value] at hv
    omega
  · intro he
    have := encode_base58_head_of_zero data hz
    rw [he] at this
    simp at this

/-- C33. The text of the encoder. For every non-empty byte sequence, `encode_base58` returns a
non-empty string all of whose characters are in the alphabet of 58 characters, so that
`decode_base58` applied to it returns bytes and does not fail with an invalid character. -/
theorem encode_base58_text (B : List Nat) (hb : ∀ b ∈ B, b < 256) (hne : B ≠ []) :
    encode_base58 B ≠ []
    ∧ (∀ c ∈ encode_base58 B, c ∈ BASE58_ALPHABET)
    ∧ (∃ bytes, decode_base58 (encode_base58 B) = .ok bytes)
    ∧ ∀ e, decode_base58 (encode_base58 B) ≠ .error e := by
  have hm := encode_base58_mem_alphabet B
  have hn : ¬ ∃ e, decode_base58 (encode_base58 B) = .error e := by
    rw [decode_base58_error_iff]
    rintro ⟨c, hc, hx⟩
    exact hx (hm c hc)
  refine ⟨encode_base58_ne_nil B hb hne, hm, ?_, fun e he => hn ⟨e, he⟩⟩
  cases hd : decode_base58 (encode_base58 B) with
  | ok bytes => exact ⟨bytes, rfl⟩
  | error e => exact absurd ⟨e, hd⟩ hn

theorem encode_base58_text_witness :
    (∀ b ∈ [0, 0, 7], b < 256) ∧ [0, 0, 7] ≠ ([] : List Nat)
    ∧ encode_base58 [0, 0, 7] ≠ []
    ∧ (∀ c ∈ encode_base58 [0, 0, 7], c ∈ BASE58_ALPHABET)
    ∧ (∃ bytes, decode_base58 (encode_base58 [0, 0, 7]) = .ok bytes)
    ∧ ∀ e, decode_base58 (encode_base58 [0, 0, 7]) ≠ .error e :=
  ⟨by decide, by decide, encode_base58_text [0, 0, 7] (by decide) (by decide)⟩

/-! ## The decoder as a positional numeral -/

theorem decode_inner_length (rs : List Nat) : ∀ c, (decode_inner c rs).length = rs.length := by
  induction rs with
  | nil => intro c; rfl
  | cons r rs ih => intro c; simp [decode_inner, ih]

theorem decode_inner_lt (rs : List Nat) : ∀ c, ∀ r ∈ decode_inner c rs, r < 256 := by
  induction rs with
  | nil => intro c r hr; simp [decode_inner] at hr
  | cons x rs ih =>
    intro c r hr
    simp only [decode_inner, List.mem_cons] at hr
    rcases hr with rfl | hr
    · exact Nat.mod_lt _ (by norm_num)
    · exact ih _ r hr

theorem decode_inner_carry (rs : List Nat) :
    ∀ c, Nat.ofDigits 256 (decode_inner c rs) + 256 ^ rs.length * decode_carry c rs
      = c + 58 * Nat.ofDigits 256 rs := by
  induction rs with
  | nil => intro c; simp [decode_inner, decode_carry]
  | cons r rs ih =>
    intro c
    simp only [decode_inner, decode_carry, Nat.ofDigits_cons, List.length_cons, pow_succ]
    have h1 := ih ((c + 58 * r) / 256)
    have h2 := Nat.mod_add_div (c + 58 * r) 256
    have e : 256 ^ rs.length * 256 * decode_carry ((c + 58 * r) / 256) rs
        = 256 * (256 ^ rs.length * decode_carry ((c + 58 * r) / 256) rs) := by ring
    rw [e]
    omega

theorem decode_carry_zero (rs : List Nat) (c : Nat)
    (h : c + 58 * Nat.ofDigits 256 rs < 256 ^ rs.length) : decode_carry c rs = 0 := by
  have hc := decode_inner_carry rs c
  by_contra hne
  have h1 : 1 ≤ decode_carry c rs := Nat.one_le_iff_ne_zero.mpr hne
  have h2 : 256 ^ rs.length ≤ 256 ^ rs.length * decode_carry c rs :=
    Nat.le_mul_of_pos_right _ h1
  omega

theorem ofDigits_decode_inner (rs : List Nat) (c : Nat)
    (h : c + 58 * Nat.ofDigits 256 rs < 256 ^ rs.length) :
    Nat.ofDigits 256 (decode_inner c rs) = c + 58 * Nat.ofDigits 256 rs := by
  have hc := decode_inner_carry rs c
  rw [decode_carry_zero rs c h] at hc
  simpa using hc

theorem foldl_base58_ge (s : Str) :
    ∀ a, a ≤ s.foldl (fun acc c => acc * 58 + (alphabet_index c).getD 0) a := by
  induction s with
  | nil => intro a; exact le_refl a
  | cons c s ih =>
    intro a
    simp only [List.foldl_cons]
    exact le_trans (by omega) (ih _)

theorem alphabet_index_lt (c : Char) : (alphabet_index c).getD 0 < 58 := by
  unfold alphabet_index
  split_ifs with h
  · have := List.indexOf_lt_length.mpr h
    simpa [BASE58_ALPHABET] using this
  · simp

theorem foldl_base58_lt (s : Str) :
    ∀ a, s.foldl (fun acc c => acc * 58 + (alphabet_index c).getD 0) a
      < (a + 1) * 58 ^ s.length := by
  induction s with
  | nil => intro a; simp
  | cons c s ih =>
    intro a
    simp only [List.foldl_cons, List.length_cons, pow_succ]
    have h1 := ih (a * 58 + (alphabet_index c).getD 0)
    have h2 := alphabet_index_lt c
    have h3 : (a * 58 + (alphabet_index c).getD 0 + 1) * 58 ^ s.length
        ≤ (a + 1) * 58 * 58 ^ s.length :=
      Nat.mul_le_mul_right _ (by omega)
    calc _ < _ := h1
      _ ≤ (a + 1) * 58 * 58 ^ s.length := h3
      _ = (a + 1) * (58 ^ s.length * 58) := by ring

theorem base58_value_lt (s : Str) : base58_value s < 58 ^ s.length := by
  have := foldl_base58_lt s 0
  simpa [base58_value] using this

theorem pow_58_1000_le : 58 ^ 1000 ≤ 256 ^ 733 := by
  have a : 58 ^ 116 ≤ 256 ^ 85 := by norm_num
  have b : 58 ^ 72 ≤ 256 ^ 53 := by norm_num
  have e1 : 58 ^ 1000 = (58 ^ 116) ^ 8 * 58 ^ 72 := by rw [← pow_mul, ← pow_add]
  have e2 : 256 ^ 733 = (256 ^ 85) ^ 8 * 256 ^ 53 := by rw [← pow_mul, ← pow_add]
  rw [e1, e2]
  exact Nat.mul_le_mul (Nat.pow_le_pow_left a 8) b

theorem pow_le_of_pow_le (a b k : Nat) (hk : k ≠ 0) (h : a ^ k ≤ b ^ k) : a ≤ b :=
  (Nat.pow_le_pow_iff_left hk).mp h

/-- The buffer of `decode_base58` is large enough for any text of the given length. -/
theorem pow_58_le (n : Nat) : 58 ^ n ≤ 256 ^ (n * 733 / 1000 + 1) := by
  have h1 : n * 733 ≤ 1000 * (n * 733 / 1000 + 1) := by omega
  have h2 : (58 ^ n) ^ 1000 ≤ (256 ^ (n * 733 / 1000 + 1)) ^ 1000 := by
    calc (58 ^ n) ^ 1000 = (58 ^ 1000) ^ n := by rw [← pow_mul, ← pow_mul, mul_comm]
      _ ≤ (256 ^ 733) ^ n := Nat.pow_le_pow_left pow_58_1000_le n
      _ = 256 ^ (n * 733) := by rw [← pow_mul, mul_comm]
      _ ≤ 256 ^ (1000 * (n * 733 / 1000 + 1)) := Nat.pow_le_pow_right (by norm_num) h1
      _ = (256 ^ (n * 733 / 1000 + 1)) ^ 1000 := by rw [← pow_mul, mul_comm]
  exact pow_le_of_pow_le _ _ 1000 (by decide) h2

/-- On a text over the alphabet the outer loop of `decode_base58` succeeds and leaves in the
buffer, least significant byte first, the number that the text writes on top of the buffer. -/
theorem decode_outer_value (s : Str) :
    ∀ rs : List Nat, (∀ c ∈ s, c ∈ BASE58_ALPHABET) → (∀ r ∈ rs, r < 256) →
      s.foldl (fun acc c => acc * 58 + (alphabet_index c).getD 0) (Nat.ofDigits 256 rs)
        < 256 ^ rs.length →
      ∃ result, decode_outer s rs = .ok result ∧ result.length = rs.length ∧
        (∀ r ∈ result, r < 256) ∧
        Nat.ofDigits 256 result
          = s.foldl (fun acc c => acc * 58 + (alphabet_index c).getD 0)
              (Nat.ofDigits 256 rs) := by
  induction s with
  | nil => intro rs _ hr _; exact ⟨rs, rfl, rfl, hr, rfl⟩
  | cons c s ih =>
    intro rs hs hr hlt
    have hc : c ∈ BASE58_ALPHABET := hs c (List.mem_cons_self _ _)
    have hi : alphabet_index c = some (BASE58_ALPHABET.indexOf c) := by
      unfold alphabet_index; rw [if_pos hc]
    simp only [List.foldl_cons, hi, Option.getD_some] at hlt ⊢
    have hge := foldl_base58_ge s (Nat.ofDigits 256 rs * 58 + BASE58_ALPHABET.indexOf c)
    have h1 : BASE58_ALPHABET.indexOf c + 58 * Nat.ofDigits 256 rs < 256 ^ rs.length := by
      omega
    have h2 := ofDigits_decode_inner rs _ h1
    have h3 : Nat.ofDigits 256 (decode_inner (BASE58_ALPHABET.indexOf c) rs)
        = Nat.ofDigits 256 rs * 58 + BASE58_ALPHABET.indexOf c := by
      rw [h2]; ring
    obtain ⟨result, e1, e2, e3, e4⟩ := ih (decode_inner (BASE58_ALPHABET.indexOf c) rs)
      (fun x hx => hs x (List.mem_cons_of_mem _ hx)) (decode_inner_lt rs _)
      (by rw [h3, decode_inner_length]; exact hlt)
    refine ⟨result, ?_, ?_, e3, ?_⟩
    · simp only [decode_outer, hi]
      exact e1
    · rw [e2, decode_inner_length]
    · rw [e4, h3]

theorem pop_back_zeros_eq (l : List Nat) (h : l.dropWhile (fun d => decide (d = 0)) ≠ []) :
    pop_back_zeros l = l.dropWhile (fun d => decide (d = 0)) := by
  induction l with
  | nil => exact absurd rfl h
  | cons b t ih =>
    cases t with
    | nil =>
      by_cases hb : b = 0
      · subst hb; simp [List.dropWhile] at h
      · simp [pop_back_zeros, List.dropWhile, hb]
    | cons c rest =>
      by_cases hb : b = 0
      · subst hb
        have h2 : (c :: rest).dropWhile (fun d => decide (d = 0)) ≠ [] := by
          simpa [List.dropWhile] using h
        simp only [pop_back_zeros, if_true]
        rw [ih h2]
        simp [List.dropWhile]
      · simp [pop_back_zeros, List.dropWhile, hb]

theorem leading_ones_eq_zero (s : Str) (h : s.head? ≠ some '1') : leading_ones s = 0 := by
  cases s with
  | nil => rfl
  | cons c rest =>
    have hc : c ≠ '1' := by
      intro e; apply h; simp [e]
    simp [leading_ones, hc]

theorem ofDigits_replicate_zero (n : Nat) : Nat.ofDigits 256 (List.replicate n 0) = 0 := by
  induction n with
  | zero => rfl
  | succ n ih => simp [List.replicate_succ, Nat.ofDigits_cons, ih]

theorem digits_bytes_value (data : List Nat) (hb : ∀ b ∈ data, b < 256)
    (h0 : data.head? ≠ some 0) : Nat.digits 256 (bytes_value data) = data.reverse := by
  rw [bytes_value_eq_ofDigits]
  apply Nat.digits_ofDigits 256 (by norm_num)
  · intro x hx; exact hb x (List.mem_reverse.mp hx)
  · intro hne
    rw [List.getLast_reverse]
    intro hz
    apply h0
    cases data with
    | nil => simp at hne
    | cons a l => simp at hz ⊢; exact hz

/-- The decoder on a text over the alphabet without a leading `1` that writes a number that is
not zero: the big-endian bytes of that number, without a leading zero byte. -/
theorem decode_base58_digits (s : Str) (hs : ∀ c ∈ s, c ∈ BASE58_ALPHABET)
    (h1 : s.head? ≠ some '1') (hv : base58_value s ≠ 0) :
    decode_base58 s = .ok (Nat.digits 256 (base58_value s)).reverse := by
  have hz := leading_ones_eq_zero s h1
  have hcap : s.foldl (fun acc c => acc * 58 + (alphabet_index c).getD 0)
      (Nat.ofDigits 256 (List.replicate (s.length * 733 / 1000 + 1) 0))
        < 256 ^ (List.replicate (s.length * 733 / 1000 + 1) 0).length := by
    rw [ofDigits_replicate_zero, List.length_replicate]
    exact lt_of_lt_of_le (base58_value_lt s) (pow_58_le _)
  obtain ⟨result, e1, _, e3, e4⟩ := decode_outer_value s
    (List.replicate (s.length * 733 / 1000 + 1) 0) hs
    (fun r hr => by rw [List.eq_of_mem_replicate hr]; norm_num) hcap
  rw [ofDigits_replicate_zero] at e4
  have e5 : Nat.ofDigits 256 result = base58_value s := e4
  have hd := digits_ofDigits_rdropWhile 256 (by norm_num) result e3
  rw [e5] at hd
  unfold decode_base58
  rw [hz, List.drop_zero, e1]
  simp only [List.replicate_zero, List.nil_append]
  have hdw : result.reverse.dropWhile (fun d => decide (d = 0))
      = (Nat.digits 256 (base58_value s)).reverse := by
    rw [dropWhile_reverse_eq, hd]
  have hne : result.reverse.dropWhile (fun d => decide (d = 0)) ≠ [] := by
    rw [hdw]
    intro he
    have := List.reverse_eq_nil_iff.mp he
    exact hv (Nat.digits_eq_nil_iff_eq_zero.mp this)
  rw [pop_back_zeros_eq _ hne, hdw]

/-- The round trip of the base58 codec on a byte sequence whose first byte is not zero. -/
theorem decode_encode_base58 (data : List Nat) (hb : ∀ b ∈ data, b < 256) (hne : data ≠ [])
    (h0 : data.head? ≠ some 0) : decode_base58 (encode_base58 data) = .ok data := by
  have hz := leading_zeros_eq_zero data h0
  have hv := base58_value_encode data hb
  have hp := bytes_value_pos data hne h0
  rw [decode_base58_digits _ (encode_base58_mem_alphabet data)
    (encode_base58_head_of_nonzero data hz) (by rw [hv]; omega), hv,
    digits_bytes_value data hb h0, List.reverse_reverse]

/-! ## Round trip of base58 without a leading zero byte -/

/-- On a text over the alphabet without a leading `1`, the buffer of `decode_base58` after the
loop holds the number that the text writes, least significant byte first. -/
theorem decode_outer_buffer (s : Str) (hs : ∀ c ∈ s, c ∈ BASE58_ALPHABET) :
    ∃ result, decode_outer s (List.replicate (s.length * 733 / 1000 + 1) 0) = .ok result ∧
      (∀ r ∈ result, r < 256) ∧ Nat.ofDigits 256 result = base58_value s := by
  have hcap : s.foldl (fun acc c => acc * 58 + (alphabet_index c).getD 0)
      (Nat.ofDigits 256 (List.replicate (s.length * 733 / 1000 + 1) 0))
        < 256 ^ (List.replicate (s.length * 733 / 1000 + 1) 0).length := by
    rw [ofDigits_replicate_zero, List.length_replicate]
    exact lt_of_lt_of_le (base58_value_lt s) (pow_58_le _)
  obtain ⟨result, e1, _, e3, e4⟩ := decode_outer_value s
    (List.replicate (s.length * 733 / 1000 + 1) 0) hs
    (fun r hr => by rw [List.eq_of_mem_replicate hr]; norm_num) hcap
  rw [ofDigits_replicate_zero] at e4
  exact ⟨result, e1, e3, e4⟩

theorem base58_value_append (pre post : Str) :
    base58_value (pre ++ post)
      = post.foldl (fun acc c => acc * 58 + (alphabet_index c).getD 0) (base58_value pre) := by
  unfold base58_value
  rw [List.foldl_append]

/-- The carry is zero at the end of every run of the inner loop of `decode_base58`, on a text
over the alphabet. -/
theorem decode_carry_text (s pre post : Str) (c : Char) (hs : ∀ x ∈ s, x ∈ BASE58_ALPHABET)
    (h : s = pre ++ c :: post) :
    ∃ buf, decode_outer pre (List.replicate (s.length * 733 / 1000 + 1) 0) = .ok buf ∧
      decode_carry ((alphabet_index c).getD 0) buf = 0 := by
  have hsplit : s = (pre ++ [c]) ++ post := by rw [h]; simp
  have hle : base58_value (pre ++ [c]) ≤ base58_value s := by
    rw [hsplit, base58_value_append (pre ++ [c]) post]
    exact foldl_base58_ge _ _
  have hcap : base58_value s < 256 ^ (s.length * 733 / 1000 + 1) :=
    lt_of_lt_of_le (base58_value_lt s) (pow_58_le _)
  have hpc : base58_value (pre ++ [c]) = base58_value pre * 58 + (alphabet_index c).getD 0 := by
    rw [base58_value_append]; rfl
  have hpre : pre.foldl (fun acc c => acc * 58 + (alphabet_index c).getD 0)
      (Nat.ofDigits 256 (List.replicate (s.length * 733 / 1000 + 1) 0))
        < 256 ^ (List.replicate (s.length * 733 / 1000 + 1) 0).length := by
    rw [ofDigits_replicate_zero, List.length_replicate]
    have : base58_value pre ≤ base58_value (pre ++ [c]) := by
      rw [base58_value_append]; exact foldl_base58_ge _ _
    exact lt_of_le_of_lt (le_trans this hle) hcap
  obtain ⟨buf, e1, e2, _, e4⟩ := decode_outer_value pre
    (List.replicate (s.length * 733 / 1000 + 1) 0)
    (fun x hx => hs x (by rw [h]; exact List.mem_append_left _ hx))
    (fun r hr => by rw [List.eq_of_mem_replicate hr]; norm_num) hpre
  rw [ofDigits_replicate_zero] at e4
  have e5 : Nat.ofDigits 256 buf = base58_value pre := e4
  refine ⟨buf, e1, decode_carry_zero buf _ ?_⟩
  rw [e2, List.length_replicate, e5]
  omega

/-- The buffer of `decode_base58` after the loop, read from its back: zero bytes, then the
bytes that were encoded. -/
theorem decode_outer_encode (data : List Nat) (hb : ∀ b ∈ data, b < 256)
    (h0 : data.head? ≠ some 0) :
    ∃ result k, decode_outer (encode_base58 data)
        (List.replicate ((encode_base58 data).length * 733 / 1000 + 1) 0) = .ok result ∧
      result.reverse = List.replicate k 0 ++ data := by
  obtain ⟨result, e1, e3, e4⟩ := decode_outer_buffer (encode_base58 data)
    (encode_base58_mem_alphabet data)
  rw [base58_value_encode data hb] at e4
  have hd := digits_ofDigits_rdropWhile 256 (by norm_num) result e3
  rw [e4, digits_bytes_value data hb h0] at hd
  have hdw : result.reverse.dropWhile (fun d => decide (d = 0)) = data := by
    rw [dropWhile_reverse_eq, ← hd, List.reverse_reverse]
  refine ⟨result, (result.reverse.takeWhile (fun d => decide (d = 0))).length, e1, ?_⟩
  have hsplit := List.takeWhile_append_dropWhile (fun d => decide (d = 0)) result.reverse
  have hrep : result.reverse.takeWhile (fun d => decide (d = 0))
      = List.replicate (result.reverse.takeWhile (fun d => decide (d = 0))).length 0 := by
    rw [List.eq_replicate_iff]
    refine ⟨rfl, ?_⟩
    intro x hx
    have := List.mem_takeWhile_imp hx
    simpa using this
  rw [← hrep, ← hdw]
  conv_lhs => rw [← hsplit]

/-- C34. The round trip of base58 on a byte sequence without a leading zero. For every
non-empty byte sequence `B` whose first byte is not zero, `decode_base58 (encode_base58 B)`
returns `B`. The buffer of `size * 733 / 1000 + 1` bytes of the decoder is large enough: the
carry is zero when the inner loop ends, at every character of the text. After the loop the
buffer holds the bytes of `B`, last byte first, followed by zero bytes only, which are the ones
that the trimming loop removes. -/
theorem base58_nonzero_first_round_trip (B : List Nat) (hb : ∀ b ∈ B, b < 256) (hne : B ≠ [])
    (h0 : B.head? ≠ some 0) :
    decode_base58 (encode_base58 B) = .ok B
    ∧ (∀ (pre post : Str) (c : Char), encode_base58 B = pre ++ c :: post →
        ∃ buf, decode_outer pre
            (List.replicate ((encode_base58 B).length * 733 / 1000 + 1) 0) = .ok buf ∧
          decode_carry ((alphabet_index c).getD 0) buf = 0)
    ∧ ∃ result k, decode_outer (encode_base58 B)
          (List.replicate ((encode_base58 B).length * 733 / 1000 + 1) 0) = .ok result ∧
        result = B.reverse ++ List.replicate k 0 := by
  refine ⟨decode_encode_base58 B hb hne h0, ?_, ?_⟩
  · intro pre post c h
    exact decode_carry_text (encode_base58 B) pre post c (encode_base58_mem_alphabet B) h
  · obtain ⟨result, k, e1, e2⟩ := decode_outer_encode B hb h0
    refine ⟨result, k, e1, ?_⟩
    have := congrArg List.reverse e2
    simpa using this

theorem base58_nonzero_first_round_trip_witness :
    (∀ b ∈ [1, 0, 255], b < 256) ∧ [1, 0, 255] ≠ ([] : List Nat)
    ∧ [1, 0, 255].head? ≠ some 0
    ∧ decode_base58 (encode_base58 [1, 0, 255]) = .ok [1, 0, 255] :=
  ⟨by decide, by decide, by decide,
    (base58_nonzero_first_round_trip [1, 0, 255] (by decide) (by decide) (by decide)).1⟩

/-! ## Validation and decoding of references without a leading zero byte -/

theorem pow_256_1024_le : 256 ^ 1024 ≤ 58 ^ 1500 := by
  have a : 256 ^ 64 ≤ 58 ^ 93 := by norm_num
  have e1 : 256 ^ 1024 = (256 ^ 64) ^ 16 := by rw [← pow_mul]
  have e2 : 58 ^ 1500 = (58 ^ 93) ^ 16 * 58 ^ 12 := by rw [← pow_mul, ← pow_add]
  rw [e1, e2]
  exact le_trans (Nat.pow_le_pow_left a 16) (Nat.le_mul_of_pos_right _ (by positivity))

theorem lt_of_pow_lt_pow (b m k : Nat) (hb : 1 < b) (h : b ^ m < b ^ k) : m < k :=
  (Nat.pow_lt_pow_iff_right hb).mp h

theorem bytes_value_lt_pow (data : List Nat) (hb : ∀ b ∈ data, b < 256) (k : Nat)
    (h : data.length ≤ k) : bytes_value data < 256 ^ k :=
  lt_of_lt_of_le (bytes_value_lt data hb) (Nat.pow_le_pow_right (by norm_num) h)

/-- The length of the canonical numeral of a number below `256^1024`. -/
theorem base58_numeral_length (n : Nat) (h : n < 256 ^ 1024) :
    (base58_numeral n).length ≤ 1500 := by
  unfold base58_numeral
  rw [List.length_map, List.length_reverse]
  by_cases hn : n = 0
  · subst hn; simp
  · have h1 := Nat.base_pow_length_digits_le 58 n (by norm_num) hn
    have h2 : 58 ^ (Nat.digits 58 n).length < 58 ^ 1501 := by
      calc 58 ^ (Nat.digits 58 n).length ≤ 58 * n := h1
        _ < 58 * 256 ^ 1024 := mul_lt_mul_of_pos_left h (by norm_num)
        _ ≤ 58 * 58 ^ 1500 := Nat.mul_le_mul_left _ pow_256_1024_le
        _ = 58 ^ 1501 := by rw [← pow_succ']
    have := lt_of_pow_lt_pow 58 _ 1501 (by norm_num) h2
    omega

/-- C39. Generated references of plausible size validate. For every byte sequence of 8 to 1024
bytes whose first byte is not zero, the text of `encode_base58` has at most 1500 characters and
`validate_reference` accepts it. -/
theorem validate_reference_encode (B : List Nat) (hb : ∀ b ∈ B, b < 256)
    (h8 : 8 ≤ B.length) (h1024 : B.length ≤ 1024) (h0 : B.head? ≠ some 0) :
    (encode_base58 B).length ≤ 1500 ∧ validate_reference (encode_base58 B) = true := by
  have hne : B ≠ [] := by
    intro e; rw [e] at h8; simp at h8
  have hlen : (encode_base58 B).length ≤ 1500 := by
    rw [encode_base58_numeral B hb h0]
    apply base58_numeral_length
    exact bytes_value_lt_pow B hb 1024 h1024
  refine ⟨hlen, ?_⟩
  have hd := decode_encode_base58 B hb hne h0
  have he : (encode_base58 B).isEmpty = false := by
    cases hs : encode_base58 B with
    | nil => exact absurd hs (encode_base58_ne_nil B hb hne)
    | cons c rest => rfl
  have hl : ¬ (encode_base58 B).length > 1500 := by omega
  unfold validate_reference
  rw [he, hd]
  simp [hl, h8, h1024]

theorem validate_reference_encode_witness :
    (∀ b ∈ [1, 2, 3, 4, 5, 6, 7, 8], b < 256) ∧ 8 ≤ [1, 2, 3, 4, 5, 6, 7, 8].length
    ∧ [1, 2, 3, 4, 5, 6, 7, 8].length ≤ 1024 ∧ [1, 2, 3, 4, 5, 6, 7, 8].head? ≠ some 0
    ∧ (encode_base58 [1, 2, 3, 4, 5, 6, 7, 8]).length ≤ 1500
    ∧ validate_reference (encode_base58 [1, 2, 3, 4, 5, 6, 7, 8]) = true :=
  ⟨by decide, by decide, by decide, by decide,
    validate_reference_encode [1, 2, 3, 4, 5, 6, 7, 8] (by decide) (by decide) (by decide)
      (by decide)⟩

/-- C40. The embedded timestamp is read back. For every length from 4 to 1020, every clock
reading `t` with `2^24 ≤ t < 2^32` and every draw of that many bytes, `decode_base58` applied
to the string returned by `generate_timestamped_reference` gives a byte sequence of exactly
that length whose first four bytes are the big-endian representation of `t` and whose other
bytes are those of the draw at the positions 4 and above. -/
theorem generate_timestamped_reference_decoded (now : Int) (rand : EntropySource)
    (length : Nat) (r : List Nat)
    (h24 : 16777216 ≤ now) (h32 : now < 4294967296)
    (h4 : 4 ≤ length) (h1020 : length ≤ 1020)
    (hr : rand length = some r) (hl : r.length = length) (hb : ∀ b ∈ r, b < 256) :
    ∃ s D,
      (generate_timestamped_reference now rand length).result = .ok s ∧
      decode_base58 s = .ok D ∧
      D.length = length ∧
      D.take 4 = [now.toNat / 16777216 % 256, now.toNat / 65536 % 256,
        now.toNat / 256 % 256, now.toNat % 256] ∧
      now.toNat / 16777216 % 256 * 16777216 + now.toNat / 65536 % 256 * 65536
        + now.toNat / 256 % 256 * 256 + now.toNat % 256 = now.toNat ∧
      D.drop 4 = r.drop 4 ∧
      ∀ i, 4 ≤ i → i < length → D.get? i = r.get? i := by
  have a : ¬ length < 4 := by omega
  have b : ¬ length > 1020 := by omega
  have ht : to_uint32 now = now.toNat := by
    unfold to_uint32
    rw [Int.emod_eq_of_lt (by omega) h32]
  have hlt : now.toNat < 4294967296 := by omega
  have hge : 16777216 ≤ now.toNat := by omega
  have hw := write_timestamp_eq now.toNat r (by omega)
  have hbytes : ∀ x ∈ write_timestamp now.toNat r, x < 256 := by
    intro x hx
    rw [hw] at hx
    simp only [List.cons_append, List.nil_append, List.mem_cons] at hx
    rcases hx with e | e | e | e | e
    · rw [e]; exact Nat.mod_lt _ (by norm_num)
    · rw [e]; exact Nat.mod_lt _ (by norm_num)
    · rw [e]; exact Nat.mod_lt _ (by norm_num)
    · rw [e]; exact Nat.mod_lt _ (by norm_num)
    · exact hb x (List.mem_of_mem_drop e)
  have hhead : (write_timestamp now.toNat r).head? ≠ some 0 := by
    rw [hw]
    simp only [List.cons_append, List.head?_cons, ne_eq, Option.some.injEq]
    omega
  have hne : write_timestamp now.toNat r ≠ [] := by
    rw [hw]; simp
  refine ⟨encode_base58 (write_timestamp now.toNat r), write_timestamp now.toNat r, ?_,
    decode_encode_base58 _ hbytes hne hhead, ?_, ?_, ?_, ?_, ?_⟩
  · simp only [generate_timestamped_reference, a, b, hr, if_false]
    rw [write_bytes_full r length hl, ht]
  · rw [hw]
    simp only [List.length_append, List.length_cons, List.length_nil, List.length_drop]
    omega
  · rw [hw]; rfl
  · omega
  · rw [hw]; rfl
  · intro i hi _
    rw [hw]
    obtain ⟨k, rfl⟩ : ∃ k, i = k + 4 := ⟨i - 4, by omega⟩
    simp only [List.get?_eq_getElem?, List.cons_append, List.nil_append,
      List.getElem?_cons_succ, List.getElem?_drop]
    congr 1
    omega

theorem generate_timestamped_reference_decoded_witness :
    (16777216 : Int) ≤ 1700000000 ∧ (1700000000 : Int) < 4294967296
    ∧ (4 : Nat) ≤ 8 ∧ (8 : Nat) ≤ 1020
    ∧ (fun n => some (List.replicate n 9) : EntropySource) 8 = some (List.replicate 8 9)
    ∧ (List.replicate 8 9).length = 8 ∧ (∀ b ∈ List.replicate 8 9, b < 256)
    ∧ ∃ s D,
      (generate_timestamped_reference 1700000000 (fun n => some (List.replicate n 9)) 8).result
        = .ok s ∧
      decode_base58 s = .ok D ∧
      D.length = 8 ∧
      D.take 4 = [(1700000000 : Int).toNat / 16777216 % 256,
        (1700000000 : Int).toNat / 65536 % 256,
        (1700000000 : Int).toNat / 256 % 256, (1700000000 : Int).toNat % 256] ∧
      (1700000000 : Int).toNat / 16777216 % 256 * 16777216
        + (1700000000 : Int).toNat / 65536 % 256 * 65536
        + (1700000000 : Int).toNat / 256 % 256 * 256 + (1700000000 : Int).toNat % 256
        = (1700000000 : Int).toNat ∧
      D.drop 4 = (List.replicate 8 9).drop 4 ∧
      ∀ i, 4 ≤ i → i < 8 → D.get? i = (List.replicate 8 9).get? i :=
  ⟨by decide, by decide, by decide, by decide, rfl, by decide, by decide,
    generate_timestamped_reference_decoded 1700000000 (fun n => some (List.replicate n 9)) 8
      (List.replicate 8 9) (by decide) (by decide) (by decide) (by decide) rfl (by decide)
      (by decide)⟩

theorem generate_timestamped_reference_decoded_example :
    (generate_timestamped_reference 1700000000 (fun n => some (List.replicate n 9)) 8).result
      = .ok "Hx1SJQdSwYc".toList
    ∧ decode_base58 "Hx1SJQdSwYc".toList = .ok [101, 83, 241, 0, 9, 9, 9, 9] := by
  decide

/-! ## Escapes of the decoder and the round trip of the percent codec -/

/-- C32, the escapes of the code. A `%` and the two characters after it are turned into one
byte exactly when `strtol` consumes both characters: the second is a hexadecimal digit and the
first is a hexadecimal digit, white space or a sign. So `%+5`, `%-1` and `% 7` are decoded, to
the bytes 5, 255 and 7, where percent-decoding of hexadecimal pairs only copies the `%` and
resumes at the next character; `%zz` and `%5+` are left as they are, the `+` becoming a
space. -/
theorem url_decode_escape_pairs (c1 c2 : Char) (rest : Str) :
    (((isHexDigit c1 = true ∨ isspace c1 = true ∨ c1 = '+' ∨ c1 = '-')
          ∧ isHexDigit c2 = true) →
        url_decode ('%' :: c1 :: c2 :: rest)
          = longToChar (strtol16 [c1, c2, Char.ofNat 0]).1 :: url_decode rest)
    ∧ (¬ ((isHexDigit c1 = true ∨ isspace c1 = true ∨ c1 = '+' ∨ c1 = '-')
          ∧ isHexDigit c2 = true) →
        url_decode ('%' :: c1 :: c2 :: rest) = '%' :: url_decode (c1 :: c2 :: rest))
    ∧ url_decode "%+5".toList = [Char.ofNat 5]
    ∧ percent_decode "%+5".toList = "% 5".toList
    ∧ url_decode "%-1".toList = [Char.ofNat 255]
    ∧ percent_decode "%-1".toList = "%-1".toList
    ∧ url_decode "% 7".toList = [Char.ofNat 7]
    ∧ percent_decode "% 7".toList = "% 7".toList
    ∧ url_decode "%+5x".toList = [Char.ofNat 5, 'x']
    ∧ url_decode "%zz".toList = "%zz".toList
    ∧ url_decode "%5+".toList = "%5 ".toList := by
  refine ⟨?_, ?_, by decide, by decide, by decide, by decide, by decide, by decide, by decide,
    by decide, by decide⟩
  · intro h
    exact url_decode_escape c1 c2 rest ((strtol16_consumed c1 c2).mpr h)
  · intro h
    exact url_decode_literal c1 c2 rest (fun hc => h ((strtol16_consumed c1 c2).mp hc))

/-- C36, the code at failing inputs. The encoder writes a reserved character as `%0` followed
by the character itself, which the decoder does not read as an escape: a space comes back as
`%0 `, a `+` as `%0 ` too, `%41` as `%0A`, and the link of the test `CreateTransactionUrl` as
`https%0:%0/%0/example.com%0/tx`. With the encoding of the specification, two uppercase
hexadecimal digits, the same strings come back unchanged. -/
theorem url_decode_encode_not_identity :
    url_encode " ".toList = "%0 ".toList
    ∧ url_decode (url_encode " ".toList) = "%0 ".toList
    ∧ url_decode (url_encode "+".toList) = "%0 ".toList
    ∧ url_decode (url_encode "%41".toList) = "%0A".toList
    ∧ url_decode (url_encode "Test Payment".toList) = "Test%0 Payment".toList
    ∧ url_decode (url_encode "https://example.com/tx".toList)
        = "https%0:%0/%0/example.com%0/tx".toList
    ∧ url_decode (percent_encode " ".toList) = " ".toList
    ∧ url_decode (percent_encode "+".toList) = "+".toList
    ∧ url_decode (percent_encode "%41".toList) = "%41".toList
    ∧ url_decode (percent_encode "https://example.com/tx".toList)
        = "https://example.com/tx".toList
    ∧ url_decode (url_encode "Test-Payment_1.0~".toList) = "Test-Payment_1.0~".toList := by
  decide

/-! ## Round trip of a request of unreserved text -/

theorem base_carried_of_unreserved (b : PaymentRequest) (h : unreserved_base b = true) :
    base_carried b = true := by
  unfold unreserved_base at h
  simp only [Bool.and_eq_true] at h
  obtain ⟨⟨⟨⟨⟨h0, h1⟩, h2⟩, h3⟩, h4⟩, h5⟩ := h
  have hq : '?' ∉ b.recipient := plain_not_mem _ _ h1 (by decide)
  have hs : b.recipient.head? ≠ some '/' := by
    intro e
    exact plain_not_mem _ _ h1 (by decide : unreserved '/' = false) (List.mem_of_mem_head? e)
  have hr := recipient_carried_of b.recipient (eq_of_isEmpty_false _ h0) hq hs
  unfold base_carried
  simp only [Bool.and_eq_true]
  exact ⟨⟨⟨⟨hr, h2⟩, h3⟩, h4⟩, h5⟩

/-- C35, as the code has it. For every Transfer, Transaction or CrossChainTransfer request
whose recipient and string fields (amount, spl_token, link, token, source_network, bridge,
label, message, memo, each reference) are made of the characters `A-Z a-z 0-9 - _ . ~` only,
with non-empty recipient, non-empty amount, token and source_network, optional fields non-empty
when set, and empty `bridge_params`: `create_url` returns a URL, `parse_url` accepts it, and the
request it returns is of the same variant and has the fields of the original, except that the
string `destination_network` of a cross-chain request, for which the URL has no parameter,
comes back empty. The request comes back equal to the original when that string is empty, as
the constructor leaves it. -/
theorem unreserved_request_round_trip (R : Request) (h : unreserved_request R = true) :
    ∃ u, create_url R = some u ∧ parse_url u = .ok (url_fields R) ∧
      ((∀ r, R = .crossChain r → r.destination_network = []) → parse_url u = .ok R) := by
  cases R with
  | transfer r =>
    simp only [unreserved_request, Bool.and_eq_true, beq_iff_eq] at h
    obtain ⟨⟨⟨⟨ht, hb⟩, ha0⟩, ha⟩, hs⟩ := h
    have hp := parse_create_transfer_url r ht (base_carried_of_unreserved _ hb)
      (eq_of_isEmpty_false _ ha0) ha hs
    refine ⟨create_transfer_url r, ?_, hp, fun _ => hp⟩
    simp only [create_url, Request.base, ht]
  | transaction r =>
    simp only [unreserved_request, Bool.and_eq_true, beq_iff_eq] at h
    obtain ⟨⟨ht, hb⟩, hl⟩ := h
    have hp := parse_create_transaction_url r ht (base_carried_of_unreserved _ hb) hl
    refine ⟨create_transaction_url r, ?_, hp, fun _ => hp⟩
    simp only [create_url, Request.base, ht]
  | crossChain r =>
    simp only [unreserved_request, Bool.and_eq_true, beq_iff_eq] at h
    obtain ⟨⟨⟨⟨⟨⟨⟨⟨⟨ht, hb⟩, ha0⟩, ha⟩, hk0⟩, hk⟩, hsn0⟩, hsn⟩, hbr⟩, hbp⟩ := h
    have hp := parse_create_cross_chain_url r ht (base_carried_of_unreserved _ hb)
      (eq_of_isEmpty_false _ ha0) ha (eq_of_isEmpty_false _ hk0) hk
      (eq_of_isEmpty_false _ hsn0) hsn hbr
    refine ⟨create_cross_chain_url r, ?_, hp, ?_⟩
    · simp only [create_url, Request.base, ht]
    · intro hd
      rw [hp]
      have e1 : r.destination_network = [] := hd r rfl
      have e2 : r.bridge_params = [] := by simpa using hbp
      cases r with
      | mk b sn dn am tk br bp =>
        simp only at e1 e2
        subst e1 e2
        rfl

theorem unreserved_request_round_trip_witness :
    unreserved_request (.crossChain ⟨⟨.CROSS_CHAIN_TRANSFER, .SOLANA, "recipient123".toList,
        some "Test-Payment".toList, none, none, ["ref1".toList, "ref1".toList]⟩,
        "ethereum".toList, [], "1.5".toList, "USDC".toList, some "wormhole".toList, []⟩) = true ∧
    ∃ u, create_url (.crossChain ⟨⟨.CROSS_CHAIN_TRANSFER, .SOLANA, "recipient123".toList,
        some "Test-Payment".toList, none, none, ["ref1".toList, "ref1".toList]⟩,
        "ethereum".toList, [], "1.5".toList, "USDC".toList, some "wormhole".toList, []⟩)
          = some u ∧
      parse_url u = .ok (url_fields (.crossChain ⟨⟨.CROSS_CHAIN_TRANSFER, .SOLANA,
        "recipient123".toList, some "Test-Payment".toList, none, none,
        ["ref1".toList, "ref1".toList]⟩,
        "ethereum".toList, [], "1.5".toList, "USDC".toList, some "wormhole".toList, []⟩)) ∧
      ((∀ r, Request.crossChain ⟨⟨.CROSS_CHAIN_TRANSFER, .SOLANA, "recipient123".toList,
          some "Test-Payment".toList, none, none, ["ref1".toList, "ref1".toList]⟩,
          "ethereum".toList, [], "1.5".toList, "USDC".toList, some "wormhole".toList, []⟩
            = .crossChain r → r.destination_network = []) →
        parse_url u = .ok (.crossChain ⟨⟨.CROSS_CHAIN_TRANSFER, .SOLANA,
          "recipient123".toList, some "Test-Payment".toList, none, none,
          ["ref1".toList, "ref1".toList]⟩,
          "ethereum".toList, [], "1.5".toList, "USDC".toList, some "wormhole".toList, []⟩)) :=
  ⟨by decide, unreserved_request_round_trip _ (by decide)⟩

/-- C35, the claim as stated fails. A cross-chain request of unreserved text, with empty
`bridge_params`, whose string `destination_network` is set to `solana`: the URL written for it
has no parameter for that string, and the request read back has it empty, so it is not the
original. -/
theorem destination_network_not_carried :
    unreserved_request (.crossChain ⟨⟨.CROSS_CHAIN_TRANSFER, .SOLANA, "r".toList, none, none,
        none, []⟩, "ethereum".toList, "solana".toList, "1".toList, "USDC".toList, none, []⟩)
      = true
    ∧ create_url (.crossChain ⟨⟨.CROSS_CHAIN_TRANSFER, .SOLANA, "r".toList, none, none,
        none, []⟩, "ethereum".toList, "solana".toList, "1".toList, "USDC".toList, none, []⟩)
      = some "solana:r?amount=1&token=USDC&source-network=ethereum".toList
    ∧ parse_url "solana:r?amount=1&token=USDC&source-network=ethereum".toList
      = .ok (.crossChain ⟨⟨.CROSS_CHAIN_TRANSFER, .SOLANA, "r".toList, none, none,
        none, []⟩, "ethereum".toList, [], "1".toList, "USDC".toList, none, []⟩)
    ∧ parse_url "solana:r?amount=1&token=USDC&source-network=ethereum".toList
      ≠ .ok (.crossChain ⟨⟨.CROSS_CHAIN_TRANSFER, .SOLANA, "r".toList, none, none,
        none, []⟩, "ethereum".toList, "solana".toList, "1".toList, "USDC".toList, none, []⟩) := by
  decide

/-! ## First occurrence of a key, empty optional values -/

theorem has_key_eq_isSome (pairs : List (Str × Str)) (k : Str) :
    has_key pairs k = (first_value pairs k).isSome := by
  have h := has_key_iff pairs k
  unfold first_value
  cases hv : values_of pairs k with
  | nil =>
    rw [hv] at h
    cases hk : has_key pairs k with
    | false => rfl
    | true => exact absurd rfl (h.mp hk)
  | cons a l =>
    rw [hv] at h
    exact h.mpr (by simp)

/-- The result of `parse_request` as a function of the first value of each single-valued key
and of the values of `reference`. -/
theorem parse_request_first_values (n : SVMNetwork) (path q1 q2 : Str)
    (hf : ∀ k ∈ single_valued_keys,
      first_value (query_pairs q1) k = first_value (query_pairs q2) k)
    (hr : values_of (query_pairs q1) "reference".toList
      = values_of (query_pairs q2) "reference".toList) :
    parse_request n path q1 = parse_request n path q2 := by
  have f1 := hf "amount".toList (by decide)
  have f2 := hf "token".toList (by decide)
  have f3 := hf "source-network".toList (by decide)
  have f4 := hf "link".toList (by decide)
  have f5 := hf "bridge".toList (by decide)
  have f6 := hf "spl-token".toList (by decide)
  have f7 := hf "label".toList (by decide)
  have f8 := hf "message".toList (by decide)
  have f9 := hf "memo".toList (by decide)
  rw [parse_request_pairs, parse_request_pairs, parse_cross_chain_pairs, parse_cross_chain_pairs,
    parse_transaction_pairs, parse_transaction_pairs, parse_transfer_pairs, parse_transfer_pairs]
  simp only [has_key_eq_isSome, first_nonempty_value, f1, f2, f3, f4, f5, f6, f7, f8, f9, hr]

theorem grammar_check_passes (url : Str) (h : grammar_check_fails url = false) :
    (regex_match_url url).isSome = true := by
  unfold grammar_check_fails at h
  simp only [Bool.or_eq_false_iff] at h
  cases hr : regex_match_url url with
  | none => rw [hr] at h; simp at h
  | some x => rfl

/-- Two URLs that pass the grammar check, with the same scheme and the same path, whose queries
have the same first value for each of the keys amount, token, source-network, link, bridge,
spl-token, label, message, memo (the same absence when the key does not occur) and the same
values of the key reference, get the same result from `parse_url`, request or error: the later
occurrences of these keys do not enter the result. -/
theorem parse_url_congr_first_values (u1 u2 : Str)
    (hg1 : grammar_check_fails u1 = false) (hg2 : grammar_check_fails u2 = false)
    (hp : url_protocol u1 = url_protocol u2) (ht : url_path u1 = url_path u2)
    (hf : ∀ k ∈ single_valued_keys,
      first_value (query_pairs (url_query u1)) k = first_value (query_pairs (url_query u2)) k)
    (hr : values_of (query_pairs (url_query u1)) "reference".toList
      = values_of (query_pairs (url_query u2)) "reference".toList) :
    parse_url u1 = parse_url u2 := by
  rw [parse_url_of_match u1 (grammar_check_passes u1 hg1),
    parse_url_of_match u2 (grammar_check_passes u2 hg2), hp, ht]
  cases string_to_network (url_protocol u2) with
  | error e => rfl
  | ok n => exact parse_request_first_values n _ _ _ hf hr

theorem parse_url_first_occurrence_examples :
    parse_url "solana:r?amount=1&amount=999".toList
      = .ok (.transfer (TransferRequest.new .SOLANA "r".toList "1".toList))
    ∧ parse_url "solana:r?amount=&amount=5".toList = .error .transferRequiresAmount
    ∧ (parse_url "solana:r?amount=&amount=5".toList).toOption.isNone = true
    ∧ parse_url "solana:r?link=a&link=b".toList
      = .ok (.transaction (TransactionRequest.new .SOLANA "r".toList "a".toList))
    ∧ parse_url "solana:r?amount=1&label=&label=x".toList
      = .ok (.transfer (TransferRequest.new .SOLANA "r".toList "1".toList)) := by
  decide

theorem first_nonempty_value_eq_some (pairs : List (Str × Str)) (k v : Str) :
    first_nonempty_value pairs k = some v ↔ (first_value pairs k = some v ∧ v ≠ []) := by
  unfold first_nonempty_value
  cases first_value pairs k with
  | none => simp
  | some w =>
    by_cases hw : w = []
    · subst hw
      simp only [if_true, Option.some.injEq]
      constructor
      · intro h; cases h
      · rintro ⟨h1, h2⟩; exact absurd h1.symm h2
    · simp only [hw, if_false, Option.some.injEq]
      constructor
      · intro h; subst h; exact ⟨rfl, hw⟩
      · rintro ⟨h1, _⟩; exact h1

/-- Empty optional values are treated as absent. In every request that `parse_url` returns,
each of the optional fields label, message, memo, and spl_token of a transfer, bridge of a
cross-chain transfer, is set to a value if and only if that value is the first value of its
key in the query, as `url_decode` reads it, and is not empty; none of them is set to the empty
string. -/
theorem parse_url_optional_fields (url : Str) (r : Request) (h : parse_url url = .ok r) :
    (∀ v, r.base.label = some v ↔
      (first_value (query_pairs (url_query url)) "label".toList = some v ∧ v ≠ []))
    ∧ (∀ v, r.base.message = some v ↔
      (first_value (query_pairs (url_query url)) "message".toList = some v ∧ v ≠ []))
    ∧ (∀ v, r.base.memo = some v ↔
      (first_value (query_pairs (url_query url)) "memo".toList = some v ∧ v ≠ []))
    ∧ (match r with
      | .transfer t => ∀ v, t.spl_token = some v ↔
          (first_value (query_pairs (url_query url)) "spl-token".toList = some v ∧ v ≠ [])
      | .crossChain c => ∀ v, c.bridge = some v ↔
          (first_value (query_pairs (url_query url)) "bridge".toList = some v ∧ v ≠ [])
      | .transaction _ => True)
    ∧ r.base.label ≠ some [] ∧ r.base.message ≠ some [] ∧ r.base.memo ≠ some []
    ∧ (match r with
      | .transfer t => t.spl_token ≠ some []
      | .crossChain c => c.bridge ≠ some []
      | .transaction _ => True) := by
  obtain ⟨_, n, _, hreq⟩ := parse_url_ok_inv url r h
  have key : ∀ (o : Option Str) (k : Str),
      o = first_nonempty_value (query_pairs (url_query url)) k →
      (∀ v, o = some v ↔ (first_value (query_pairs (url_query url)) k = some v ∧ v ≠ []))
        ∧ o ≠ some [] := by
    intro o k ho
    subst ho
    refine ⟨fun v => first_nonempty_value_eq_some _ k v, ?_⟩
    intro he
    exact ((first_nonempty_value_eq_some _ k []).mp he).2 rfl
  rw [parse_request_pairs] at hreq
  split_ifs at hreq with h1 h2 h3 h4
  · rw [parse_cross_chain_pairs] at hreq
    split_ifs at hreq
    injection hreq with e
    subst e
    exact ⟨(key _ _ rfl).1, (key _ _ rfl).1, (key _ _ rfl).1, (key _ _ rfl).1,
      (key _ _ rfl).2, (key _ _ rfl).2, (key _ _ rfl).2, (key _ _ rfl).2⟩
  · rw [parse_transaction_pairs] at hreq
    injection hreq with e
    subst e
    exact ⟨(key _ _ rfl).1, (key _ _ rfl).1, (key _ _ rfl).1, trivial,
      (key _ _ rfl).2, (key _ _ rfl).2, (key _ _ rfl).2, trivial⟩
  · rw [parse_transfer_pairs] at hreq
    split_ifs at hreq
    injection hreq with e
    subst e
    exact ⟨(key _ _ rfl).1, (key _ _ rfl).1, (key _ _ rfl).1, (key _ _ rfl).1,
      (key _ _ rfl).2, (key _ _ rfl).2, (key _ _ rfl).2, (key _ _ rfl).2⟩

theorem parse_url_optional_fields_witness :
    parse_url "solana:r?amount=1&label=&memo=x&label=y".toList
      = .ok (.transfer ⟨⟨.TRANSFER, .SOLANA, "r".toList, none, none, some "x".toList, []⟩,
          "1".toList, none⟩)
    ∧ (∀ v, (none : Option Str) = some v ↔
      (first_value (query_pairs (url_query "solana:r?amount=1&label=&memo=x&label=y".toList))
        "label".toList = some v ∧ v ≠ []))
    ∧ (∀ v, some "x".toList = some v ↔
      (first_value (query_pairs (url_query "solana:r?amount=1&label=&memo=x&label=y".toList))
        "memo".toList = some v ∧ v ≠ [])) :=
  ⟨by decide,
    (parse_url_optional_fields "solana:r?amount=1&label=&memo=x&label=y".toList
      (.transfer ⟨⟨.TRANSFER, .SOLANA, "r".toList, none, none, some "x".toList, []⟩,
        "1".toList, none⟩) (by decide)).1,
    (parse_url_optional_fields "solana:r?amount=1&label=&memo=x&label=y".toList
      (.transfer ⟨⟨.TRANSFER, .SOLANA, "r".toList, none, none, some "x".toList, []⟩,
        "1".toList, none⟩) (by decide)).2.2.1⟩

/-! ## The values of the query against percent-decoding -/

/-- C5, the code at a failing input. In `solana:r?amount=1&reference=50%+5&reference=ref2` the
first reference is written `50%+5`. Percent-decoding, as the specification has it, gives
`50% 5`: the `%` is not followed by two hexadecimal digits and is copied, the `+` becomes a
space. The request returned by `parse_url` has the three bytes `5`, `0`, 0x05 instead, because
`url_decode` reads `%+5` as an escape. The order, the duplicates and the empty values are kept
as the specification says, as on the second URL. -/
theorem parse_url_references_sign_escape :
    parse_url "solana:r?amount=1&reference=50%+5&reference=ref2".toList
      = .ok (.transfer ⟨⟨.TRANSFER, .SOLANA, "r".toList, none, none, none,
          [['5', '0', Char.ofNat 5], "ref2".toList]⟩, "1".toList, none⟩)
    ∧ values_of (percent_query_pairs
          (url_query "solana:r?amount=1&reference=50%+5&reference=ref2".toList))
        "reference".toList = ["50% 5".toList, "ref2".toList]
    ∧ [['5', '0', Char.ofNat 5], "ref2".toList] ≠ ["50% 5".toList, "ref2".toList]
    ∧ parse_url
        "solana:recipient123?amount=1.5&reference=ref1&reference=&reference=a%20b".toList
      = .ok (.transfer ⟨⟨.TRANSFER, .SOLANA, "recipient123".toList, none, none, none,
          ["ref1".toList, [], "a b".toList]⟩, "1.5".toList, none⟩)
    ∧ values_of (percent_query_pairs (url_query
          "solana:recipient123?amount=1.5&reference=ref1&reference=&reference=a%20b".toList))
        "reference".toList = ["ref1".toList, [], "a b".toList] := by
  decide

/-- C10, the code at a failing input. In `solana:r?amount=%+1&label=%-1&memo=a%20b` the
percent-decoded amount is `% 1` and the percent-decoded label is `%-1`. The transfer returned
by `parse_url` has the byte 0x01 as amount and the byte 0xFF as label, because `url_decode`
reads `%+1` and `%-1` as escapes; the memo, a hexadecimal escape, is decoded as the
specification says, and so is the example of the specification. -/
theorem parse_url_transfer_sign_escape :
    parse_url "solana:r?amount=%+1&label=%-1&memo=a%20b".toList
      = .ok (.transfer ⟨⟨.TRANSFER, .SOLANA, "r".toList, some [Char.ofNat 255], none,
          some "a b".toList, []⟩, [Char.ofNat 1], none⟩)
    ∧ first_value (percent_query_pairs (url_query
          "solana:r?amount=%+1&label=%-1&memo=a%20b".toList)) "amount".toList
        = some "% 1".toList
    ∧ first_value (percent_query_pairs (url_query
          "solana:r?amount=%+1&label=%-1&memo=a%20b".toList)) "label".toList
        = some "%-1".toList
    ∧ first_value (percent_query_pairs (url_query
          "solana:r?amount=%+1&label=%-1&memo=a%20b".toList)) "memo".toList
        = some "a b".toList
    ∧ [Char.ofNat 1] ≠ "% 1".toList ∧ [Char.ofNat 255] ≠ "%-1".toList
    ∧ parse_url "solana:recipient123?amount=1.5&label=Test%20Payment".toList
      = .ok (.transfer ⟨⟨.TRANSFER, .SOLANA, "recipient123".toList,
          some "Test Payment".toList, none, none, []⟩, "1.5".toList, none⟩) := by
  decide

/-- C11, the code at a failing input. In
`solana:r?amount=% 7&token=USDC&source-network=ethereum&bridge=%+9` the percent-decoded amount
is `% 7` and the percent-decoded bridge is `% 9`. The cross-chain transfer returned by
`parse_url` has the byte 0x07 as amount and the byte 0x09 as bridge, because `url_decode` reads
`% 7` and `%+9` as escapes; the token and the source network are carried as the specification
says. -/
theorem parse_url_cross_chain_space_escape :
    parse_url "solana:r?amount=% 7&token=USDC&source-network=ethereum&bridge=%+9".toList
      = .ok (.crossChain ⟨⟨.CROSS_CHAIN_TRANSFER, .SOLANA, "r".toList, none, none, none, []⟩,
          "ethereum".toList, [], [Char.ofNat 7], "USDC".toList, some [Char.ofNat 9], []⟩)
    ∧ first_value (percent_query_pairs (url_query
          "solana:r?amount=% 7&token=USDC&source-network=ethereum&bridge=%+9".toList))
        "amount".toList = some "% 7".toList
    ∧ first_value (percent_query_pairs (url_query
          "solana:r?amount=% 7&token=USDC&source-network=ethereum&bridge=%+9".toList))
        "bridge".toList = some "% 9".toList
    ∧ [Char.ofNat 7] ≠ "% 7".toList ∧ [Char.ofNat 9] ≠ "% 9".toList
    ∧ parse_url
        "solana:recipient123?amount=100&token=USDC&source-network=ethereum&bridge=worm%20hole".toList
      = .ok (.crossChain ⟨⟨.CROSS_CHAIN_TRANSFER, .SOLANA, "recipient123".toList, none, none,
          none, []⟩, "ethereum".toList, [], "100".toList, "USDC".toList,
          some "worm hole".toList, []⟩) := by
  decide

/-- C12, the code at a failing input. In `solana:r?link=%+1` the percent-decoded link is
`% 1`. The transaction request returned by `parse_url` has the byte 0x01 as link, because
`url_decode` reads `%+1` as an escape; a link written with hexadecimal escapes is decoded as
the specification says, and an empty link is accepted. -/
theorem parse_url_transaction_sign_escape :
    parse_url "solana:r?link=%+1".toList
      = .ok (.transaction ⟨⟨.TRANSACTION, .SOLANA, "r".toList, none, none, none, []⟩,
          [Char.ofNat 1]⟩)
    ∧ first_value (percent_query_pairs (url_query "solana:r?link=%+1".toList)) "link".toList
        = some "% 1".toList
    ∧ [Char.ofNat 1] ≠ "% 1".toList
    ∧ parse_url "solana:r?link=https%3A%2F%2Fexample.com%2Ftx".toList
      = .ok (.transaction ⟨⟨.TRANSACTION, .SOLANA, "r".toList, none, none, none, []⟩,
          "https://example.com/tx".toList⟩)
    ∧ parse_url "solana:r?link=".toList
      = .ok (.transaction ⟨⟨.TRANSACTION, .SOLANA, "r".toList, none, none, none, []⟩, []⟩) := by
  decide

/-- C38, the code at a failing input. In `solana:r?amount=1&label=%-1&spl-token=%+a&memo=` the
percent-decoded first value of `label` is `%-1` and that of `spl-token` is `% a`. The transfer
returned by `parse_url` has the byte 0xFF as label and the byte 0x0A as token, because
`url_decode` reads `%-1` and `%+a` as escapes; the memo, whose first value is empty, is left
unset as the specification says. -/
theorem parse_url_optional_sign_escape :
    parse_url "solana:r?amount=1&label=%-1&spl-token=%+a&memo=".toList
      = .ok (.transfer ⟨⟨.TRANSFER, .SOLANA, "r".toList, some [Char.ofNat 255], none, none,
          []⟩, "1".toList, some [Char.ofNat 10]⟩)
    ∧ first_value (percent_query_pairs (url_query
          "solana:r?amount=1&label=%-1&spl-token=%+a&memo=".toList)) "label".toList
        = some "%-1".toList
    ∧ first_value (percent_query_pairs (url_query
          "solana:r?amount=1&label=%-1&spl-token=%+a&memo=".toList)) "spl-token".toList
        = some "% a".toList
    ∧ first_value (percent_query_pairs (url_query
          "solana:r?amount=1&label=%-1&spl-token=%+a&memo=".toList)) "memo".toList
        = some []
    ∧ [Char.ofNat 255] ≠ "%-1".toList ∧ [Char.ofNat 10] ≠ "% a".toList
    ∧ parse_url "solana:r?amount=1&label=&memo=Test%20Memo&label=x".toList
      = .ok (.transfer ⟨⟨.TRANSFER, .SOLANA, "r".toList, none, none,
          some "Test Memo".toList, []⟩, "1".toList, none⟩) := by
  decide

/-! ## The first occurrence of a single-valued key -/

theorem eq_some_getD_of_ne_nil (o : Option Str) (h : ¬ o.getD [] = []) :
    o = some (o.getD []) := by
  cases o with
  | none => exact absurd rfl h
  | some v => rfl

theorem eq_some_getD_of_isSome (o : Option Str) (h : o.isSome = true) :
    o = some (o.getD []) := by
  cases o with
  | none => cases h
  | some v => rfl

/-- The single-valued fields of a returned request are the first values of their keys. -/
theorem parse_url_fields_first_values (url : Str) :
    ∀ r, parse_url url = .ok r →
    r.base.label = first_nonempty_value (query_pairs (url_query url)) "label".toList
    ∧ r.base.message = first_nonempty_value (query_pairs (url_query url)) "message".toList
    ∧ r.base.memo = first_nonempty_value (query_pairs (url_query url)) "memo".toList
    ∧ (match r with
      | .transfer t =>
        first_value (query_pairs (url_query url)) "amount".toList = some t.amount
          ∧ t.amount ≠ []
          ∧ t.spl_token = first_nonempty_value (query_pairs (url_query url)) "spl-token".toList
      | .transaction t =>
        first_value (query_pairs (url_query url)) "link".toList = some t.link
      | .crossChain c =>
        first_value (query_pairs (url_query url)) "amount".toList = some c.amount
          ∧ c.amount ≠ []
          ∧ first_value (query_pairs (url_query url)) "token".toList = some c.token
          ∧ c.token ≠ []
          ∧ first_value (query_pairs (url_query url)) "source-network".toList
              = some c.source_network
          ∧ c.source_network ≠ []
          ∧ c.bridge = first_nonempty_value (query_pairs (url_query url)) "bridge".toList) := by
  intro r h
  obtain ⟨_, n, _, hreq⟩ := parse_url_ok_inv url r h
  rw [parse_request_pairs] at hreq
  split_ifs at hreq with h1 h2 h3 h4
  · rw [parse_cross_chain_pairs] at hreq
    split_ifs at hreq with a b c
    injection hreq with e
    subst e
    exact ⟨rfl, rfl, rfl, eq_some_getD_of_ne_nil _ a, a, eq_some_getD_of_ne_nil _ b, b,
      eq_some_getD_of_ne_nil _ c, c, rfl⟩
  · rw [parse_transaction_pairs] at hreq
    injection hreq with e
    subst e
    refine ⟨rfl, rfl, rfl, ?_⟩
    rw [has_key_eq_isSome] at h4
    exact eq_some_getD_of_isSome _ h4
  · rw [parse_transfer_pairs] at hreq
    split_ifs at hreq with a
    injection hreq with e
    subst e
    exact ⟨rfl, rfl, rfl, eq_some_getD_of_ne_nil _ a, a, rfl⟩

/-- C37. The first occurrence wins for the single-valued keys. In every request that
`parse_url` returns, the amount, the token, the source network and the link are the value of
the first occurrence of their key in the query, and the spl_token, the bridge, the label, the
message and the memo are the value of the first occurrence of their key when it is not empty
and are unset otherwise, whatever the later occurrences are (values as `url_decode` reads
them). A first `amount` that is empty is not replaced by a later one: without the key `link` no
request is returned. Two URLs that pass the grammar check, with the same scheme and path, the
same first value of each of the nine keys and the same references get the same result. So
`solana:r?amount=1&amount=999` yields the amount `1` and `solana:r?amount=&amount=5` is
rejected for a missing amount. -/
theorem parse_url_first_occurrence (url : Str) :
    (∀ r, parse_url url = .ok r →
      r.base.label = first_nonempty_value (query_pairs (url_query url)) "label".toList
      ∧ r.base.message = first_nonempty_value (query_pairs (url_query url)) "message".toList
      ∧ r.base.memo = first_nonempty_value (query_pairs (url_query url)) "memo".toList
      ∧ (match r with
        | .transfer t =>
          first_value (query_pairs (url_query url)) "amount".toList = some t.amount
            ∧ t.amount ≠ []
            ∧ t.spl_token
                = first_nonempty_value (query_pairs (url_query url)) "spl-token".toList
        | .transaction t =>
          first_value (query_pairs (url_query url)) "link".toList = some t.link
        | .crossChain c =>
          first_value (query_pairs (url_query url)) "amount".toList = some c.amount
            ∧ c.amount ≠ []
            ∧ first_value (query_pairs (url_query url)) "token".toList = some c.token
            ∧ c.token ≠ []
            ∧ first_value (query_pairs (url_query url)) "source-network".toList
                = some c.source_network
            ∧ c.source_network ≠ []
            ∧ c.bridge = first_nonempty_value (query_pairs (url_query url)) "bridge".toList))
    ∧ (first_value (query_pairs (url_query url)) "amount".toList = some [] →
        has_key (query_pairs (url_query url)) "link".toList = false →
        ∀ r, parse_url url ≠ .ok r)
    ∧ (∀ u2, grammar_check_fails url = false → grammar_check_fails u2 = false →
        url_protocol url = url_protocol u2 → url_path url = url_path u2 →
        (∀ k ∈ single_valued_keys,
          first_value (query_pairs (url_query url)) k
            = first_value (query_pairs (url_query u2)) k) →
        values_of (query_pairs (url_query url)) "reference".toList
          = values_of (query_pairs (url_query u2)) "reference".toList →
        parse_url url = parse_url u2)
    ∧ parse_url "solana:r?amount=1&amount=999".toList
      = .ok (.transfer ⟨⟨.TRANSFER, .SOLANA, "r".toList, none, none, none, []⟩,
          "1".toList, none⟩)
    ∧ parse_url "solana:r?amount=&amount=5".toList = .error .transferRequiresAmount
    ∧ error_kind (parse_url "solana:r?amount=&amount=5".toList)
      = some (.MissingRequiredParameter "amount".toList) := by
  refine ⟨fun r h => parse_url_fields_first_values url r h, ?_, ?_, by decide, by decide,
    by decide⟩
  · intro ha hl r h
    have hf := parse_url_fields_first_values url r h
    cases r with
    | transfer t =>
      obtain ⟨_, _, _, e, hne, _⟩ := hf
      rw [ha] at e
      exact hne (Option.some.inj e).symm
    | transaction t =>
      obtain ⟨_, _, _, e⟩ := hf
      rw [has_key_eq_isSome, e] at hl
      cases hl
    | crossChain c =>
      obtain ⟨_, _, _, e, hne, _⟩ := hf
      rw [ha] at e
      exact hne (Option.some.inj e).symm
  · intro u2 hg1 hg2 hp ht hf hr
    exact parse_url_congr_first_values url u2 hg1 hg2 hp ht hf hr

theorem parse_url_first_occurrence_witness :
    parse_url "solana:r?amount=1&amount=999&label=a&memo=&label=b&memo=c".toList
      = .ok (.transfer ⟨⟨.TRANSFER, .SOLANA, "r".toList, some "a".toList, none, none, []⟩,
          "1".toList, none⟩)
    ∧ first_value (query_pairs (url_query
          "solana:r?amount=1&amount=999&label=a&memo=&label=b&memo=c".toList)) "amount".toList
        = some "1".toList
    ∧ parse_url "solana:r?amount=1&amount=999&label=a&memo=&label=b&memo=c".toList
      = parse_url "solana:r?label=a&amount=1&memo=".toList
    ∧ ∀ r, parse_url "solana:r?amount=&amount=5".toList ≠ .ok r :=
  ⟨by decide,
    ((parse_url_first_occurrence
      "solana:r?amount=1&amount=999&label=a&memo=&label=b&memo=c".toList).1
      (.transfer ⟨⟨.TRANSFER, .SOLANA, "r".toList, some "a".toList, none, none, []⟩,
          "1".toList, none⟩) (by decide)).2.2.2.1,
    (parse_url_first_occurrence
      "solana:r?amount=1&amount=999&label=a&memo=&label=b&memo=c".toList).2.2.1
      "solana:r?label=a&amount=1&memo=".toList (by decide) (by decide) (by decide) (by decide)
      (by decide) (by decide),
    (parse_url_first_occurrence "solana:r?amount=&amount=5".toList).2.1 (by decide)
      (by decide)⟩

end SvmPay
